import Mathlib

/-!
# TaskWin: affiliate task ledger and postback reconciliation

A shallow embedding of the reconciliation core of the TaskWin repository:

* `src/functions/postback-handler.js`: `handleAffiliatePostback`,
  `processAffiliatePostback`, `creditCoinsToUser`, `logUserActivity`;
* `src/js/affiliate-manager.js`: `startAffiliateTask`, `handlePostback`,
  `creditCoinsToUser`, `logActivity` of the class `AffiliateManager`.

Modelling conventions.

* The document database is a record of collections; a collection is a list of
  documents, each a pair of a document id and its fields.
* JavaScript numbers are exact rationals plus `NaN`; rounding and the
  infinities of IEEE arithmetic are not modelled.  A field or variable that
  may be `undefined` or `null` is an `Option`.
* `serverTimestamp()` and `new Date()` read the clock value `now` that every
  operation receives.
* `await` is sequencing.  A rejected store operation of the server side is an
  entry of `Faults`; the code that throws by itself (`throw new Error`) is
  modelled as written.
-/

namespace TaskWin

/-! ## JavaScript values -/

/-- A JavaScript number: `NaN` or an exact rational value. -/
inductive JSNum where
  | nan : JSNum
  | val (q : ℚ) : JSNum
  deriving DecidableEq

/-- A number-valued field or variable that may be missing (`undefined`, `null`). -/
abbrev JSVal := Option JSNum

/-- The JavaScript `+` on two numbers. -/
def JSNum.add : JSNum → JSNum → JSNum
  | .val a, .val b => .val (a + b)
  | _, _ => .nan

/-- The `ToNumber` conversion applied by `+` to an operand; `undefined` gives `NaN`. -/
def toNumber : JSVal → JSNum
  | none => .nan
  | some n => n

/-- Truthiness of a number-valued expression: `undefined`, `null`, `NaN` and `0` are falsy. -/
def truthy : JSVal → Bool
  | some (.val q) => decide (q ≠ 0)
  | _ => false

/-- The expression `a || b` on number-valued operands. -/
def jsOr (a b : JSVal) : JSVal :=
  if truthy a then a else b

/-- The expression `a || d` where `a` is a text that may be missing and `d` a text literal;
`undefined` and the empty text are falsy. -/
def jsOrStr (a : Option String) (d : String) : String :=
  match a with
  | some s => if s ≠ "" then s else d
  | none => d

/-! ## The record store -/

/-- A collection: documents in query order, each with its document id. -/
abbrev Coll (α : Type) := List (String × α)

/-- The fields of the document stored under `id`, as read by `getDoc` or `ref.get()`. -/
def Coll.get {α : Type} : Coll α → String → Option α
  | [], _ => none
  | (k, v) :: c, id => if k = id then some v else Coll.get c id

/-- The collection after `update` of the document `id`: its fields are merged by `f`. -/
def Coll.update {α : Type} (c : Coll α) (id : String) (f : α → α) : Coll α :=
  c.map (fun d => (d.1, if d.1 = id then f d.2 else d.2))

/-- The collection after `setDoc(doc(db, coll, id), v)`: the document is replaced, or created. -/
def Coll.set {α : Type} (c : Coll α) (id : String) (v : α) : Coll α :=
  match c.get id with
  | some _ => c.update id (fun _ => v)
  | none => c ++ [(id, v)]

/-- A document of `userTasks` (a TaskClaim). -/
structure TaskClaim where
  userId : String
  campaignId : String
  status : String
  rewardCoins : JSVal
  startedAt : Nat
  campaignType : String
  affiliateNetwork : String
  completedAt : Option Nat := none
  actualReward : JSVal := none
  conversionId : Option String := none
  clickId : Option String := none
  postbackProcessedAt : Option Nat := none
  rejectedAt : Option Nat := none
  rejectionReason : Option String := none
  deriving DecidableEq

/-- A document of `users`, restricted to the fields the reconcilers read or write. -/
structure UserAccount where
  coins : JSVal
  lastActive : Option Nat := none
  updatedAt : Option Nat := none
  deriving DecidableEq

/-- The `details` object of an activity record. -/
structure ActivityDetails where
  campaignId : String
  reward : JSVal := none
  offerId : Option String := none
  reason : Option String := none
  conversionId : Option String := none
  clickId : Option String := none
  deriving DecidableEq

/-- A document of `activities`. -/
structure ActivityRecord where
  userId : String
  type : String
  details : ActivityDetails
  timestamp : Nat
  createdAt : Nat
  deriving DecidableEq

/-- A document of `postbackLogs`. -/
structure PostbackLog where
  userId : String
  status : String
  reward : JSVal
  offerId : Option String
  payout : JSVal
  clickId : Option String
  conversionId : Option String
  ip : Option String
  userAgent : Option String
  timestamp : Nat
  processed : Bool
  deriving DecidableEq

/-- The persisted collections. -/
structure Store where
  userTasks : Coll TaskClaim
  users : Coll UserAccount
  activities : List ActivityRecord
  postbackLogs : List PostbackLog
  deriving DecidableEq

/-- Rejections of store operations on the server side; each entry carries the
`message` of the error the operation rejects with. -/
structure Faults where
  /-- the query on `userTasks` rejects -/
  queryError : Option String
  /-- `taskDoc.ref.update` rejects, by document id -/
  updateError : String → Option String
  /-- `userRef.get()` or `userRef.update` rejects, by user id -/
  userError : String → Option String
  /-- `db.collection(activities).add` rejects, by record -/
  activityError : ActivityRecord → Bool
  /-- `db.collection(postbackLogs).add` rejects -/
  logError : Option String

/-- Every store operation succeeds. -/
def Faults.none : Faults :=
  ⟨Option.none, fun _ => Option.none, fun _ => Option.none, fun _ => false, Option.none⟩

/-! ## `src/functions/postback-handler.js` -/

/-- The argument object of `processAffiliatePostback`. -/
structure PostbackData where
  userId : String
  status : String
  reward : JSVal := none
  offerId : Option String := none
  payout : JSVal := none
  clickId : Option String := none
  conversionId : Option String := none
  reason : Option String := none
  deriving DecidableEq

/-- The object returned by `processAffiliatePostback`: `failure e` is
`{ success: false, error: e }`, and `processed s u st c` is
`{ success: s, userId: u, status: st, coinsAwarded: c }`. -/
inductive PostbackResult where
  | failure (error : String) : PostbackResult
  | processed (success : Bool) (userId status : String) (coinsAwarded : JSNum) : PostbackResult
  deriving DecidableEq

/-- The field `success` of the result. -/
def PostbackResult.success : PostbackResult → Bool
  | .failure _ => false
  | .processed s _ _ _ => s

/-- The field `coinsAwarded` of the result, missing on a failure object. -/
def PostbackResult.coinsAwarded : PostbackResult → JSVal
  | .failure _ => none
  | .processed _ _ _ c => some c

/-- The field `error` of the result, missing on a processed object. -/
def PostbackResult.error : PostbackResult → Option String
  | .failure e => some e
  | .processed _ _ _ _ => none

/-- `logUserActivity(userId, type, details)`: appends to `activities`; a rejected
append is caught and not rethrown. -/
def logUserActivity (F : Faults) (now : Nat) (st : Store) (userId type : String)
    (details : ActivityDetails) : Store :=
  let record : ActivityRecord := ⟨userId, type, details, now, now⟩
  if F.activityError record then st
  else { st with activities := st.activities ++ [record] }

/-- `creditCoinsToUser(userId, amount)`: the store afterwards, and the new balance
or the message of the error thrown. -/
def creditCoinsToUser (F : Faults) (now : Nat) (st : Store) (userId : String)
    (amount : JSVal) : Store × Except String JSNum :=
  match F.userError userId with
  | some e => (st, .error e)
  | none =>
    match st.users.get userId with
    | some userData =>
      let newCoinBalance := JSNum.add (toNumber (jsOr userData.coins (some (.val 0)))) (toNumber amount)
      let write : UserAccount → UserAccount := fun d =>
        { d with coins := some newCoinBalance, lastActive := some now, updatedAt := some now }
      ({ st with users := st.users.update userId write }, .ok newCoinBalance)
    | none => (st, .error ("User " ++ userId ++ " not found"))

/-- The local variables `coinsAwarded` and `taskUpdated` of `processAffiliatePostback`. -/
structure LoopVars where
  coinsAwarded : JSNum
  taskUpdated : Bool
  deriving DecidableEq

/-- The fields written by `taskDoc.ref.update` in the approved branch, merged into the
stored document `d`; `taskData` is the snapshot of the document. -/
def markCompleted (now : Nat) (pd : PostbackData) (taskData : TaskClaim) (d : TaskClaim) :
    TaskClaim :=
  { d with status := "completed", completedAt := some now,
           actualReward := jsOr pd.reward taskData.rewardCoins,
           conversionId := pd.conversionId, clickId := pd.clickId,
           postbackProcessedAt := some now }

/-- The fields written by `taskDoc.ref.update` in the rejected branch, merged into the
stored document `d`. -/
def markRejected (now : Nat) (pd : PostbackData) (d : TaskClaim) : TaskClaim :=
  { d with status := "rejected", rejectedAt := some now,
           rejectionReason := some (jsOrStr pd.reason "Offer requirements not met"),
           conversionId := pd.conversionId, clickId := pd.clickId,
           postbackProcessedAt := some now }

/-- The `details` of the activity logged in the approved branch for the snapshot `taskData`. -/
def completedDetails (pd : PostbackData) (taskData : TaskClaim) : ActivityDetails :=
  { campaignId := taskData.campaignId, reward := jsOr pd.reward taskData.rewardCoins,
    offerId := pd.offerId, conversionId := pd.conversionId, clickId := pd.clickId }

/-- The `details` of the activity logged in the rejected branch for the snapshot `taskData`. -/
def rejectedDetails (pd : PostbackData) (taskData : TaskClaim) : ActivityDetails :=
  { campaignId := taskData.campaignId, offerId := pd.offerId,
    reason := some (jsOrStr pd.reason "Requirements not met"),
    conversionId := pd.conversionId, clickId := pd.clickId }

/-- One iteration of the `for` loop of `processAffiliatePostback` on the snapshot
document `taskDoc`: the store afterwards, and the loop variables or the message
of the error thrown. -/
def processTask (F : Faults) (now : Nat) (pd : PostbackData) (taskDoc : String × TaskClaim)
    (st : Store) (vars : LoopVars) : Store × Except String LoopVars :=
  let taskData := taskDoc.2
  if pd.status = "approved" ∨ pd.status = "completed" then
    match F.updateError taskDoc.1 with
    | some e => (st, .error e)
    | none =>
      let st1 := { st with userTasks := st.userTasks.update taskDoc.1 (markCompleted now pd taskData) }
      let coinsToCredit := jsOr pd.reward taskData.rewardCoins
      match creditCoinsToUser F now st1 pd.userId coinsToCredit with
      | (st2, .error e) => (st2, .error e)
      | (st2, .ok _) =>
        let st3 := logUserActivity F now st2 pd.userId "affiliate_completed"
          (completedDetails pd taskData)
        (st3, .ok ⟨JSNum.add vars.coinsAwarded (toNumber coinsToCredit), true⟩)
  else if pd.status = "rejected" ∨ pd.status = "declined" then
    match F.updateError taskDoc.1 with
    | some e => (st, .error e)
    | none =>
      let st1 := { st with userTasks := st.userTasks.update taskDoc.1 (markRejected now pd) }
      let st2 := logUserActivity F now st1 pd.userId "affiliate_rejected"
        (rejectedDetails pd taskData)
      (st2, .ok ⟨vars.coinsAwarded, true⟩)
  else (st, .ok vars)

/-- The `for` loop of `processAffiliatePostback` over the documents of the query snapshot. -/
def processLoop (F : Faults) (now : Nat) (pd : PostbackData) :
    List (String × TaskClaim) → Store → LoopVars → Store × Except String LoopVars
  | [], st, vars => (st, .ok vars)
  | taskDoc :: docs, st, vars =>
    match processTask F now pd taskDoc st vars with
    | (st1, .error e) => (st1, .error e)
    | (st1, .ok vars1) => processLoop F now pd docs st1 vars1

/-- The documents of the query `userTasks where userId == u and status == pending`. -/
def pendingTasks (st : Store) (userId : String) : List (String × TaskClaim) :=
  st.userTasks.filter (fun d => decide (d.2.userId = userId) && decide (d.2.status = "pending"))

/-- `processAffiliatePostback(postbackData)`: the store afterwards and the object returned. -/
def processAffiliatePostback (F : Faults) (now : Nat) (st : Store) (pd : PostbackData) :
    Store × PostbackResult :=
  match F.queryError with
  | some e => (st, .failure e)
  | none =>
    let docs := pendingTasks st pd.userId
    if docs.isEmpty then (st, .failure "No pending tasks found for user")
    else
      match processLoop F now pd docs st ⟨.val 0, false⟩ with
      | (st1, .error e) => (st1, .failure e)
      | (st1, .ok vars) => (st1, .processed vars.taskUpdated pd.userId pd.status vars.coinsAwarded)

/-- The fields of `req` that `handleAffiliatePostback` reads: the method and the query parameters. -/
structure Request where
  method : String
  sub_id : Option String := none
  status : Option String := none
  reward : Option String := none
  offer_id : Option String := none
  payout : Option String := none
  click_id : Option String := none
  conversion_id : Option String := none
  ip : Option String := none
  user_agent : Option String := none
  deriving DecidableEq

/-- The JSON body of a response. -/
inductive ResponseBody where
  | empty : ResponseBody
  | ok (message userId status : String) (coinsAwarded : JSNum) : ResponseBody
  | error (error : Option String) : ResponseBody
  deriving DecidableEq

/-- The HTTP response: status code and body. -/
structure Response where
  code : Nat
  body : ResponseBody
  deriving DecidableEq

/-- The expression `x ? parseFloat(x) : null` on a query parameter. -/
def parseParam (parseFloat : String → JSNum) (x : Option String) : JSVal :=
  match x with
  | some s => if s ≠ "" then some (parseFloat s) else none
  | none => none

/-- The argument object that `handleAffiliatePostback` passes to `processAffiliatePostback`. -/
def postbackOf (parseFloat : String → JSNum) (req : Request) (userId status : String) :
    PostbackData :=
  { userId := userId, status := status, reward := parseParam parseFloat req.reward,
    offerId := req.offer_id, payout := parseParam parseFloat req.payout,
    clickId := req.click_id, conversionId := req.conversion_id }

/-- `handleAffiliatePostback(req, res)`: the store afterwards and the response sent.
The built-in `parseFloat` is a parameter. -/
def handleAffiliatePostback (parseFloat : String → JSNum) (F : Faults) (now : Nat) (st : Store)
    (req : Request) : Store × Response :=
  if req.method = "OPTIONS" then (st, ⟨204, .empty⟩)
  else
    match req.sub_id, req.status with
    | some userId, some status =>
      if userId = "" ∨ status = "" then
        (st, ⟨400, .error (some "Missing required parameters: sub_id and status")⟩)
      else
        match F.logError with
        | some _ => (st, ⟨500, .error (some "Internal server error")⟩)
        | none =>
          let entry : PostbackLog :=
            ⟨userId, status, parseParam parseFloat req.reward, req.offer_id,
              parseParam parseFloat req.payout, req.click_id, req.conversion_id, req.ip,
              req.user_agent, now, false⟩
          let st1 := { st with postbackLogs := st.postbackLogs ++ [entry] }
          let result := processAffiliatePostback F now st1 (postbackOf parseFloat req userId status)
          match result with
          | (st2, .processed true _ _ coinsAwarded) =>
            (st2, ⟨200, .ok "Postback processed successfully" userId status coinsAwarded⟩)
          | (st2, r) => (st2, ⟨400, .error r.error⟩)
    | _, _ => (st, ⟨400, .error (some "Missing required parameters: sub_id and status")⟩)

/-! ## `src/js/affiliate-manager.js`

The operations of the class `AffiliateManager`, with the store operations of the
client SDK taken to succeed. -/

/-- A subtask of a multi-task campaign, an element of the field `tasks`, restricted to
the fields `name`, `reward`, `completionTime` and `type`. -/
structure CampaignTask where
  name : String
  reward : JSNum
  completionTime : String
  type : String
  deriving DecidableEq

/-- A document of the collection `affiliateCampaigns` together with its document id, as
in the loaded catalog `this.campaigns`, restricted to the fields that `startAffiliateTask`,
`loadActiveCampaigns` and the admin creation path read or write.
`createAffiliateCampaign` refuses a campaign without title, description or affiliate
link.  The dates and times are the texts of the form inputs (`YYYY-MM-DD`, `HH:MM`). -/
structure Campaign where
  id : String
  title : String
  description : String
  affiliateLink : String
  rewardCoins : JSVal
  campaignType : Option String := none
  affiliateNetwork : Option String := none
  status : String := "active"
  countryRestrictions : Option (List String) := none
  startDate : Option String := none
  endDate : Option String := none
  startTime : Option String := none
  endTime : Option String := none
  tasks : Option (List CampaignTask) := none
  deriving DecidableEq

/-- The first occurrence of `pat` in a text: the text before it and the text after it. -/
def splitFirst (pat : List Char) : List Char → Option (List Char × List Char)
  | [] => if pat = [] then some ([], []) else none
  | c :: cs =>
    if pat.isPrefixOf (c :: cs) then some ([], (c :: cs).drop pat.length)
    else (splitFirst pat cs).map (fun r => (c :: r.1, r.2))

/-- The substitution text of `String.prototype.replace` for a text pattern: in the
replacement, `$$` stands for `$`, `$&` for the matched text, `$` followed by a backtick
for the text before the match and `$` followed by an apostrophe for the text after it. -/
def expandReplacement (matched before after : List Char) : List Char → List Char
  | [] => []
  | [c] => [c]
  | c :: d :: r =>
    if c = '$' then
      if d = '$' then '$' :: expandReplacement matched before after r
      else if d = '&' then matched ++ expandReplacement matched before after r
      else if d = Char.ofNat 96 then before ++ expandReplacement matched before after r
      else if d = Char.ofNat 39 then after ++ expandReplacement matched before after r
      else c :: expandReplacement matched before after (d :: r)
    else c :: expandReplacement matched before after (d :: r)

/-- `s.replace(pat, rep)` for a text pattern `pat`: only the first occurrence is replaced. -/
def jsReplace (s pat rep : String) : String :=
  match splitFirst pat.toList s.toList with
  | none => s
  | some (before, after) =>
    String.mk (before ++ expandReplacement pat.toList before after rep.toList ++ after)

/-- The template literal that builds the document id of a claim from user id and campaign id. -/
def taskKey (userId campaignId : String) : String :=
  userId ++ "_" ++ campaignId

/-- The object returned by `startAffiliateTask`; `title`, `reward` and `instructions`
are the fields of its `campaign` object. -/
structure StartResult where
  success : Bool
  trackingLink : String
  title : String
  reward : JSVal
  instructions : String
  deriving DecidableEq

namespace AffiliateManager

/-- The check of `startAffiliateTask` on the stored claim: the message of the error
thrown, if any. -/
def startRefusal : Option TaskClaim → Option String
  | some taskData =>
    if taskData.status = "completed" then some "Task already completed"
    else if taskData.status = "pending" then some "Task already in progress"
    else none
  | none => none

/-- `startAffiliateTask(userId, campaignId)` with `this.campaigns = campaigns`: the store
afterwards, and the object returned or the message of the error thrown. -/
def startAffiliateTask (campaigns : List Campaign) (now : Nat) (st : Store)
    (userId campaignId : String) : Store × Except String StartResult :=
  match campaigns.find? (fun c => decide (c.id = campaignId)) with
  | none => (st, .error "Campaign not found")
  | some campaign =>
    match startRefusal (st.userTasks.get (taskKey userId campaignId)) with
    | some e => (st, .error e)
    | none =>
      let claim : TaskClaim :=
        { userId := userId, campaignId := campaignId, status := "pending",
          rewardCoins := campaign.rewardCoins, startedAt := now,
          campaignType := jsOrStr campaign.campaignType "affiliate",
          affiliateNetwork := jsOrStr campaign.affiliateNetwork "unknown" }
      let st1 := { st with userTasks := st.userTasks.set (taskKey userId campaignId) claim }
      let trackingLink := jsReplace campaign.affiliateLink "\x7buserId\x7d" userId
      (st1, .ok ⟨true, trackingLink, campaign.title, campaign.rewardCoins, campaign.description⟩)

/-- `creditCoinsToUser(userId, amount)` of the manager: nothing is written when the
user document does not exist. -/
def creditCoinsToUser (now : Nat) (st : Store) (userId : String) (amount : JSVal) : Store :=
  match st.users.get userId with
  | some userData =>
    let newCoinBalance := JSNum.add (toNumber (jsOr userData.coins (some (.val 0)))) (toNumber amount)
    let write : UserAccount → UserAccount := fun d =>
      { d with coins := some newCoinBalance, lastActive := some now }
    { st with users := st.users.update userId write }
  | none => st

/-- `logActivity(userId, type, details)` of the manager. -/
def logActivity (now : Nat) (st : Store) (userId type : String) (details : ActivityDetails) :
    Store :=
  { st with activities := st.activities ++ [⟨userId, type, details, now, now⟩] }

/-- The argument object of `handlePostback`. -/
structure PostbackParams where
  sub_id : Option String
  status : Option String
  reward : JSVal := none
  offer_id : Option String := none
  reason : Option String := none
  deriving DecidableEq

/-- The object `{ success, userId, status }` returned by `handlePostback`. -/
structure HandleResult where
  success : Bool
  userId : String
  status : String
  deriving DecidableEq

/-- One iteration of the `for` loop of `handlePostback` on the snapshot document
`taskDoc`: the store and the variable `taskUpdated` afterwards. -/
def handleTask (now : Nat) (userId status : String) (reward : JSVal) (offer_id reason : Option String)
    (taskDoc : String × TaskClaim) (st : Store) (taskUpdated : Bool) : Store × Bool :=
  let taskData := taskDoc.2
  if status = "approved" ∨ status = "completed" then
    let write : TaskClaim → TaskClaim := fun d =>
      { d with status := "completed", completedAt := some now,
               actualReward := jsOr reward taskData.rewardCoins }
    let st1 := { st with userTasks := st.userTasks.update taskDoc.1 write }
    let st2 := creditCoinsToUser now st1 userId (jsOr reward taskData.rewardCoins)
    let st3 := logActivity now st2 userId "affiliate_completed"
      { campaignId := taskData.campaignId, reward := jsOr reward taskData.rewardCoins,
        offerId := offer_id }
    (st3, true)
  else if status = "rejected" ∨ status = "declined" then
    let write : TaskClaim → TaskClaim := fun d =>
      { d with status := "rejected", rejectedAt := some now,
               rejectionReason := some (jsOrStr reason "Offer requirements not met") }
    ({ st with userTasks := st.userTasks.update taskDoc.1 write }, true)
  else (st, taskUpdated)

/-- The `for` loop of `handlePostback` over the documents of the query snapshot. -/
def handleLoop (now : Nat) (userId status : String) (reward : JSVal) (offer_id reason : Option String) :
    List (String × TaskClaim) → Store → Bool → Store × Bool
  | [], st, taskUpdated => (st, taskUpdated)
  | taskDoc :: docs, st, taskUpdated =>
    let r := handleTask now userId status reward offer_id reason taskDoc st taskUpdated
    handleLoop now userId status reward offer_id reason docs r.1 r.2

/-- The documents of the query `userTasks where userId == u`. -/
def userTasksOf (st : Store) (userId : String) : List (String × TaskClaim) :=
  st.userTasks.filter (fun d => decide (d.2.userId = userId))

/-- `handlePostback(postbackData)`: the store afterwards, and the object returned or
the message of the error thrown. -/
def handlePostback (now : Nat) (st : Store) (postbackData : PostbackParams) :
    Store × Except String HandleResult :=
  match postbackData.sub_id, postbackData.status with
  | some userId, some status =>
    if userId = "" ∨ status = "" then (st, .error "Invalid postback data")
    else
      let r := handleLoop now userId status postbackData.reward postbackData.offer_id
        postbackData.reason (userTasksOf st userId) st false
      (r.1, .ok ⟨r.2, userId, status⟩)
  | _, _ => (st, .error "Invalid postback data")

end AffiliateManager

/-! ## The campaign catalog

`loadActiveCampaigns`, `createAffiliateCampaign` and `updateAffiliateCampaign` of
`src/js/affiliate-manager.js`, and the creation path of `src/js/affiliate-admin.js`.
The collection `affiliateCampaigns` is the list of its documents in query order. -/

/-- The JavaScript `-` on two numbers. -/
def JSNum.sub : JSNum → JSNum → JSNum
  | .val a, .val b => .val (a - b)
  | _, _ => .nan

/-- The JavaScript `*` on two numbers. -/
def JSNum.mul : JSNum → JSNum → JSNum
  | .val a, .val b => .val (a * b)
  | _, _ => .nan

/-- The JavaScript `<` on two numbers; false when an operand is `NaN`. -/
def JSNum.lt : JSNum → JSNum → Bool
  | .val a, .val b => decide (a < b)
  | _, _ => false

/-- The JavaScript `===` on two numbers; false when an operand is `NaN`. -/
def JSNum.strictEq : JSNum → JSNum → Bool
  | .val a, .val b => decide (a = b)
  | _, _ => false

/-- The text of a field when the field is truthy: `undefined`, `null` and the empty text
are falsy. -/
def truthyText : Option String → Option String
  | some s => if s ≠ "" then some s else none
  | none => none

/-- A reading of the clock by `new Date()`: the time value in milliseconds since the
epoch, and the local hour and minute that `getHours()` and `getMinutes()` return. -/
structure DateNow where
  time : Int
  hours : Nat
  minutes : Nat
  deriving DecidableEq

/-- The parts of a text between colons, as `split(':')` returns them. -/
def splitColon : List Char → List (List Char)
  | [] => [[]]
  | c :: cs =>
    match splitColon cs with
    | p :: ps => if c = ':' then [] :: p :: ps else (c :: p) :: ps
    | [] => if c = ':' then [[], []] else [[c]]

namespace AffiliateManager

/-- The callback of the first `filter` of `loadActiveCampaigns`: the country rule. -/
def countryFilter (userCountry : String) (campaign : Campaign) : Bool :=
  match campaign.countryRestrictions with
  | some restrictions =>
    if restrictions.length > 0 then decide (userCountry ∈ restrictions) else true
  | none => true

/-- The condition `startDate && now < startDate`, where `startDate` is
`new Date(campaign.startDate)` when the field is truthy and `null` otherwise; `newDate`
gives the time value of the built-in `Date` for a text, `none` for an invalid date. -/
def notStarted (newDate : String → Option Int) (now : DateNow) (campaign : Campaign) : Bool :=
  match (truthyText campaign.startDate).map newDate with
  | some (some startDate) => decide (now.time < startDate)
  | _ => false

/-- The condition `endDate && now > endDate`, where `endDate` is
`new Date(campaign.endDate)` when the field is truthy and `null` otherwise. -/
def expired (newDate : String → Option Int) (now : DateNow) (campaign : Campaign) : Bool :=
  match (truthyText campaign.endDate).map newDate with
  | some (some endDate) => decide (now.time > endDate)
  | _ => false

/-- The minutes since midnight of a text `HH:MM`: with
`[hour, min] = t.split(':').map(Number)`, the value `hour * 60 + min`; `number` is the
built-in `Number` on texts. -/
def minutesOf (number : String → JSNum) (t : String) : JSNum :=
  match (splitColon t.toList).map (fun p => number (String.mk p)) with
  | hour :: min :: _ => JSNum.add (JSNum.mul hour (.val 60)) min
  | _ => .nan

/-- The time-of-day check of `loadActiveCampaigns`: true when the campaign is reported as
not in its active hours. -/
def outsideHours (number : String → JSNum) (now : DateNow) (campaign : Campaign) : Bool :=
  let currentTime : JSNum := .val ((now.hours * 60 + now.minutes : Nat) : ℚ)
  match truthyText campaign.startTime, truthyText campaign.endTime with
  | some startTime, some endTime =>
    let startTimeMinutes := minutesOf number startTime
    let endTimeMinutes := minutesOf number endTime
    if !(JSNum.strictEq startTimeMinutes (.val 0) && JSNum.strictEq endTimeMinutes (.val 1439)) then
      JSNum.lt currentTime startTimeMinutes || JSNum.lt endTimeMinutes currentTime
    else false
  | _, _ => false

/-- The callback of the second `filter` of `loadActiveCampaigns`: the date rule and the
time-of-day rule. -/
def dateTimeFilter (newDate : String → Option Int) (number : String → JSNum) (now : DateNow)
    (campaign : Campaign) : Bool :=
  if notStarted newDate now campaign then false
  else if expired newDate now campaign then false
  else if outsideHours number now campaign then false
  else true

/-- The comparator `(a, b) => (b.rewardCoins || 0) - (a.rewardCoins || 0)`. -/
def compareReward (a b : Campaign) : JSNum :=
  JSNum.sub (toNumber (jsOr b.rewardCoins (some (.val 0))))
    (toNumber (jsOr a.rewardCoins (some (.val 0))))

/-- The comparator does not ask for `a` to be placed after `b`: its result is not
positive (`sort` treats `NaN` as `0`). -/
def keepsOrder (a b : Campaign) : Bool :=
  match compareReward a b with
  | .val q => decide (q ≤ 0)
  | .nan => true

/-- The call `sort(compareReward)`: `Array.prototype.sort` is a stable sort. -/
def sortByReward (campaigns : List Campaign) : List Campaign :=
  campaigns.insertionSort (fun a b => keepsOrder a b = true)

/-- `loadActiveCampaigns(userCountry)` on the stored campaigns: the list returned, which
is also assigned to `this.campaigns`.  The campaigns are checked at one reading `now`
of the clock. -/
def loadActiveCampaigns (newDate : String → Option Int) (number : String → JSNum)
    (now : DateNow) (stored : List Campaign) (userCountry : String) : List Campaign :=
  sortByReward
    (((stored.filter (fun c => decide (c.status = "active"))).filter
      (countryFilter userCountry)).filter (dateTimeFilter newDate number now))

/-- The argument object `campaignData` of `createAffiliateCampaign`, restricted to the
fields of `Campaign`. -/
structure CampaignData where
  title : Option String
  description : Option String
  affiliateLink : Option String
  rewardCoins : JSVal := none
  campaignType : Option String := none
  affiliateNetwork : Option String := none
  status : Option String := none
  countryRestrictions : Option (List String) := none
  startDate : Option String := none
  endDate : Option String := none
  startTime : Option String := none
  endTime : Option String := none
  tasks : Option (List CampaignTask) := none
  deriving DecidableEq

/-- `createAffiliateCampaign(campaignData)`: the collection afterwards, and the id of the
new document (`newId`, chosen by the store) or the message of the error thrown. -/
def createAffiliateCampaign (newId : String) (stored : List Campaign)
    (campaignData : CampaignData) : List Campaign × Except String String :=
  match truthyText campaignData.title, truthyText campaignData.description,
      truthyText campaignData.affiliateLink with
  | some title, some description, some affiliateLink =>
    if !truthy campaignData.rewardCoins ||
        JSNum.lt (toNumber campaignData.rewardCoins) (.val 1) then
      (stored, .error "Failed to create campaign: Reward coins must be at least 1")
    else
      let campaign : Campaign :=
        { id := newId, title := title, description := description,
          affiliateLink := affiliateLink, rewardCoins := campaignData.rewardCoins,
          campaignType := campaignData.campaignType,
          affiliateNetwork := campaignData.affiliateNetwork,
          status := jsOrStr campaignData.status "active",
          countryRestrictions := campaignData.countryRestrictions,
          startDate := campaignData.startDate, endDate := campaignData.endDate,
          startTime := campaignData.startTime, endTime := campaignData.endTime,
          tasks := campaignData.tasks }
      (stored ++ [campaign], .ok newId)
  | _, _, _ => (stored, .error "Missing required fields: title, description, or affiliate link")

/-- The argument object `updateData` of `updateAffiliateCampaign`, restricted to the
fields of `Campaign`; `none` for a key that the object does not carry. -/
structure CampaignUpdate where
  title : Option String := none
  description : Option String := none
  affiliateLink : Option String := none
  rewardCoins : Option JSNum := none
  campaignType : Option String := none
  affiliateNetwork : Option String := none
  status : Option String := none
  countryRestrictions : Option (List String) := none
  startDate : Option String := none
  endDate : Option String := none
  startTime : Option String := none
  endTime : Option String := none
  tasks : Option (List CampaignTask) := none
  deriving DecidableEq

/-- The fields of `updateData` merged into the stored document `c` by `updateDoc`. -/
def mergeUpdate (updateData : CampaignUpdate) (c : Campaign) : Campaign :=
  { id := c.id,
    title := updateData.title.getD c.title,
    description := updateData.description.getD c.description,
    affiliateLink := updateData.affiliateLink.getD c.affiliateLink,
    rewardCoins := (updateData.rewardCoins.map some).getD c.rewardCoins,
    campaignType := (updateData.campaignType.map some).getD c.campaignType,
    affiliateNetwork := (updateData.affiliateNetwork.map some).getD c.affiliateNetwork,
    status := updateData.status.getD c.status,
    countryRestrictions := (updateData.countryRestrictions.map some).getD c.countryRestrictions,
    startDate := (updateData.startDate.map some).getD c.startDate,
    endDate := (updateData.endDate.map some).getD c.endDate,
    startTime := (updateData.startTime.map some).getD c.startTime,
    endTime := (updateData.endTime.map some).getD c.endTime,
    tasks := (updateData.tasks.map some).getD c.tasks }

/-- `updateAffiliateCampaign(campaignId, updateData)`: the collection afterwards; `none`
when no document has the id, where `updateDoc` fails and the error is thrown again. -/
def updateAffiliateCampaign (stored : List Campaign) (campaignId : String)
    (updateData : CampaignUpdate) : Option (List Campaign) :=
  if stored.any (fun c => decide (c.id = campaignId)) then
    some (stored.map (fun c => if c.id = campaignId then mergeUpdate updateData c else c))
  else none

end AffiliateManager

namespace AffiliateAdminManager

/-- The values of the inputs of one `.task-field` element of the form; `none` where the
input is not found. -/
structure TaskField where
  name : Option String := none
  reward : Option String := none
  steps : Option String := none
  completionTime : Option String := none
  type : Option String := none
  deriving DecidableEq

/-- The values of the campaign form read by `handleAddCampaign`; `countryRestrictions`
holds the trimmed parts of the input text between commas. -/
structure CampaignForm where
  title : Option String := none
  description : Option String := none
  affiliateLink : Option String := none
  campaignType : Option String := none
  affiliateNetwork : Option String := none
  countryRestrictions : Option (List String) := none
  startDate : Option String := none
  endDate : Option String := none
  startTime : Option String := none
  endTime : Option String := none
  rewardCoins : Option String := none
  taskFields : List TaskField := []
  deriving DecidableEq

/-- The expression `tasks.reduce((total, task) => total + task.reward, 0)`. -/
def rewardTotal (tasks : List CampaignTask) : JSNum :=
  tasks.foldl (fun total task => JSNum.add total task.reward) (.val 0)

/-- `parseInt` applied to the value of an input that may be missing; `parseInt` is the
built-in on texts. -/
def parseIntOf (parseInt : String → JSNum) : Option String → JSNum
  | some t => parseInt t
  | none => .nan

/-- The body of the `forEach` callback of `handleAddCampaign`: the task pushed for a
`.task-field` element, if any. -/
def taskOfField (parseInt : String → JSNum) (taskField : TaskField) : Option CampaignTask :=
  let taskReward := parseIntOf parseInt taskField.reward
  match truthyText taskField.name, truthy (some taskReward), truthyText taskField.steps with
  | some taskName, true, some _ =>
    some { name := taskName, reward := taskReward,
           completionTime := jsOrStr taskField.completionTime "24-48 Hours",
           type := jsOrStr taskField.type "other" }
  | _, _, _ => none

/-- The `try` block at the end of `handleAddCampaign`: the collection afterwards and the
message shown. -/
def submitCampaign (newId : String) (stored : List Campaign)
    (campaignData : AffiliateManager.CampaignData) : List Campaign × Except String String :=
  match AffiliateManager.createAffiliateCampaign newId stored campaignData with
  | (stored1, .ok _) => (stored1, .ok "Campaign created successfully!")
  | (stored1, .error e) => (stored1, .ok ("Error creating campaign: " ++ e))

/-- `handleAddCampaign(e)` on the values of the form: the collection afterwards, and the
message shown or the message of the error thrown. -/
def handleAddCampaign (parseInt : String → JSNum) (newId : String) (stored : List Campaign)
    (form : CampaignForm) : List Campaign × Except String String :=
  let campaignData : AffiliateManager.CampaignData :=
    { title := form.title, description := form.description,
      affiliateLink := form.affiliateLink, campaignType := form.campaignType,
      affiliateNetwork := form.affiliateNetwork,
      countryRestrictions := some (form.countryRestrictions.getD []),
      startDate := form.startDate, endDate := form.endDate,
      startTime := form.startTime, endTime := form.endTime, status := some "active" }
  if form.campaignType = some "Multi-Task" then
    let tasks := form.taskFields.filterMap (taskOfField parseInt)
    if tasks.length = 0 then
      (stored, .error "At least one task is required for multi-task campaigns")
    else
      submitCampaign newId stored
        { campaignData with tasks := some tasks, rewardCoins := some (rewardTotal tasks) }
  else
    let rewardCoins := parseIntOf parseInt form.rewardCoins
    if !truthy (some rewardCoins) || JSNum.lt rewardCoins (.val 1) then
      (stored, .error "Reward coins must be at least 1")
    else submitCampaign newId stored { campaignData with rewardCoins := some rewardCoins }

/-- `createSampleMultiTaskCampaign()`; `today` and `nextMonth` are the texts
`toISOString().split(T)[0]` of the two dates. -/
def createSampleMultiTaskCampaign (today nextMonth : String) : AffiliateManager.CampaignData :=
  let tasks : List CampaignTask :=
    [{ name := "Account Open", reward := .val 40, completionTime := "48 Hours",
       type := "registration" },
     { name := "Trade", reward := .val 70, completionTime := "24-48 Hours", type := "trade" }]
  { title := some "Bajaj Broking Account Opening",
    description := some "Complete account opening and trading tasks to earn rewards",
    affiliateLink :=
      some "https://track.network.com/click?offer_id=bajaj&aff_id=999&sub_id=\x7buserId\x7d",
    campaignType := some "Multi-Task", affiliateNetwork := some "Bajaj Partners",
    countryRestrictions := some ["IN"], startDate := some today, endDate := some nextMonth,
    startTime := some "00:00", endTime := some "23:59", status := some "active",
    tasks := some tasks, rewardCoins := some (rewardTotal tasks) }

end AffiliateAdminManager

/-! ## Vocabulary of the statements -/

/-- The statuses that the reconcilers recognise. -/
def recognised (status : String) : Prop :=
  status = "approved" ∨ status = "completed" ∨ status = "rejected" ∨ status = "declined"

instance (status : String) : Decidable (recognised status) := by
  unfold recognised; infer_instance

/-- The rational value of a number-valued field; `0` when it is missing or `NaN`. -/
def ratOf : JSVal → ℚ
  | some (.val q) => q
  | _ => 0

/-- The activity record that the approved branch appends for the snapshot document `d`. -/
def completedRecord (now : Nat) (pd : PostbackData) (d : String × TaskClaim) : ActivityRecord :=
  ⟨pd.userId, "affiliate_completed", completedDetails pd d.2, now, now⟩

/-- The activity record that the rejected branch appends for the snapshot document `d`. -/
def rejectedRecord (now : Nat) (pd : PostbackData) (d : String × TaskClaim) : ActivityRecord :=
  ⟨pd.userId, "affiliate_rejected", rejectedDetails pd d.2, now, now⟩

/-- The reward of an approved claim with numeric snapshot reward `s`, in terms of the
override passed to `processAffiliatePostback`: the override when it is a number other
than `0`, the snapshot reward otherwise. -/
def chosenReward (reward : JSVal) (s : ℚ) : ℚ :=
  match reward with
  | some (.val q) => if q = 0 then s else q
  | _ => s

/-- The reward of an approved claim with numeric snapshot reward `s`, in terms of the
text of the query parameter `reward`: the parsed number when the parameter is present
and parses to a number other than `0`; the snapshot reward when the parameter is
absent or empty, does not parse to a number, or parses to `0`. -/
def selectedReward (parseFloat : String → JSNum) (reward : Option String) (s : ℚ) : ℚ :=
  match reward with
  | none => s
  | some t =>
    if t = "" then s
    else
      match parseFloat t with
      | .val r => if r = 0 then s else r
      | .nan => s

/-- A stand-in for the built-in `parseFloat` on texts of decimal digits, where the
built-in returns the number that the digits denote; `NaN` on every other text. -/
def parseDigits (t : String) : JSNum :=
  if t.toList ≠ [] ∧ t.toList.all Char.isDigit then
    .val ((t.toList.foldl (fun n c => 10 * n + (c.toNat - 48)) 0 : Nat) : ℚ)
  else .nan

/-! ## Sample data -/

/-- A pending claim of user `u1` for campaign `c1` with snapshot reward 150. -/
def sampleClaim : TaskClaim :=
  { userId := "u1", campaignId := "c1", status := "pending", rewardCoins := some (.val 150),
    startedAt := 0, campaignType := "affiliate", affiliateNetwork := "unknown" }

/-- A store with user `u1`, who holds 100 coins and the pending claim `sampleClaim`. -/
def sampleStore : Store :=
  { userTasks := [("u1_c1", sampleClaim)], users := [("u1", { coins := some (.val 100) })],
    activities := [], postbackLogs := [] }

/-- A catalog with the single campaign `c1`, whose reward is 150. -/
def sampleCampaigns : List Campaign :=
  [{ id := "c1", title := "Sample offer", description := "Install and register",
     affiliateLink := "https://track.example/click?sub_id=\x7buserId\x7d",
     rewardCoins := some (.val 150) }]

/-- A store with user `u1`, who holds 100 coins, and no claim. -/
def freshStore : Store :=
  { userTasks := [], users := [("u1", { coins := some (.val 100) })], activities := [],
    postbackLogs := [] }

/-- The record that `handleAffiliatePostback` appends to `postbackLogs` for a request
that passed validation. -/
def logEntry (parseFloat : String → JSNum) (now : Nat) (req : Request) (userId status : String) :
    PostbackLog :=
  ⟨userId, status, parseParam parseFloat req.reward, req.offer_id,
    parseParam parseFloat req.payout, req.click_id, req.conversion_id, req.ip,
    req.user_agent, now, false⟩

/-- The response that `handleAffiliatePostback` sends for the result of
`processAffiliatePostback`. -/
def responseOf (userId status : String) (result : PostbackResult) : Response :=
  match result with
  | .processed true _ _ coinsAwarded =>
    ⟨200, .ok "Postback processed successfully" userId status coinsAwarded⟩
  | r => ⟨400, .error r.error⟩

/-- A store whose query on `userTasks` rejects with the message `UNAVAILABLE`, every other
operation succeeding. -/
def queryFault : Faults :=
  { Faults.none with queryError := some "UNAVAILABLE" }

/-- The object that `processAffiliatePostback` returns for the outcome of its loop. -/
def resultOf (pd : PostbackData) : Except String LoopVars → PostbackResult
  | .error e => .failure e
  | .ok vars => .processed vars.taskUpdated pd.userId pd.status vars.coinsAwarded

/-- A store in which user `u1` holds 100 coins and two pending claims, with snapshot
rewards 150 and 40. -/
def twoClaimStore : Store :=
  { userTasks := [("u1_c1", sampleClaim),
      ("u1_c2", { sampleClaim with campaignId := "c2", rewardCoins := some (.val 40) })],
    users := [("u1", { coins := some (.val 100) })], activities := [], postbackLogs := [] }

/-- A stand-in for the built-in `parseFloat` on texts of decimal digits with an optional
leading minus sign, where the built-in returns the number that the text denotes; `NaN` on
every other text. -/
def parseSignedDigits (t : String) : JSNum :=
  match t.toList with
  | '-' :: cs =>
    match parseDigits (String.mk cs) with
    | .val q => .val (-q)
    | .nan => .nan
  | _ => parseDigits t

/-- The user `v` holds a numeric balance of at least `b` in the store. -/
def holdsAtLeast (st : Store) (v : String) (b : ℚ) : Prop :=
  ∃ acct x, st.users.get v = some acct ∧ acct.coins = some (.val x) ∧ b ≤ x

/-- A catalog with the campaigns `c` and `b_c`. -/
def clashCampaigns : List Campaign :=
  [{ id := "c", title := "Offer one", description := "Register",
     affiliateLink := "https://track.example/one?sub_id=\x7buserId\x7d",
     rewardCoins := some (.val 10) },
   { id := "b_c", title := "Offer two", description := "Install",
     affiliateLink := "https://track.example/two?sub_id=\x7buserId\x7d",
     rewardCoins := some (.val 20) }]

/-- The message of the error thrown, if the operation threw. -/
def errorOf {α : Type} : Except String α → Option String
  | .error e => some e
  | .ok _ => none

/-- The text of the placeholder that `startAffiliateTask` replaces. -/
def placeholder : String := "\x7buserId\x7d"

/-- A catalog whose campaign `c1` carries the placeholder twice in its link. -/
def twoPlaceholderCampaigns : List Campaign :=
  [{ id := "c1", title := "Sample offer", description := "Install and register",
     affiliateLink := "https://track.example/click?a=\x7buserId\x7d&b=\x7buserId\x7d",
     rewardCoins := some (.val 150) }]

/-- A store with two users: `u1` holds 100 coins and the pending claim `sampleClaim`, `u2`
holds 30 coins and a pending claim for the same campaign. -/
def otherUserStore : Store :=
  { userTasks := [("u1_c1", sampleClaim), ("u2_c1", { sampleClaim with userId := "u2" })],
    users := [("u1", { coins := some (.val 100) }), ("u2", { coins := some (.val 30) })],
    activities := [], postbackLogs := [] }

/-- The fields written by `updateDoc` in the approved branch of `handlePostback`, merged
into the stored document `d`; `taskData` is the snapshot of the document. -/
def completedByManager (now : Nat) (reward : JSVal) (taskData d : TaskClaim) : TaskClaim :=
  { d with status := "completed", completedAt := some now,
           actualReward := jsOr reward taskData.rewardCoins }

/-- A store with the pending claim `sampleClaim` of user `u1` and no user record. -/
def orphanStore : Store :=
  { userTasks := [("u1_c1", sampleClaim)], users := [], activities := [], postbackLogs := [] }

/-! ## Vocabulary and sample data of the campaign catalog -/

/-- A stand-in for the built-ins `Number` and `parseInt` on non-empty texts of decimal
digits, where both return the number that the digits denote; `NaN` on every other text. -/
def digitsNumber (t : String) : JSNum :=
  parseDigits t

/-- The number denoted by a list of decimal digits. -/
def digitsNat (cs : List Char) : Nat :=
  cs.foldl (fun n c => 10 * n + (c.toNat - 48)) 0

/-- The number of days from 1970-01-01 to day `d` of month `m` of year `y`. -/
def daysFromCivil (y m d : Int) : Int :=
  let y1 := if m ≤ 2 then y - 1 else y
  let era := y1 / 400
  let yoe := y1 - era * 400
  let mp := (m + 9) % 12
  let doy := (153 * mp + 2) / 5 + d - 1
  let doe := yoe * 365 + yoe / 4 - yoe / 100 + doy
  era * 146097 + doe - 719468

/-- A stand-in for the time value of the built-in `new Date(t)` on date-only texts
`YYYY-MM-DD` that denote a day, which the built-in reads as midnight UTC at the start of
that day; `none` on texts of another shape. -/
def utcMidnight (t : String) : Option Int :=
  match t.toList with
  | [y1, y2, y3, y4, '-', m1, m2, '-', d1, d2] =>
    if [y1, y2, y3, y4, m1, m2, d1, d2].all Char.isDigit then
      some (daysFromCivil (digitsNat [y1, y2, y3, y4]) (digitsNat [m1, m2])
        (digitsNat [d1, d2]) * 86400000)
    else none
  | _ => none

/-- The multi-task reward invariant: `rewardCoins` is the sum of the rewards of the
subtasks. -/
def rewardInvariant (c : Campaign) : Prop :=
  c.rewardCoins = some (AffiliateAdminManager.rewardTotal (c.tasks.getD []))

/-- An active campaign with reward 150 that is restricted to the country `IN` and has no
date or time window. -/
def restrictedCampaign : Campaign :=
  { id := "c1", title := "Sample offer", description := "Install and register",
    affiliateLink := "https://track.example/click?sub_id=\x7buserId\x7d",
    rewardCoins := some (.val 150), countryRestrictions := some ["IN"] }

/-- An active campaign with reward 150 and the daily window 09:00 to 17:00. -/
def officeHoursCampaign : Campaign :=
  { id := "c1", title := "Sample offer", description := "Install and register",
    affiliateLink := "https://track.example/click?sub_id=\x7buserId\x7d",
    rewardCoins := some (.val 150), startTime := some "09:00", endTime := some "17:00" }

/-- An active campaign with reward 150 and the daily window 22:00 to 06:00. -/
def overnightCampaign : Campaign :=
  { id := "c1", title := "Sample offer", description := "Install and register",
    affiliateLink := "https://track.example/click?sub_id=\x7buserId\x7d",
    rewardCoins := some (.val 150), startTime := some "22:00", endTime := some "06:00" }

/-- An active campaign with reward 150 that runs from 2026-01-05 to 2026-01-10. -/
def datedCampaign : Campaign :=
  { id := "c1", title := "Sample offer", description := "Install and register",
    affiliateLink := "https://track.example/click?sub_id=\x7buserId\x7d",
    rewardCoins := some (.val 150), startDate := some "2026-01-05",
    endDate := some "2026-01-10" }

/-- A stored multi-task campaign with subtasks of reward 40 and 70 and `rewardCoins` 110. -/
def multiTaskCampaign : Campaign :=
  { id := "m1", title := "Account opening", description := "Open an account and trade",
    affiliateLink := "https://track.example/click?sub_id=\x7buserId\x7d",
    rewardCoins := some (.val 110), campaignType := some "Multi-Task",
    tasks := some [{ name := "Account Open", reward := .val 40, completionTime := "48 Hours",
                     type := "registration" },
                   { name := "Trade", reward := .val 70, completionTime := "24-48 Hours",
                     type := "trade" }] }

/-- The values of a multi-task campaign form with two task fields, of reward 40 and 70. -/
def multiTaskForm : AffiliateAdminManager.CampaignForm :=
  { title := some "Account opening", description := some "Open an account and trade",
    affiliateLink := some "https://track.example/click?sub_id=\x7buserId\x7d",
    campaignType := some "Multi-Task",
    taskFields := [{ name := some "Account Open", reward := some "40", steps := some "Register" },
                   { name := some "Trade", reward := some "70", steps := some "Add funds" }] }

/-! ## Lemmas on collections -/

theorem Coll.get_update {α : Type} (c : Coll α) (id k : String) (f : α → α) :
    (c.update id f).get k = if k = id then (c.get k).map f else c.get k := by
  induction c with
  | nil => simp [Coll.update, Coll.get]
  | cons d c ih =>
    obtain ⟨a, v⟩ := d
    simp only [Coll.update, List.map_cons, Coll.get] at ih ⊢
    rw [ih]
    by_cases h2 : a = k
    · subst h2; by_cases h3 : a = id <;> simp [h3]
    · simp [h2]

/-! ## Lemmas on `processAffiliatePostback` -/

theorem creditCoinsToUser_userTasks (F : Faults) (now : Nat) (st : Store) (u : String)
    (a : JSVal) : (creditCoinsToUser F now st u a).1.userTasks = st.userTasks := by
  unfold creditCoinsToUser
  split
  · rfl
  · split <;> rfl

theorem logUserActivity_userTasks (F : Faults) (now : Nat) (st : Store) (u t : String)
    (d : ActivityDetails) : (logUserActivity F now st u t d).userTasks = st.userTasks := by
  unfold logUserActivity
  simp only []
  split <;> rfl

theorem processTask_users_of_rejected (F : Faults) (now : Nat) (pd : PostbackData)
    (d : String × TaskClaim) (st : Store) (vars : LoopVars)
    (h : pd.status = "rejected" ∨ pd.status = "declined") :
    (processTask F now pd d st vars).1.users = st.users := by
  unfold processTask
  rcases h with h | h <;> simp [h, logUserActivity] <;> split <;> (try split) <;> rfl

theorem processLoop_users_of_rejected (F : Faults) (now : Nat) (pd : PostbackData)
    (h : pd.status = "rejected" ∨ pd.status = "declined") (docs : List (String × TaskClaim)) :
    ∀ (st : Store) (vars : LoopVars), (processLoop F now pd docs st vars).1.users = st.users := by
  induction docs with
  | nil => intro st vars; rfl
  | cons d docs ih =>
    intro st vars
    have h1 := processTask_users_of_rejected F now pd d st vars h
    simp only [processLoop]
    rcases hp : processTask F now pd d st vars with ⟨st1, _ | vars1⟩
    · rw [hp] at h1; exact h1
    · rw [hp] at h1; simp only []; rw [ih st1 vars1]; exact h1

theorem processTask_of_unrecognised (F : Faults) (now : Nat) (pd : PostbackData)
    (d : String × TaskClaim) (st : Store) (vars : LoopVars) (h : ¬ recognised pd.status) :
    processTask F now pd d st vars = (st, .ok vars) := by
  unfold recognised at h
  simp only [not_or] at h
  simp [processTask, h.1, h.2.1, h.2.2.1, h.2.2.2]

theorem processLoop_of_unrecognised (F : Faults) (now : Nat) (pd : PostbackData)
    (h : ¬ recognised pd.status) (docs : List (String × TaskClaim)) (st : Store)
    (vars : LoopVars) : processLoop F now pd docs st vars = (st, .ok vars) := by
  induction docs with
  | nil => rfl
  | cons d docs ih => simp only [processLoop, processTask_of_unrecognised F now pd d st vars h, ih]

theorem pendingTasks_update (st st1 : Store) (k u : String) (w : TaskClaim → TaskClaim)
    (hw : ∀ c, (w c).status ≠ "pending")
    (h1 : st1.userTasks = st.userTasks.update k w) :
    pendingTasks st1 u = (pendingTasks st u).filter (fun e => decide (e.1 ≠ k)) := by
  unfold pendingTasks
  rw [h1]
  generalize st.userTasks = ut
  induction ut with
  | nil => simp [Coll.update]
  | cons d ut ih =>
    simp only [Coll.update, List.map_cons] at ih ⊢
    by_cases hk : d.1 = k
    · simp only [hk, if_true, List.filter_cons, hw, decide_False, Bool.and_false, ih]
      by_cases hp : (decide (d.2.userId = u) && decide (d.2.status = "pending")) = true
      · simp [hp, hk]
      · simp [hp]
    · simp only [hk, if_false, List.filter_cons, ih]
      by_cases hp : (decide (d.2.userId = u) && decide (d.2.status = "pending")) = true
      · simp [hp, hk]
      · simp [hp]

theorem processTask_pending (F : Faults) (now : Nat) (pd : PostbackData)
    (d : String × TaskClaim) (st st1 : Store) (vars vars1 : LoopVars) (u : String)
    (hs : recognised pd.status)
    (h : processTask F now pd d st vars = (st1, .ok vars1)) :
    pendingTasks st1 u = (pendingTasks st u).filter (fun e => decide (e.1 ≠ d.1)) := by
  unfold processTask at h
  by_cases ha : pd.status = "approved" ∨ pd.status = "completed"
  · simp only [ha, if_true] at h
    rcases hu : F.updateError d.1 with _ | e
    · simp only [hu] at h
      split at h
      · simp at h
      · rename_i st2 x hc
        simp only [Prod.mk.injEq] at h
        apply pendingTasks_update st st1 d.1 u (markCompleted now pd d.2)
        · intro c; simp [markCompleted]
        · rw [← h.1, logUserActivity_userTasks]
          have := creditCoinsToUser_userTasks F now
            { st with userTasks := st.userTasks.update d.1 (markCompleted now pd d.2) } pd.userId
            (jsOr pd.reward d.2.rewardCoins)
          rw [hc] at this
          exact this
    · simp [hu] at h
  · have hr : pd.status = "rejected" ∨ pd.status = "declined" := by
      unfold recognised at hs; tauto
    simp only [ha, if_false, hr, if_true] at h
    rcases hu : F.updateError d.1 with _ | e
    · simp only [hu, Prod.mk.injEq] at h
      apply pendingTasks_update st st1 d.1 u (markRejected now pd)
      · intro c; simp [markRejected]
      · rw [← h.1, logUserActivity_userTasks]
    · simp [hu] at h

theorem processLoop_pending (F : Faults) (now : Nat) (pd : PostbackData) (u : String)
    (hs : recognised pd.status) (docs : List (String × TaskClaim)) :
    ∀ (st st1 : Store) (vars vars1 : LoopVars),
      processLoop F now pd docs st vars = (st1, .ok vars1) →
      pendingTasks st1 u =
        (pendingTasks st u).filter (fun e => decide (e.1 ∉ docs.map (fun x => x.1))) := by
  induction docs with
  | nil =>
    intro st st1 vars vars1 h
    simp only [processLoop, Prod.mk.injEq] at h
    simp [← h.1]
  | cons d docs ih =>
    intro st st1 vars vars1 h
    simp only [processLoop] at h
    rcases hp : processTask F now pd d st vars with ⟨st2, e | vars2⟩
    · simp [hp] at h
    · simp only [hp] at h
      rw [ih st2 st1 vars2 vars1 h, processTask_pending F now pd d st st2 vars vars2 u hs hp,
        List.filter_filter]
      apply List.filter_congr
      intro x _
      by_cases hx : x.1 = d.1 <;> simp [hx]

theorem processTask_rejected (now : Nat) (pd : PostbackData) (d : String × TaskClaim)
    (st : Store) (vars : LoopVars) (h : pd.status = "rejected" ∨ pd.status = "declined") :
    processTask Faults.none now pd d st vars =
      ({ st with userTasks := st.userTasks.update d.1 (markRejected now pd),
                 activities := st.activities ++ [rejectedRecord now pd d] },
       .ok ⟨vars.coinsAwarded, true⟩) := by
  rcases h with h | h <;>
    simp [processTask, h, Faults.none, logUserActivity, rejectedRecord]

theorem processLoop_rejected (now : Nat) (pd : PostbackData)
    (h : pd.status = "rejected" ∨ pd.status = "declined") (docs : List (String × TaskClaim)) :
    ∀ (st : Store) (vars : LoopVars),
      processLoop Faults.none now pd docs st vars =
        ({ st with
            userTasks := docs.foldl (fun ut d => Coll.update ut d.1 (markRejected now pd)) st.userTasks,
            activities := st.activities ++ docs.map (rejectedRecord now pd) },
         .ok ⟨vars.coinsAwarded, vars.taskUpdated || !docs.isEmpty⟩) := by
  induction docs with
  | nil => intro st vars; simp [processLoop]
  | cons d docs ih =>
    intro st vars
    simp only [processLoop, processTask_rejected now pd d st vars h, ih]
    simp

theorem processTask_approved (now : Nat) (pd : PostbackData) (d : String × TaskClaim)
    (st : Store) (vars : LoopVars) (acct : UserAccount)
    (h : pd.status = "approved" ∨ pd.status = "completed")
    (hu : st.users.get pd.userId = some acct) :
    processTask Faults.none now pd d st vars =
      ({ st with
          userTasks := st.userTasks.update d.1 (markCompleted now pd d.2),
          users := st.users.update pd.userId (fun a =>
            { a with
              coins := some (JSNum.add (toNumber (jsOr acct.coins (some (.val 0))))
                (toNumber (jsOr pd.reward d.2.rewardCoins))),
              lastActive := some now, updatedAt := some now }),
          activities := st.activities ++ [completedRecord now pd d] },
       .ok ⟨JSNum.add vars.coinsAwarded (toNumber (jsOr pd.reward d.2.rewardCoins)), true⟩) := by
  rcases h with h | h <;>
    simp [processTask, h, Faults.none, logUserActivity, completedRecord, creditCoinsToUser, hu]


theorem toNumber_jsOr_zero (b : ℚ) :
    toNumber (jsOr (some (.val b)) (some (.val 0))) = .val b := by
  by_cases hb : b = 0 <;> simp [jsOr, truthy, toNumber, hb]

theorem processLoop_approved (now : Nat) (pd : PostbackData)
    (h : pd.status = "approved" ∨ pd.status = "completed") (docs : List (String × TaskClaim)) :
    ∀ (st : Store) (vars : LoopVars) (acct : UserAccount),
      st.users.get pd.userId = some acct →
      ∃ st1 vars1 acct1,
        processLoop Faults.none now pd docs st vars = (st1, .ok vars1) ∧
        st1.userTasks =
          docs.foldl (fun ut d => Coll.update ut d.1 (markCompleted now pd d.2)) st.userTasks ∧
        st1.activities = st.activities ++ docs.map (completedRecord now pd) ∧
        st1.postbackLogs = st.postbackLogs ∧
        st1.users.get pd.userId = some acct1 ∧
        (∀ v, v ≠ pd.userId → st1.users.get v = st.users.get v) ∧
        vars1.taskUpdated = (vars.taskUpdated || !docs.isEmpty) ∧
        (∀ b a, acct.coins = some (.val b) → vars.coinsAwarded = .val a →
          (∀ d ∈ docs, ∃ q, jsOr pd.reward d.2.rewardCoins = some (.val q)) →
          acct1.coins =
            some (.val (b + (docs.map (fun d => ratOf (jsOr pd.reward d.2.rewardCoins))).sum)) ∧
          vars1.coinsAwarded =
            .val (a + (docs.map (fun d => ratOf (jsOr pd.reward d.2.rewardCoins))).sum)) := by
  induction docs with
  | nil =>
    intro st vars acct hu
    exact ⟨st, vars, acct, by simp [processLoop], rfl, by simp, rfl, hu, fun _ _ => rfl,
      by simp, fun b a hb ha _ => by simp [hb, ha]⟩
  | cons d docs ih =>
    intro st vars acct hu
    have hstep := processTask_approved now pd d st vars acct h hu
    set st2 : Store :=
      { st with
          userTasks := st.userTasks.update d.1 (markCompleted now pd d.2),
          users := st.users.update pd.userId (fun a =>
            { a with
              coins := some (JSNum.add (toNumber (jsOr acct.coins (some (.val 0))))
                (toNumber (jsOr pd.reward d.2.rewardCoins))),
              lastActive := some now, updatedAt := some now }),
          activities := st.activities ++ [completedRecord now pd d] } with hst2
    have hu2 : st2.users.get pd.userId = some
        { acct with
            coins := some (JSNum.add (toNumber (jsOr acct.coins (some (.val 0))))
              (toNumber (jsOr pd.reward d.2.rewardCoins))),
            lastActive := some now, updatedAt := some now } := by
      simp [hst2, Coll.get_update, hu]
    obtain ⟨st1, vars1, acct1, hl, ht, ha, hp, hg, ho, hv, hn⟩ := ih st2
      ⟨JSNum.add vars.coinsAwarded (toNumber (jsOr pd.reward d.2.rewardCoins)), true⟩ _ hu2
    refine ⟨st1, vars1, acct1, ?_, ?_, ?_, ?_, hg, ?_, ?_, ?_⟩
    · simp only [processLoop, hstep]; exact hl
    · rw [ht]; rfl
    · rw [ha]; simp [hst2]
    · rw [hp]
    · intro v hv'
      rw [ho v hv']
      simp [hst2, Coll.get_update, hv']
    · rw [hv]; simp
    · intro b a hb hca hall
      obtain ⟨q, hq⟩ := hall d (List.mem_cons_self _ _)
      have := hn (b + q) (ratOf vars.coinsAwarded + q)
        (by simp only [hb, hq, toNumber_jsOr_zero]; rfl)
        (by simp [hca, hq, toNumber, JSNum.add, ratOf])
        (fun e he => hall e (List.mem_cons_of_mem _ he))
      simp only [List.map_cons, List.sum_cons, hq, ratOf]
      rw [this.1, this.2]
      simp [hca, ratOf, add_assoc]

theorem Coll.get_of_mem {α : Type} (c : Coll α) (k : String) (v : α) (h : (k, v) ∈ c) :
    ∃ v1, c.get k = some v1 := by
  induction c with
  | nil => simp at h
  | cons d c ih =>
    obtain ⟨a, x⟩ := d
    by_cases ha : a = k
    · exact ⟨x, by simp [Coll.get, ha]⟩
    · have : (k, v) ∈ c := by
        rcases List.mem_cons.mp h with h1 | h1
        · exact absurd (congrArg Prod.fst h1).symm ha
        · exact h1
      obtain ⟨v1, hv1⟩ := ih this
      exact ⟨v1, by simp [Coll.get, ha, hv1]⟩

theorem Coll.get_of_mem_nodup {α : Type} (c : Coll α) (k : String) (v : α)
    (hn : (c.map (fun d => d.1)).Nodup) (h : (k, v) ∈ c) : c.get k = some v := by
  induction c with
  | nil => simp at h
  | cons d c ih =>
    obtain ⟨a, x⟩ := d
    simp only [List.map_cons, List.nodup_cons, List.mem_map, not_exists, not_and] at hn
    rcases List.mem_cons.mp h with h1 | h1
    · simp only [Prod.mk.injEq] at h1
      simp [Coll.get, h1.1, h1.2]
    · have ha : a ≠ k := fun e => hn.1 (k, v) h1 e.symm
      simp [Coll.get, ha, ih hn.2 h1]

theorem foldl_update_get_other (w : String × TaskClaim → TaskClaim → TaskClaim) (k : String)
    (docs : List (String × TaskClaim)) :
    ∀ ut : Coll TaskClaim, k ∉ docs.map (fun d => d.1) →
      (docs.foldl (fun ut d => Coll.update ut d.1 (w d)) ut).get k = ut.get k := by
  induction docs with
  | nil => intro ut _; rfl
  | cons e docs ih =>
    intro ut hk
    simp only [List.map_cons, List.mem_cons, not_or] at hk
    simp only [List.foldl_cons]
    rw [ih _ hk.2, Coll.get_update, if_neg hk.1]

theorem foldl_update_get_mem (w : String × TaskClaim → TaskClaim → TaskClaim)
    (docs : List (String × TaskClaim)) :
    ∀ (ut : Coll TaskClaim) (d : String × TaskClaim), (docs.map (fun d => d.1)).Nodup →
      d ∈ docs →
      (docs.foldl (fun ut d => Coll.update ut d.1 (w d)) ut).get d.1 = (ut.get d.1).map (w d) := by
  induction docs with
  | nil => intro ut d _ hd; simp at hd
  | cons e docs ih =>
    intro ut d hn hd
    simp only [List.map_cons, List.nodup_cons] at hn
    simp only [List.foldl_cons]
    rcases List.mem_cons.mp hd with h1 | h1
    · subst h1
      rw [foldl_update_get_other w d.1 docs _ hn.1, Coll.get_update, if_pos rfl]
    · have hne : d.1 ≠ e.1 := by
        intro he
        exact hn.1 (he ▸ List.mem_map_of_mem (fun d => d.1) h1)
      rw [ih _ d hn.2 h1, Coll.get_update, if_neg hne]

theorem foldl_update_get_invariant (w : String × TaskClaim → TaskClaim → TaskClaim)
    (P : TaskClaim → Prop) (hP : ∀ d c, P (w d c)) (k : String)
    (docs : List (String × TaskClaim)) :
    ∀ ut : Coll TaskClaim, (∃ c, ut.get k = some c ∧ P c) →
      ∃ c, (docs.foldl (fun ut d => Coll.update ut d.1 (w d)) ut).get k = some c ∧ P c := by
  induction docs with
  | nil => intro ut h; exact h
  | cons e docs ih =>
    intro ut h
    obtain ⟨c, hc, hpc⟩ := h
    simp only [List.foldl_cons]
    apply ih
    rw [Coll.get_update]
    by_cases hk : k = e.1
    · exact ⟨w e c, by rw [if_pos hk, hc]; rfl, hP e c⟩
    · exact ⟨c, by rw [if_neg hk, hc], hpc⟩

theorem foldl_update_get_establish (w : String × TaskClaim → TaskClaim → TaskClaim)
    (P : TaskClaim → Prop) (hP : ∀ d c, P (w d c)) (k : String)
    (docs : List (String × TaskClaim)) :
    ∀ ut : Coll TaskClaim, k ∈ docs.map (fun d => d.1) → (∃ c, ut.get k = some c) →
      ∃ c, (docs.foldl (fun ut d => Coll.update ut d.1 (w d)) ut).get k = some c ∧ P c := by
  induction docs with
  | nil => intro ut hk; simp at hk
  | cons e docs ih =>
    intro ut hk h
    obtain ⟨c, hc⟩ := h
    simp only [List.foldl_cons]
    by_cases he : k = e.1
    · apply foldl_update_get_invariant w P hP
      exact ⟨w e c, by rw [Coll.get_update, if_pos he, hc]; rfl, hP e c⟩
    · apply ih
      · simp only [List.map_cons, List.mem_cons] at hk
        exact hk.resolve_left he
      · exact ⟨c, by rw [Coll.get_update, if_neg he, hc]⟩

theorem pendingTasks_subset (st : Store) (u : String) (d : String × TaskClaim)
    (h : d ∈ pendingTasks st u) :
    d ∈ st.userTasks ∧ d.2.userId = u ∧ d.2.status = "pending" := by
  simpa [pendingTasks, List.mem_filter] using h

theorem pendingTasks_nodup (st : Store) (u : String)
    (h : (st.userTasks.map (fun d => d.1)).Nodup) :
    ((pendingTasks st u).map (fun d => d.1)).Nodup := by
  unfold pendingTasks
  exact List.Nodup.sublist (List.Sublist.map _ (List.filter_sublist _)) h

theorem processAffiliatePostback_fst (F : Faults) (now : Nat) (st : Store) (pd : PostbackData)
    (hq : F.queryError = none) :
    (processAffiliatePostback F now st pd).1 =
      (processLoop F now pd (pendingTasks st pd.userId) st ⟨.val 0, false⟩).1 := by
  unfold processAffiliatePostback
  simp only [hq]
  by_cases hd : pendingTasks st pd.userId = []
  · simp [hd, processLoop]
  · simp only [List.isEmpty_iff, hd, if_false]
    split <;> rename_i heq <;> rw [heq]

theorem jsOr_chosen (reward : JSVal) (s : ℚ) :
    jsOr reward (some (.val s)) = some (.val (chosenReward reward s)) := by
  rcases reward with _ | _ | q
  · rfl
  · rfl
  · by_cases hq : q = 0 <;> simp [jsOr, truthy, chosenReward, hq]

theorem chosenReward_parseParam (parseFloat : String → JSNum) (x : Option String) (s : ℚ) :
    chosenReward (parseParam parseFloat x) s = selectedReward parseFloat x s := by
  rcases x with _ | t
  · rfl
  · by_cases ht : t = ""
    · simp [parseParam, selectedReward, chosenReward, ht]
    · simp only [parseParam, selectedReward, chosenReward, ht, ne_eq, not_false_eq_true, if_true,
        if_false]
      rcases parseFloat t with _ | r <;> rfl

theorem handleAffiliatePostback_fst (parseFloat : String → JSNum) (now : Nat) (st : Store)
    (req : Request) (u status : String) (hm : req.method ≠ "OPTIONS")
    (hsub : req.sub_id = some u) (hu : u ≠ "") (hst : req.status = some status)
    (hs : status ≠ "") :
    ∃ st0 : Store, st0.userTasks = st.userTasks ∧ st0.users = st.users ∧
      st0.activities = st.activities ∧
      (handleAffiliatePostback parseFloat Faults.none now st req).1 =
        (processAffiliatePostback Faults.none now st0 (postbackOf parseFloat req u status)).1 := by
  refine ⟨{ st with postbackLogs := st.postbackLogs ++
    [⟨u, status, parseParam parseFloat req.reward, req.offer_id,
      parseParam parseFloat req.payout, req.click_id, req.conversion_id, req.ip,
      req.user_agent, now, false⟩] }, rfl, rfl, rfl, ?_⟩
  unfold handleAffiliatePostback
  simp only [hm, if_false, hsub, hst, hu, hs, or_self, Faults.none]
  split <;> rename_i heq <;> rw [heq]

theorem processAffiliatePostback_approved (now : Nat) (st : Store) (pd : PostbackData)
    (acct : UserAccount) (hs : pd.status = "approved" ∨ pd.status = "completed")
    (hu : st.users.get pd.userId = some acct) :
    ∃ acct1,
      (processAffiliatePostback Faults.none now st pd).1.userTasks =
        (pendingTasks st pd.userId).foldl
          (fun ut d => Coll.update ut d.1 (markCompleted now pd d.2)) st.userTasks ∧
      (processAffiliatePostback Faults.none now st pd).1.activities =
        st.activities ++ (pendingTasks st pd.userId).map (completedRecord now pd) ∧
      (processAffiliatePostback Faults.none now st pd).1.users.get pd.userId = some acct1 ∧
      (∀ v, v ≠ pd.userId →
        (processAffiliatePostback Faults.none now st pd).1.users.get v = st.users.get v) ∧
      (∀ b, acct.coins = some (.val b) →
        (∀ d ∈ pendingTasks st pd.userId, ∃ q, jsOr pd.reward d.2.rewardCoins = some (.val q)) →
        acct1.coins = some (.val (b + ((pendingTasks st pd.userId).map
          (fun d => ratOf (jsOr pd.reward d.2.rewardCoins))).sum)) ∧
        (pendingTasks st pd.userId ≠ [] →
          (processAffiliatePostback Faults.none now st pd).2 =
            .processed true pd.userId pd.status (.val (0 + ((pendingTasks st pd.userId).map
              (fun d => ratOf (jsOr pd.reward d.2.rewardCoins))).sum)))) := by
  obtain ⟨st1, vars1, acct1, hl, ht, ha, _, hg, ho, hv, hn⟩ :=
    processLoop_approved now pd hs (pendingTasks st pd.userId) st ⟨.val 0, false⟩ acct hu
  have hfst := processAffiliatePostback_fst Faults.none now st pd rfl
  rw [hl] at hfst
  simp only [] at hfst
  refine ⟨acct1, ?_, ?_, ?_, ?_, ?_⟩
  · rw [hfst, ht]
  · rw [hfst, ha]
  · rw [hfst, hg]
  · intro v hv'; rw [hfst, ho v hv']
  · intro b hb hall
    obtain ⟨h1, h2⟩ := hn b 0 hb rfl hall
    refine ⟨h1, fun hne => ?_⟩
    unfold processAffiliatePostback
    simp only [Faults.none, List.isEmpty_iff, hne, if_false]
    have hl2 := hl
    simp only [Faults.none] at hl2
    rw [hl2]
    simp only [hv, h2]
    simp [hne]

/-! ## Lemmas on `setDoc` -/

theorem Coll.get_append_new {α : Type} (c : Coll α) (id : String) (v : α)
    (h : c.get id = none) : (c ++ [(id, v)]).get id = some v := by
  induction c with
  | nil => simp [Coll.get]
  | cons d c ih =>
    obtain ⟨a, x⟩ := d
    by_cases ha : a = id
    · simp [Coll.get, ha] at h
    · simp only [Coll.get, ha, if_false] at h
      simp only [List.cons_append, Coll.get, ha, if_false]
      exact ih h

theorem Coll.get_set_self {α : Type} (c : Coll α) (id : String) (v : α) :
    (c.set id v).get id = some v := by
  unfold Coll.set
  rcases h : c.get id with _ | x
  · exact Coll.get_append_new c id v h
  · simp [Coll.get_update, h]

/-! ## Lemmas on `handleAffiliatePostback` -/

theorem handleAffiliatePostback_valid (parseFloat : String → JSNum) (F : Faults) (now : Nat)
    (st : Store) (req : Request) (u status : String) (hm : req.method ≠ "OPTIONS")
    (hsub : req.sub_id = some u) (hu : u ≠ "") (hst : req.status = some status)
    (hs : status ≠ "") (hl : F.logError = none) :
    handleAffiliatePostback parseFloat F now st req =
      ((processAffiliatePostback F now
          { st with postbackLogs := st.postbackLogs ++ [logEntry parseFloat now req u status] }
          (postbackOf parseFloat req u status)).1,
       responseOf u status (processAffiliatePostback F now
          { st with postbackLogs := st.postbackLogs ++ [logEntry parseFloat now req u status] }
          (postbackOf parseFloat req u status)).2) := by
  unfold handleAffiliatePostback
  simp only [hm, if_false, hsub, hst, hu, hs, or_self, hl, logEntry]
  rcases processAffiliatePostback F now _ (postbackOf parseFloat req u status) with
    ⟨st2, e | ⟨b, x, y, c⟩⟩
  · rfl
  · cases b <;> rfl

theorem handleAffiliatePostback_log_failure (parseFloat : String → JSNum) (F : Faults)
    (now : Nat) (st : Store) (req : Request) (u status e : String)
    (hm : req.method ≠ "OPTIONS") (hsub : req.sub_id = some u) (hu : u ≠ "")
    (hst : req.status = some status) (hs : status ≠ "") (hl : F.logError = some e) :
    handleAffiliatePostback parseFloat F now st req =
      (st, ⟨500, .error (some "Internal server error")⟩) := by
  unfold handleAffiliatePostback
  simp only [hm, if_false, hsub, hst, hu, hs, or_self, hl]

theorem creditCoinsToUser_postbackLogs (F : Faults) (now : Nat) (st : Store) (u : String)
    (a : JSVal) : (creditCoinsToUser F now st u a).1.postbackLogs = st.postbackLogs := by
  unfold creditCoinsToUser
  split
  · rfl
  · split <;> rfl

theorem logUserActivity_postbackLogs (F : Faults) (now : Nat) (st : Store) (u t : String)
    (d : ActivityDetails) : (logUserActivity F now st u t d).postbackLogs = st.postbackLogs := by
  unfold logUserActivity
  simp only []
  split <;> rfl

theorem processTask_postbackLogs (F : Faults) (now : Nat) (pd : PostbackData)
    (d : String × TaskClaim) (st : Store) (vars : LoopVars) :
    (processTask F now pd d st vars).1.postbackLogs = st.postbackLogs := by
  unfold processTask
  simp only []
  split
  · split
    · rfl
    · split
      · rename_i heq
        have := creditCoinsToUser_postbackLogs F now
          { st with userTasks := st.userTasks.update d.1 (markCompleted now pd d.2) } pd.userId
          (jsOr pd.reward d.2.rewardCoins)
        rw [heq] at this
        exact this
      · rename_i heq
        have := creditCoinsToUser_postbackLogs F now
          { st with userTasks := st.userTasks.update d.1 (markCompleted now pd d.2) } pd.userId
          (jsOr pd.reward d.2.rewardCoins)
        rw [heq] at this
        simp only [logUserActivity_postbackLogs]
        exact this
  · split
    · split
      · rfl
      · simp only [logUserActivity_postbackLogs]
    · rfl

theorem processLoop_postbackLogs (F : Faults) (now : Nat) (pd : PostbackData)
    (docs : List (String × TaskClaim)) :
    ∀ (st : Store) (vars : LoopVars),
      (processLoop F now pd docs st vars).1.postbackLogs = st.postbackLogs := by
  induction docs with
  | nil => intro st vars; rfl
  | cons d docs ih =>
    intro st vars
    have h1 := processTask_postbackLogs F now pd d st vars
    simp only [processLoop]
    rcases hp : processTask F now pd d st vars with ⟨st1, _ | vars1⟩
    · rw [hp] at h1; exact h1
    · rw [hp] at h1; simp only []; rw [ih st1 vars1]; exact h1

theorem processAffiliatePostback_postbackLogs (F : Faults) (now : Nat) (st : Store)
    (pd : PostbackData) :
    (processAffiliatePostback F now st pd).1.postbackLogs = st.postbackLogs := by
  unfold processAffiliatePostback
  split
  · rfl
  · simp only []
    split
    · rfl
    · have h1 := processLoop_postbackLogs F now pd (pendingTasks st pd.userId) st ⟨.val 0, false⟩
      split <;> rename_i heq <;> rw [heq] at h1 <;> exact h1


theorem processAffiliatePostback_update_failure (F : Faults) (now : Nat) (st : Store)
    (pd : PostbackData) (d : String × TaskClaim) (ds : List (String × TaskClaim)) (e : String)
    (hq : F.queryError = none) (hp : pendingTasks st pd.userId = d :: ds)
    (hr : recognised pd.status) (he : F.updateError d.1 = some e) :
    (processAffiliatePostback F now st pd).2 = .failure e := by
  have ht : ∀ vars, processTask F now pd d st vars = (st, .error e) := by
    intro vars
    unfold processTask
    by_cases ha : pd.status = "approved" ∨ pd.status = "completed"
    · simp only [ha, if_true, he]
    · have hrj : pd.status = "rejected" ∨ pd.status = "declined" := by
        unfold recognised at hr; tauto
      simp only [ha, if_false, hrj, if_true, he]
  simp only [processAffiliatePostback, hq, hp, List.isEmpty_cons, Bool.false_eq_true, if_false,
    processLoop, ht]

theorem processAffiliatePostback_user_failure (F : Faults) (now : Nat) (st : Store)
    (pd : PostbackData) (d : String × TaskClaim) (ds : List (String × TaskClaim)) (e : String)
    (hq : F.queryError = none) (hp : pendingTasks st pd.userId = d :: ds)
    (ha : pd.status = "approved" ∨ pd.status = "completed") (hup : F.updateError d.1 = none)
    (he : F.userError pd.userId = some e) :
    (processAffiliatePostback F now st pd).2 = .failure e := by
  have ht : ∀ vars, (processTask F now pd d st vars).2 = .error e := by
    intro vars
    simp only [processTask, ha, if_true, hup, creditCoinsToUser, he]
  simp only [processAffiliatePostback, hq, hp, List.isEmpty_cons, Bool.false_eq_true, if_false,
    processLoop]
  have h2 := ht ⟨.val 0, false⟩
  rcases hpt : processTask F now pd d st ⟨.val 0, false⟩ with ⟨st1, e1 | v1⟩
  · rw [hpt] at h2
    simp only [Except.error.injEq] at h2
    simp only [h2]
  · rw [hpt] at h2
    cases h2

/-! ## Lemmas on failures of the activity log -/

theorem processAffiliatePostback_loop (F : Faults) (now : Nat) (st : Store) (pd : PostbackData)
    (hq : F.queryError = none) (hd : pendingTasks st pd.userId ≠ []) :
    processAffiliatePostback F now st pd =
      ((processLoop F now pd (pendingTasks st pd.userId) st ⟨.val 0, false⟩).1,
       resultOf pd (processLoop F now pd (pendingTasks st pd.userId) st ⟨.val 0, false⟩).2) := by
  unfold processAffiliatePostback
  simp only [hq, List.isEmpty_iff, hd, if_false]
  rcases processLoop F now pd (pendingTasks st pd.userId) st ⟨.val 0, false⟩ with ⟨s1, e1 | v1⟩ <;>
    rfl

theorem processTask_activity_fault (F : Faults) (a1 a2 : ActivityRecord → Bool) (now : Nat)
    (pd : PostbackData) (d : String × TaskClaim) (st1 st2 : Store) (vars : LoopVars)
    (ht : st1.userTasks = st2.userTasks) (hu : st1.users = st2.users) :
    (processTask { F with activityError := a1 } now pd d st1 vars).2 =
      (processTask { F with activityError := a2 } now pd d st2 vars).2 ∧
    (processTask { F with activityError := a1 } now pd d st1 vars).1.userTasks =
      (processTask { F with activityError := a2 } now pd d st2 vars).1.userTasks ∧
    (processTask { F with activityError := a1 } now pd d st1 vars).1.users =
      (processTask { F with activityError := a2 } now pd d st2 vars).1.users := by
  obtain ⟨ut1, us1, ac1, pl1⟩ := st1
  obtain ⟨ut2, us2, ac2, pl2⟩ := st2
  simp only at ht hu
  subst ht hu
  unfold processTask
  by_cases ha : pd.status = "approved" ∨ pd.status = "completed"
  · simp only [ha, if_true]
    rcases F.updateError d.1 with _ | e
    · simp only [creditCoinsToUser]
      rcases F.userError pd.userId with _ | e
      · simp only []
        rcases Coll.get us1 pd.userId with _ | acct
        · simp
        · simp only [logUserActivity]
          refine ⟨trivial, ?_, ?_⟩ <;> split <;> split <;> rfl
      · simp
    · simp
  · simp only [ha, if_false]
    by_cases hr : pd.status = "rejected" ∨ pd.status = "declined"
    · simp only [hr, if_true]
      rcases F.updateError d.1 with _ | e
      · simp only [logUserActivity]
        refine ⟨trivial, ?_, ?_⟩ <;> split <;> split <;> rfl
      · simp
    · simp only [hr, if_false]
      simp

theorem processLoop_activity_fault (F : Faults) (a1 a2 : ActivityRecord → Bool) (now : Nat)
    (pd : PostbackData) (docs : List (String × TaskClaim)) :
    ∀ (st1 st2 : Store) (vars : LoopVars), st1.userTasks = st2.userTasks →
      st1.users = st2.users →
      (processLoop { F with activityError := a1 } now pd docs st1 vars).2 =
        (processLoop { F with activityError := a2 } now pd docs st2 vars).2 ∧
      (processLoop { F with activityError := a1 } now pd docs st1 vars).1.userTasks =
        (processLoop { F with activityError := a2 } now pd docs st2 vars).1.userTasks ∧
      (processLoop { F with activityError := a1 } now pd docs st1 vars).1.users =
        (processLoop { F with activityError := a2 } now pd docs st2 vars).1.users := by
  induction docs with
  | nil => intro st1 st2 vars ht hu; exact ⟨rfl, ht, hu⟩
  | cons d docs ih =>
    intro st1 st2 vars ht hu
    obtain ⟨h1, h2, h3⟩ := processTask_activity_fault F a1 a2 now pd d st1 st2 vars ht hu
    simp only [processLoop]
    rcases hp1 : processTask { F with activityError := a1 } now pd d st1 vars with ⟨s1, e1 | v1⟩ <;>
    rcases hp2 : processTask { F with activityError := a2 } now pd d st2 vars with ⟨s2, e2 | v2⟩ <;>
    rw [hp1, hp2] at h1 h2 h3 <;> simp only at h1 h2 h3
    · simp only [Except.error.injEq] at h1
      exact ⟨by rw [h1], h2, h3⟩
    · cases h1
    · cases h1
    · simp only [Except.ok.injEq] at h1
      subst h1
      exact ih s1 s2 v1 h2 h3

/-! ## Lemmas on the balance -/

theorem processLoop_approved_first (now : Nat) (pd : PostbackData)
    (h : pd.status = "approved" ∨ pd.status = "completed") (d : String × TaskClaim)
    (ds : List (String × TaskClaim)) (st : Store) (vars : LoopVars) (acct : UserAccount)
    (b a : ℚ) (hu : st.users.get pd.userId = some acct)
    (hb : acct.coins = some (.val b) ∨ (acct.coins = none ∧ b = 0))
    (ha : vars.coinsAwarded = .val a)
    (hall : ∀ e ∈ d :: ds, ∃ q, jsOr pd.reward e.2.rewardCoins = some (.val q)) :
    ∃ st1 vars1 acct1,
      processLoop Faults.none now pd (d :: ds) st vars = (st1, .ok vars1) ∧
      st1.userTasks =
        (d :: ds).foldl (fun ut d => Coll.update ut d.1 (markCompleted now pd d.2)) st.userTasks ∧
      st1.activities = st.activities ++ (d :: ds).map (completedRecord now pd) ∧
      st1.users.get pd.userId = some acct1 ∧
      (∀ v, v ≠ pd.userId → st1.users.get v = st.users.get v) ∧
      vars1.taskUpdated = true ∧
      acct1.coins = some (.val (b +
        ((d :: ds).map (fun d => ratOf (jsOr pd.reward d.2.rewardCoins))).sum)) ∧
      vars1.coinsAwarded = .val (a +
        ((d :: ds).map (fun d => ratOf (jsOr pd.reward d.2.rewardCoins))).sum) := by
  obtain ⟨q, hq⟩ := hall d (List.mem_cons_self _ _)
  have hbal : toNumber (jsOr acct.coins (some (.val 0))) = .val b := by
    rcases hb with hb | ⟨hb, h0⟩
    · rw [hb, toNumber_jsOr_zero]
    · rw [hb, h0]; rfl
  have hstep := processTask_approved now pd d st vars acct h hu
  rw [hbal, hq, ha] at hstep
  set st2 : Store :=
    { st with
        userTasks := st.userTasks.update d.1 (markCompleted now pd d.2),
        users := st.users.update pd.userId (fun x =>
          { x with
            coins := some (JSNum.add (.val b) (toNumber (some (.val q)))),
            lastActive := some now, updatedAt := some now }),
        activities := st.activities ++ [completedRecord now pd d] } with hst2
  have hu2 : st2.users.get pd.userId = some ⟨some (.val (b + q)), some now, some now⟩ := by
    simp only [hst2, Coll.get_update, if_true, hu, Option.map_some']
    rfl
  obtain ⟨st1, vars1, acct1, hl, ht, hac, _, hg, ho, hv, hn⟩ :=
    processLoop_approved now pd h ds st2 ⟨JSNum.add (.val a) (toNumber (some (.val q))), true⟩
      _ hu2
  obtain ⟨hn1, hn2⟩ := hn (b + q) (a + q) rfl rfl (fun e he => hall e (List.mem_cons_of_mem _ he))
  refine ⟨st1, vars1, acct1, ?_, ?_, ?_, hg, ?_, ?_, ?_, ?_⟩
  · simp only [processLoop, hstep]; exact hl
  · rw [ht]; rfl
  · rw [hac]; simp [hst2]
  · intro v hv'
    rw [ho v hv']
    simp [hst2, Coll.get_update, hv']
  · rw [hv]; rfl
  · rw [hn1]; simp [hq, ratOf, add_assoc]
  · rw [hn2]; simp [hq, ratOf, add_assoc]


theorem processTask_holdsAtLeast (F : Faults) (now : Nat) (pd : PostbackData)
    (d : String × TaskClaim) (st : Store) (vars : LoopVars) (v : String) (b : ℚ)
    (hq : ∃ q, jsOr pd.reward d.2.rewardCoins = some (.val q) ∧ 0 ≤ q)
    (h : holdsAtLeast st v b) : holdsAtLeast (processTask F now pd d st vars).1 v b := by
  obtain ⟨q, hq, hq0⟩ := hq
  obtain ⟨acct, x, hv, hx, hbx⟩ := h
  unfold processTask
  by_cases ha : pd.status = "approved" ∨ pd.status = "completed"
  · simp only [ha, if_true]
    rcases F.updateError d.1 with _ | e
    · simp only [creditCoinsToUser]
      rcases F.userError pd.userId with _ | e
      · simp only []
        rcases hg : st.users.get pd.userId with _ | userData
        · exact ⟨acct, x, hv, hx, hbx⟩
        · simp only [logUserActivity]
          by_cases hvu : v = pd.userId
          · have hud : userData = acct := by
              rw [hvu, hg] at hv; exact Option.some.inj hv
            refine ⟨⟨some (.val (x + q)), some now, some now⟩, x + q, ?_, rfl, by linarith⟩
            split <;>
              simp only [Coll.get_update, hvu, if_true, hg, Option.map_some', hud, hx, hq,
                toNumber_jsOr_zero] <;> rfl
          · refine ⟨acct, x, ?_, hx, hbx⟩
            split <;> simp only [Coll.get_update, if_neg hvu, hv]
      · exact ⟨acct, x, hv, hx, hbx⟩
    · exact ⟨acct, x, hv, hx, hbx⟩
  · simp only [ha, if_false]
    by_cases hr : pd.status = "rejected" ∨ pd.status = "declined"
    · simp only [hr, if_true]
      rcases F.updateError d.1 with _ | e
      · simp only [logUserActivity]
        refine ⟨acct, x, ?_, hx, hbx⟩
        split <;> exact hv
      · exact ⟨acct, x, hv, hx, hbx⟩
    · simp only [hr, if_false]
      exact ⟨acct, x, hv, hx, hbx⟩

theorem processLoop_holdsAtLeast (F : Faults) (now : Nat) (pd : PostbackData) (v : String)
    (b : ℚ) (docs : List (String × TaskClaim)) :
    ∀ (st : Store) (vars : LoopVars),
      (∀ d ∈ docs, ∃ q, jsOr pd.reward d.2.rewardCoins = some (.val q) ∧ 0 ≤ q) →
      holdsAtLeast st v b → holdsAtLeast (processLoop F now pd docs st vars).1 v b := by
  induction docs with
  | nil => intro st vars _ h; exact h
  | cons d docs ih =>
    intro st vars hall h
    have h1 := processTask_holdsAtLeast F now pd d st vars v b (hall d (List.mem_cons_self _ _)) h
    simp only [processLoop]
    rcases hp : processTask F now pd d st vars with ⟨st1, _ | vars1⟩
    · rw [hp] at h1; exact h1
    · rw [hp] at h1
      exact ih st1 vars1 (fun e he => hall e (List.mem_cons_of_mem _ he)) h1

theorem processAffiliatePostback_holdsAtLeast (F : Faults) (now : Nat) (st : Store)
    (pd : PostbackData) (v : String) (b : ℚ)
    (hall : ∀ d ∈ pendingTasks st pd.userId,
      ∃ q, jsOr pd.reward d.2.rewardCoins = some (.val q) ∧ 0 ≤ q)
    (h : holdsAtLeast st v b) : holdsAtLeast (processAffiliatePostback F now st pd).1 v b := by
  unfold processAffiliatePostback
  split
  · exact h
  · simp only []
    split
    · exact h
    · have h1 := processLoop_holdsAtLeast F now pd v b (pendingTasks st pd.userId) st
        ⟨.val 0, false⟩ hall h
      split <;> rename_i heq <;> rw [heq] at h1 <;> exact h1

theorem selectedReward_nonneg (parseFloat : String → JSNum) (x : Option String) (s : ℚ)
    (hs : 0 ≤ s) (hx : ∀ t r, x = some t → parseFloat t = .val r → 0 ≤ r) :
    0 ≤ selectedReward parseFloat x s := by
  rcases x with _ | t
  · exact hs
  · unfold selectedReward
    simp only []
    split
    · exact hs
    · rcases hp : parseFloat t with _ | r
      · exact hs
      · simp only []
        split
        · exact hs
        · exact hx t r rfl hp

theorem handleAffiliatePostback_store_cases (parseFloat : String → JSNum) (F : Faults)
    (now : Nat) (st : Store) (req : Request) :
    (handleAffiliatePostback parseFloat F now st req).1 = st ∨
    ∃ u status, req.sub_id = some u ∧ req.status = some status ∧
      (handleAffiliatePostback parseFloat F now st req).1 =
        (processAffiliatePostback F now
          { st with postbackLogs := st.postbackLogs ++ [logEntry parseFloat now req u status] }
          (postbackOf parseFloat req u status)).1 := by
  by_cases hm : req.method = "OPTIONS"
  · left; simp only [handleAffiliatePostback, hm, if_true]
  · rcases hsub : req.sub_id with _ | u
    · left; simp only [handleAffiliatePostback, hm, if_false, hsub]
    · rcases hst : req.status with _ | status
      · left; simp only [handleAffiliatePostback, hm, if_false, hsub, hst]
      · by_cases hu : u = ""
        · left; simp only [handleAffiliatePostback, hm, if_false, hsub, hst, hu, true_or, if_true]
        · by_cases hs : status = ""
          · left
            simp only [handleAffiliatePostback, hm, if_false, hsub, hst, hs, or_true, if_true]
          · obtain hl | ⟨e, hl⟩ := Option.eq_none_or_eq_some F.logError
            · right
              refine ⟨u, status, rfl, rfl, ?_⟩
              rw [handleAffiliatePostback_valid parseFloat F now st req u status hm hsub hu hst
                hs hl]
            · left
              rw [handleAffiliatePostback_log_failure parseFloat F now st req u status e hm hsub
                hu hst hs hl]

/-! ## Lemmas on document keys -/

theorem append_sep_injective (sep : Char) :
    ∀ (u1 u2 c1 c2 : List Char), sep ∉ u1 → sep ∉ u2 →
      u1 ++ sep :: c1 = u2 ++ sep :: c2 → u1 = u2 ∧ c1 = c2 := by
  intro u1
  induction u1 with
  | nil =>
    intro u2 c1 c2 _ h2 h
    rcases u2 with _ | ⟨x, u2⟩
    · simp only [List.nil_append, List.cons.injEq, true_and] at h
      exact ⟨rfl, h⟩
    · simp only [List.nil_append, List.cons_append, List.cons.injEq] at h
      exact absurd (h.1 ▸ List.mem_cons_self _ _) h2
  | cons y u1 ih =>
    intro u2 c1 c2 h1 h2 h
    rcases u2 with _ | ⟨x, u2⟩
    · simp only [List.nil_append, List.cons_append, List.cons.injEq] at h
      exact absurd (h.1 ▸ List.mem_cons_self _ _) h1
    · simp only [List.cons_append, List.cons.injEq] at h
      obtain ⟨hu, hc⟩ := ih u2 c1 c2 (fun hm => h1 (List.mem_cons_of_mem _ hm))
        (fun hm => h2 (List.mem_cons_of_mem _ hm)) h.2
      exact ⟨by rw [h.1, hu], hc⟩

theorem taskKey_injective (u1 u2 c1 c2 : String) (h1 : '_' ∉ u1.toList) (h2 : '_' ∉ u2.toList)
    (h : taskKey u1 c1 = taskKey u2 c2) : u1 = u2 ∧ c1 = c2 := by
  have hd := congrArg String.data h
  simp only [taskKey, String.data_append] at hd
  rw [List.append_assoc, List.append_assoc, List.singleton_append,
    List.singleton_append] at hd
  obtain ⟨hu, hc⟩ := append_sep_injective '_' u1.data u2.data c1.data c2.data h1 h2 hd
  exact ⟨String.ext hu, String.ext hc⟩

theorem Coll.get_append_other {α : Type} (c : Coll α) (id k : String) (v : α) (h : k ≠ id) :
    (c ++ [(id, v)]).get k = c.get k := by
  induction c with
  | nil => simp [Coll.get, Ne.symm h]
  | cons d c ih =>
    obtain ⟨a, x⟩ := d
    show (if a = k then some x else Coll.get (c ++ [(id, v)]) k) = _
    rw [ih]
    rfl

theorem Coll.get_set_other {α : Type} (c : Coll α) (id k : String) (v : α) (h : k ≠ id) :
    (c.set id v).get k = c.get k := by
  unfold Coll.set
  rcases c.get id with _ | x
  · exact Coll.get_append_other c id k v h
  · simp only [Coll.get_update, if_neg h]

theorem startAffiliateTask_get_other (campaigns : List Campaign) (now : Nat) (st : Store)
    (u cid k : String) (h : k ≠ taskKey u cid) :
    (AffiliateManager.startAffiliateTask campaigns now st u cid).1.userTasks.get k =
      st.userTasks.get k := by
  unfold AffiliateManager.startAffiliateTask
  split
  · rfl
  · split
    · rfl
    · simp only [Coll.get_set_other _ _ _ _ h]

theorem startAffiliateTask_result_congr (campaigns : List Campaign) (now : Nat)
    (st st1 : Store) (u cid : String)
    (h : st1.userTasks.get (taskKey u cid) = st.userTasks.get (taskKey u cid)) :
    (AffiliateManager.startAffiliateTask campaigns now st1 u cid).2 =
      (AffiliateManager.startAffiliateTask campaigns now st u cid).2 := by
  unfold AffiliateManager.startAffiliateTask
  rw [h]
  split
  · rfl
  · split <;> rfl

/-! ## Lemmas on `String.prototype.replace` -/

theorem splitFirst_of_first (pat : List Char) :
    ∀ (before after : List Char),
      (∀ p q, before ++ pat ++ after = p ++ pat ++ q → before.length ≤ p.length) →
      splitFirst pat (before ++ pat ++ after) = some (before, after) := by
  intro before
  induction before with
  | nil =>
    intro after _
    rcases hs : ([] ++ pat ++ after : List Char) with _ | ⟨c, cs⟩
    · simp only [List.nil_append, List.append_eq_nil] at hs
      simp only [splitFirst, hs.1, hs.2, if_true]
    · have hpre : pat.isPrefixOf (c :: cs) = true := by
        rw [← hs, List.isPrefixOf_iff_prefix]
        exact ⟨after, by simp⟩
      simp only [splitFirst, hpre, if_true]
      rw [← hs]
      simp
  | cons x before ih =>
    intro after hmin
    have hnot : pat.isPrefixOf (x :: (before ++ pat ++ after)) = false := by
      rw [Bool.eq_false_iff]
      intro hpre
      rw [List.isPrefixOf_iff_prefix] at hpre
      obtain ⟨q, hq⟩ := hpre
      have := hmin [] q (by simp only [List.nil_append, List.cons_append] at hq ⊢; exact hq.symm)
      simp at this
    have hrec := ih after (by
      intro p q hpq
      have := hmin (x :: p) q (by simp only [List.cons_append, hpq])
      simpa using this)
    show splitFirst pat (x :: (before ++ pat ++ after)) = _
    simp only [splitFirst, hnot, hrec]
    rfl

theorem expandReplacement_of_no_dollar (matched before after : List Char) :
    ∀ rep : List Char, '$' ∉ rep → expandReplacement matched before after rep = rep
  | [], _ => rfl
  | [_], _ => rfl
  | c :: d :: r, h => by
    have hc : c ≠ '$' := fun e => h (e ▸ List.mem_cons_self _ _)
    have ih := expandReplacement_of_no_dollar matched before after (d :: r)
      (fun hm => h (List.mem_cons_of_mem _ hm))
    simp only [expandReplacement, hc, if_false, ih]

theorem jsReplace_first (s pat rep : String) (before after : List Char)
    (hs : s.toList = before ++ pat.toList ++ after)
    (hfirst : ∀ p q, s.toList = p ++ pat.toList ++ q → before.length ≤ p.length)
    (hrep : '$' ∉ rep.toList) :
    (jsReplace s pat rep).toList = before ++ rep.toList ++ after := by
  unfold jsReplace
  rw [hs, splitFirst_of_first pat.toList before after (by rw [← hs]; exact hfirst)]
  simp only [expandReplacement_of_no_dollar _ _ _ _ hrep]
  rfl

theorem first_occurrence_of_check (pat s : List Char) (n : Nat)
    (h : ∀ i, i < n → pat.isPrefixOf (s.drop i) = false) :
    ∀ p q, s = p ++ pat ++ q → n ≤ p.length := by
  intro p q hs
  by_contra hlt
  have hi := h p.length (Nat.lt_of_not_le hlt)
  rw [hs, List.append_assoc, List.drop_left, Bool.eq_false_iff] at hi
  exact hi (List.isPrefixOf_iff_prefix.mpr ⟨q, rfl⟩)

/-! ## Lemmas on the isolation of users -/

theorem Coll.update_filter_other (c : Coll TaskClaim) (k v : String) (f : TaskClaim → TaskClaim)
    (hk : ∀ e ∈ c, e.1 = k → e.2.userId ≠ v) (hf : ∀ x, (f x).userId = x.userId) :
    (c.update k f).filter (fun d => decide (d.2.userId = v)) =
      c.filter (fun d => decide (d.2.userId = v)) := by
  induction c with
  | nil => rfl
  | cons e c ih =>
    have ih' := ih (fun e' he' => hk e' (List.mem_cons_of_mem _ he'))
    simp only [Coll.update, List.map_cons] at ih' ⊢
    by_cases hek : e.1 = k
    · have hne : e.2.userId ≠ v := hk e (List.mem_cons_self _ _) hek
      simp only [hek, if_true, List.filter_cons, hf, hne, decide_False, Bool.false_eq_true,
        if_false, ih']
    · simp only [hek, if_false, List.filter_cons, ih']

theorem Coll.update_mem {α : Type} (c : Coll α) (k : String) (f : α → α) (e1 : String × α)
    (h : e1 ∈ c.update k f) : ∃ e ∈ c, e1.1 = e.1 ∧ (e1.2 = e.2 ∨ e1.2 = f e.2) := by
  simp only [Coll.update, List.mem_map] at h
  obtain ⟨e, he, heq⟩ := h
  refine ⟨e, he, by rw [← heq], ?_⟩
  rw [← heq]
  by_cases hk : e.1 = k
  · right; simp only [hk, if_true]
  · left; simp only [hk, if_false]

theorem processTask_userTasks_cases (F : Faults) (now : Nat) (pd : PostbackData)
    (d : String × TaskClaim) (st : Store) (vars : LoopVars) :
    (processTask F now pd d st vars).1.userTasks = st.userTasks ∨
    ∃ w : TaskClaim → TaskClaim, (∀ x, (w x).userId = x.userId) ∧
      (processTask F now pd d st vars).1.userTasks = st.userTasks.update d.1 w := by
  unfold processTask
  by_cases ha : pd.status = "approved" ∨ pd.status = "completed"
  · simp only [ha, if_true]
    rcases F.updateError d.1 with _ | e
    · right
      refine ⟨markCompleted now pd d.2, fun _ => rfl, ?_⟩
      have hc := creditCoinsToUser_userTasks F now
        { st with userTasks := st.userTasks.update d.1 (markCompleted now pd d.2) } pd.userId
        (jsOr pd.reward d.2.rewardCoins)
      simp only []
      split
      · rename_i heq; rw [heq] at hc; exact hc
      · rename_i heq; rw [heq] at hc
        simp only [logUserActivity_userTasks]; exact hc
    · left; rfl
  · simp only [ha, if_false]
    by_cases hr : pd.status = "rejected" ∨ pd.status = "declined"
    · simp only [hr, if_true]
      rcases F.updateError d.1 with _ | e
      · right
        exact ⟨markRejected now pd, fun _ => rfl, by simp only [logUserActivity_userTasks]⟩
      · left; rfl
    · left; simp only [hr, if_false]

theorem processLoop_claims_of_other (F : Faults) (now : Nat) (pd : PostbackData) (v : String)
    (docs : List (String × TaskClaim)) :
    ∀ (st : Store) (vars : LoopVars),
      (∀ e ∈ st.userTasks, e.1 ∈ docs.map (fun d => d.1) → e.2.userId ≠ v) →
      (processLoop F now pd docs st vars).1.userTasks.filter (fun d => decide (d.2.userId = v)) =
        st.userTasks.filter (fun d => decide (d.2.userId = v)) := by
  induction docs with
  | nil => intro st vars _; rfl
  | cons d docs ih =>
    intro st vars hI
    have hstep : (processTask F now pd d st vars).1.userTasks.filter
          (fun d => decide (d.2.userId = v)) =
        st.userTasks.filter (fun d => decide (d.2.userId = v)) ∧
        ∀ e ∈ (processTask F now pd d st vars).1.userTasks,
          e.1 ∈ docs.map (fun d => d.1) → e.2.userId ≠ v := by
      rcases processTask_userTasks_cases F now pd d st vars with h | ⟨w, hw, h⟩
      · rw [h]
        exact ⟨rfl, fun e he hm => hI e he (List.mem_cons_of_mem _ hm)⟩
      · rw [h]
        refine ⟨Coll.update_filter_other _ _ _ _
          (fun e he hk => hI e he (by simp [hk])) hw, ?_⟩
        intro e1 he1 hm
        obtain ⟨e, he, hid, hval⟩ := Coll.update_mem _ _ _ _ he1
        have := hI e he (by rw [← hid]; exact List.mem_cons_of_mem _ hm)
        rcases hval with hval | hval
        · rw [hval]; exact this
        · rw [hval, hw]; exact this
    simp only [processLoop]
    rcases hp : processTask F now pd d st vars with ⟨st1, _ | vars1⟩
    · rw [hp] at hstep; exact hstep.1
    · rw [hp] at hstep
      simp only []
      rw [ih st1 vars1 hstep.2]
      exact hstep.1

theorem processTask_users_get_other (F : Faults) (now : Nat) (pd : PostbackData)
    (d : String × TaskClaim) (st : Store) (vars : LoopVars) (v : String)
    (hv : v ≠ pd.userId) :
    (processTask F now pd d st vars).1.users.get v = st.users.get v := by
  unfold processTask
  by_cases ha : pd.status = "approved" ∨ pd.status = "completed"
  · simp only [ha, if_true]
    rcases F.updateError d.1 with _ | e
    · simp only [creditCoinsToUser]
      rcases F.userError pd.userId with _ | e
      · simp only []
        rcases Coll.get st.users pd.userId with _ | acct
        · rfl
        · simp only [logUserActivity]
          split <;> simp only [Coll.get_update, if_neg hv]
      · rfl
    · rfl
  · simp only [ha, if_false]
    by_cases hr : pd.status = "rejected" ∨ pd.status = "declined"
    · simp only [hr, if_true]
      rcases F.updateError d.1 with _ | e
      · simp only [logUserActivity]
        split <;> rfl
      · rfl
    · simp only [hr, if_false]

theorem processLoop_users_get_other (F : Faults) (now : Nat) (pd : PostbackData) (v : String)
    (hv : v ≠ pd.userId) (docs : List (String × TaskClaim)) :
    ∀ (st : Store) (vars : LoopVars),
      (processLoop F now pd docs st vars).1.users.get v = st.users.get v := by
  induction docs with
  | nil => intro st vars; rfl
  | cons d docs ih =>
    intro st vars
    have h1 := processTask_users_get_other F now pd d st vars v hv
    simp only [processLoop]
    rcases hp : processTask F now pd d st vars with ⟨st1, _ | vars1⟩
    · rw [hp] at h1; exact h1
    · rw [hp] at h1; simp only []; rw [ih st1 vars1]; exact h1

theorem processTask_activities (F : Faults) (now : Nat) (pd : PostbackData)
    (d : String × TaskClaim) (st : Store) (vars : LoopVars) :
    ∃ recs, (processTask F now pd d st vars).1.activities = st.activities ++ recs ∧
      ∀ a ∈ recs, a.userId = pd.userId := by
  unfold processTask
  by_cases ha : pd.status = "approved" ∨ pd.status = "completed"
  · simp only [ha, if_true]
    rcases F.updateError d.1 with _ | e
    · simp only [creditCoinsToUser]
      rcases F.userError pd.userId with _ | e
      · simp only []
        rcases Coll.get st.users pd.userId with _ | acct
        · exact ⟨[], by simp, by simp⟩
        · simp only [logUserActivity]
          split
          · exact ⟨[], by simp, by simp⟩
          · exact ⟨[_], rfl, by simp⟩
      · exact ⟨[], by simp, by simp⟩
    · exact ⟨[], by simp, by simp⟩
  · simp only [ha, if_false]
    by_cases hr : pd.status = "rejected" ∨ pd.status = "declined"
    · simp only [hr, if_true]
      rcases F.updateError d.1 with _ | e
      · simp only [logUserActivity]
        split
        · exact ⟨[], by simp, by simp⟩
        · exact ⟨[_], rfl, by simp⟩
      · exact ⟨[], by simp, by simp⟩
    · simp only [hr, if_false]
      exact ⟨[], by simp, by simp⟩

theorem processLoop_activities (F : Faults) (now : Nat) (pd : PostbackData)
    (docs : List (String × TaskClaim)) :
    ∀ (st : Store) (vars : LoopVars),
      ∃ recs, (processLoop F now pd docs st vars).1.activities = st.activities ++ recs ∧
        ∀ a ∈ recs, a.userId = pd.userId := by
  induction docs with
  | nil => intro st vars; exact ⟨[], by simp [processLoop], by simp⟩
  | cons d docs ih =>
    intro st vars
    obtain ⟨r1, h1, hr1⟩ := processTask_activities F now pd d st vars
    simp only [processLoop]
    rcases hp : processTask F now pd d st vars with ⟨st1, _ | vars1⟩
    · rw [hp] at h1; exact ⟨r1, h1, hr1⟩
    · rw [hp] at h1
      obtain ⟨r2, h2, hr2⟩ := ih st1 vars1
      refine ⟨r1 ++ r2, ?_, ?_⟩
      · simp only []; rw [h2, h1, List.append_assoc]
      · intro a ha
        rcases List.mem_append.mp ha with ha | ha
        · exact hr1 a ha
        · exact hr2 a ha

/-! ## Lemmas on completion and credit -/

theorem AffiliateManager.handleTask_approved (now : Nat) (u status : String) (reward : JSVal)
    (offer reason : Option String) (d : String × TaskClaim) (st : Store) (tu : Bool)
    (acct : UserAccount) (h : status = "approved" ∨ status = "completed")
    (hu : st.users.get u = some acct) :
    AffiliateManager.handleTask now u status reward offer reason d st tu =
      ({ st with
          userTasks := st.userTasks.update d.1 (completedByManager now reward d.2),
          users := st.users.update u (fun a =>
            { a with
              coins := some (JSNum.add (toNumber (jsOr acct.coins (some (.val 0))))
                (toNumber (jsOr reward d.2.rewardCoins))),
              lastActive := some now }),
          activities := st.activities ++
            [⟨u, "affiliate_completed",
              { campaignId := d.2.campaignId, reward := jsOr reward d.2.rewardCoins,
                offerId := offer }, now, now⟩] }, true) := by
  rcases h with h | h <;>
    (simp [AffiliateManager.handleTask, h, AffiliateManager.logActivity,
      AffiliateManager.creditCoinsToUser, hu]; rfl)

theorem AffiliateManager.handleLoop_approved (now : Nat) (u status : String) (reward : JSVal)
    (offer reason : Option String) (h : status = "approved" ∨ status = "completed")
    (docs : List (String × TaskClaim)) :
    ∀ (st : Store) (tu : Bool) (acct : UserAccount),
      st.users.get u = some acct →
      ∃ acct1,
        (AffiliateManager.handleLoop now u status reward offer reason docs st tu).1.userTasks =
          docs.foldl (fun ut d => Coll.update ut d.1 (completedByManager now reward d.2))
            st.userTasks ∧
        (AffiliateManager.handleLoop now u status reward offer reason docs st tu).1.users.get u =
          some acct1 ∧
        (∀ b, acct.coins = some (.val b) →
          (∀ d ∈ docs, ∃ q, jsOr reward d.2.rewardCoins = some (.val q)) →
          acct1.coins =
            some (.val (b + (docs.map (fun d => ratOf (jsOr reward d.2.rewardCoins))).sum))) := by
  induction docs with
  | nil =>
    intro st tu acct hu
    exact ⟨acct, rfl, hu, fun b hb _ => by simp [hb]⟩
  | cons d docs ih =>
    intro st tu acct hu
    have hstep := AffiliateManager.handleTask_approved now u status reward offer reason d st tu
      acct h hu
    set st2 : Store :=
      { st with
          userTasks := st.userTasks.update d.1 (completedByManager now reward d.2),
          users := st.users.update u (fun a =>
            { a with
              coins := some (JSNum.add (toNumber (jsOr acct.coins (some (.val 0))))
                (toNumber (jsOr reward d.2.rewardCoins))),
              lastActive := some now }),
          activities := st.activities ++
            [⟨u, "affiliate_completed",
              { campaignId := d.2.campaignId, reward := jsOr reward d.2.rewardCoins,
                offerId := offer }, now, now⟩] } with hst2
    have hu2 : st2.users.get u = some
        { acct with
            coins := some (JSNum.add (toNumber (jsOr acct.coins (some (.val 0))))
              (toNumber (jsOr reward d.2.rewardCoins))),
            lastActive := some now } := by
      simp [hst2, Coll.get_update, hu]
    obtain ⟨acct1, ht, hg, hn⟩ := ih st2 true _ hu2
    refine ⟨acct1, ?_, ?_, ?_⟩
    · simp only [AffiliateManager.handleLoop, hstep]; rw [ht]; rfl
    · simp only [AffiliateManager.handleLoop, hstep]; exact hg
    · intro b hb hall
      obtain ⟨q, hq⟩ := hall d (List.mem_cons_self _ _)
      have := hn (b + q)
        (by simp only [hb, hq, toNumber_jsOr_zero]; rfl)
        (fun e he => hall e (List.mem_cons_of_mem _ he))
      simp only [List.map_cons, List.sum_cons]
      rw [this, hq, add_assoc]
      rfl

theorem processAffiliatePostback_missing_user (now : Nat) (st : Store) (pd : PostbackData)
    (d : String × TaskClaim) (ds : List (String × TaskClaim))
    (hs : pd.status = "approved" ∨ pd.status = "completed")
    (hu : st.users.get pd.userId = none) (hp : pendingTasks st pd.userId = d :: ds) :
    processAffiliatePostback Faults.none now st pd =
      ({ st with userTasks := st.userTasks.update d.1 (markCompleted now pd d.2) },
       .failure ("User " ++ pd.userId ++ " not found")) := by
  simp [processAffiliatePostback, Faults.none, hp, processLoop, processTask, hs,
    creditCoinsToUser, hu]

theorem Coll.get_of_mem_ids {α : Type} (c : Coll α) (d : String × α)
    (hn : (c.map (fun d => d.1)).Nodup) (h : d ∈ c) : c.get d.1 = some d.2 :=
  Coll.get_of_mem_nodup c d.1 d.2 hn h

theorem userTasksOf_nodup (st : Store) (u : String)
    (h : (st.userTasks.map (fun d => d.1)).Nodup) :
    ((AffiliateManager.userTasksOf st u).map (fun d => d.1)).Nodup := by
  unfold AffiliateManager.userTasksOf
  exact List.Nodup.sublist (List.Sublist.map _ (List.filter_sublist _)) h

/-! ## Lemmas on the campaign catalog -/

theorem toNumber_jsOr_ratOf (x : JSVal) :
    toNumber (jsOr x (some (.val 0))) = .val (ratOf x) := by
  rcases x with _ | _ | q
  · rfl
  · rfl
  · by_cases hq : q = 0 <;> simp [jsOr, truthy, toNumber, ratOf, hq]

theorem AffiliateManager.keepsOrder_iff (a b : Campaign) :
    AffiliateManager.keepsOrder a b = true ↔ ratOf b.rewardCoins ≤ ratOf a.rewardCoins := by
  simp [AffiliateManager.keepsOrder, AffiliateManager.compareReward, toNumber_jsOr_ratOf,
    JSNum.sub]

theorem AffiliateManager.sortByReward_perm (l : List Campaign) :
    (AffiliateManager.sortByReward l).Perm l :=
  List.perm_insertionSort _ l

theorem AffiliateManager.sortByReward_sorted (l : List Campaign) :
    (AffiliateManager.sortByReward l).Pairwise
      (fun a b => ratOf b.rewardCoins ≤ ratOf a.rewardCoins) := by
  haveI : IsTotal Campaign (fun a b => AffiliateManager.keepsOrder a b = true) :=
    ⟨fun a b => by
      simp only [AffiliateManager.keepsOrder_iff]
      exact le_total _ _⟩
  haveI : IsTrans Campaign (fun a b => AffiliateManager.keepsOrder a b = true) :=
    ⟨fun a b c hab hbc => by
      simp only [AffiliateManager.keepsOrder_iff] at hab hbc ⊢
      exact le_trans hbc hab⟩
  have h := List.sorted_insertionSort (fun a b => AffiliateManager.keepsOrder a b = true) l
  exact List.Pairwise.imp (fun {a b} hab => (AffiliateManager.keepsOrder_iff a b).mp hab) h

theorem AffiliateManager.mem_loadActiveCampaigns (newDate : String → Option Int)
    (number : String → JSNum) (now : DateNow) (stored : List Campaign) (k : String)
    (c : Campaign) :
    c ∈ AffiliateManager.loadActiveCampaigns newDate number now stored k ↔
      c ∈ stored ∧ c.status = "active" ∧ AffiliateManager.countryFilter k c = true ∧
        AffiliateManager.dateTimeFilter newDate number now c = true := by
  unfold AffiliateManager.loadActiveCampaigns
  rw [(AffiliateManager.sortByReward_perm _).mem_iff]
  simp only [List.mem_filter, decide_eq_true_eq, and_assoc]

theorem AffiliateManager.minutesOf_of_parts (number : String → JSNum) (t : String)
    (h m : List Char) (a b : ℚ) (hs : splitColon t.toList = [h, m])
    (ha : number (String.mk h) = .val a) (hb : number (String.mk m) = .val b) :
    AffiliateManager.minutesOf number t = .val (a * 60 + b) := by
  unfold AffiliateManager.minutesOf
  rw [hs]
  simp [ha, hb, JSNum.add, JSNum.mul]

theorem AffiliateManager.dateTimeFilter_of_dates (newDate : String → Option Int)
    (number : String → JSNum) (now : DateNow) (c : Campaign)
    (hs : AffiliateManager.notStarted newDate now c = false)
    (he : AffiliateManager.expired newDate now c = false) :
    AffiliateManager.dateTimeFilter newDate number now c =
      !AffiliateManager.outsideHours number now c := by
  simp [AffiliateManager.dateTimeFilter, hs, he]

theorem AffiliateManager.outsideHours_of_window (number : String → JSNum) (now : DateNow)
    (c : Campaign) (s e : String) (sm em : ℚ)
    (hs : truthyText c.startTime = some s) (he : truthyText c.endTime = some e)
    (hsm : AffiliateManager.minutesOf number s = .val sm)
    (hem : AffiliateManager.minutesOf number e = .val em) (hw : ¬(sm = 0 ∧ em = 1439)) :
    AffiliateManager.outsideHours number now c = true ↔
      ¬(sm ≤ ((now.hours * 60 + now.minutes : Nat) : ℚ) ∧
        ((now.hours * 60 + now.minutes : Nat) : ℚ) ≤ em) := by
  simp only [AffiliateManager.outsideHours, hs, he, hsm, hem, JSNum.strictEq, JSNum.lt]
  have hw1 : (decide (sm = 0) && decide (em = 1439)) = false := by
    simpa using hw
  simp only [hw1, Bool.not_false, if_true, Bool.or_eq_true, decide_eq_true_eq]
  constructor
  · rintro (h | h) ⟨h1, h2⟩
    · exact absurd h1 (not_le.mpr h)
    · exact absurd h2 (not_le.mpr h)
  · intro h
    by_cases h1 : sm ≤ ((now.hours * 60 + now.minutes : Nat) : ℚ)
    · right
      exact not_le.mp (fun h2 => h ⟨h1, h2⟩)
    · left
      exact not_le.mp h1

/-! ## Lemmas on the creation of campaigns -/

theorem AffiliateAdminManager.foldl_reward (tasks : List CampaignTask) :
    ∀ init : ℚ, (∀ t ∈ tasks, ∃ q, t.reward = .val q) →
      tasks.foldl (fun total task => JSNum.add total task.reward) (.val init) =
        .val (init + (tasks.map (fun t => ratOf (some t.reward))).sum) := by
  induction tasks with
  | nil => intro init _; simp
  | cons t ts ih =>
    intro init h
    obtain ⟨q, hq⟩ := h t (List.mem_cons_self _ _)
    have hstep : JSNum.add (.val init) t.reward = .val (init + q) := by rw [hq]; rfl
    have hrat : ratOf (some t.reward) = q := by rw [hq]; rfl
    simp only [List.foldl_cons, List.map_cons, List.sum_cons]
    rw [hstep, hrat, ih (init + q) (fun e he => h e (List.mem_cons_of_mem _ he)), add_assoc]

theorem AffiliateAdminManager.rewardTotal_eq_sum (tasks : List CampaignTask)
    (h : ∀ t ∈ tasks, ∃ q, t.reward = .val q) :
    AffiliateAdminManager.rewardTotal tasks =
      .val ((tasks.map (fun t => ratOf (some t.reward))).sum) := by
  unfold AffiliateAdminManager.rewardTotal
  rw [AffiliateAdminManager.foldl_reward tasks 0 h, zero_add]

theorem AffiliateAdminManager.taskOfField_numeric (parseInt : String → JSNum)
    (f : AffiliateAdminManager.TaskField) (t : CampaignTask)
    (h : AffiliateAdminManager.taskOfField parseInt f = some t) :
    t.reward = AffiliateAdminManager.parseIntOf parseInt f.reward ∧
      ∃ q, t.reward = .val q ∧ q ≠ 0 := by
  unfold AffiliateAdminManager.taskOfField at h
  simp only [] at h
  split at h
  · rename_i hn ht hs
    simp only [Option.some.injEq] at h
    subst h
    refine ⟨rfl, ?_⟩
    simp only []
    rcases hp : AffiliateAdminManager.parseIntOf parseInt f.reward with _ | q
    · rw [hp] at ht; simp [truthy] at ht
    · rw [hp] at ht
      exact ⟨q, rfl, by simpa [truthy] using ht⟩
  · cases h

theorem AffiliateAdminManager.accepted_numeric (parseInt : String → JSNum)
    (fields : List AffiliateAdminManager.TaskField) :
    ∀ t ∈ fields.filterMap (AffiliateAdminManager.taskOfField parseInt),
      ∃ q, t.reward = .val q := by
  intro t ht
  obtain ⟨f, _, hf⟩ := List.mem_filterMap.mp ht
  obtain ⟨_, q, hq, _⟩ := AffiliateAdminManager.taskOfField_numeric parseInt f t hf
  exact ⟨q, hq⟩

theorem AffiliateManager.createAffiliateCampaign_fst (newId : String)
    (stored : List Campaign) (data : AffiliateManager.CampaignData) :
    (AffiliateManager.createAffiliateCampaign newId stored data).1 = stored ∨
    ∃ c, (AffiliateManager.createAffiliateCampaign newId stored data).1 = stored ++ [c] ∧
      (AffiliateManager.createAffiliateCampaign newId stored data).2 = .ok newId ∧
      c.id = newId ∧ c.tasks = data.tasks ∧ c.rewardCoins = data.rewardCoins := by
  unfold AffiliateManager.createAffiliateCampaign
  split
  · split
    · left; rfl
    · right; exact ⟨_, rfl, rfl, rfl, rfl, rfl⟩
  · left; rfl

theorem AffiliateManager.createAffiliateCampaign_ok (newId : String)
    (stored : List Campaign) (data : AffiliateManager.CampaignData) (q : ℚ)
    (ht : truthyText data.title ≠ none) (hd : truthyText data.description ≠ none)
    (hl : truthyText data.affiliateLink ≠ none) (hr : data.rewardCoins = some (.val q))
    (hq : 1 ≤ q) :
    ∃ c, AffiliateManager.createAffiliateCampaign newId stored data =
        (stored ++ [c], .ok newId) ∧
      c.id = newId ∧ c.tasks = data.tasks ∧ c.rewardCoins = data.rewardCoins := by
  unfold AffiliateManager.createAffiliateCampaign
  rcases h1 : truthyText data.title with _ | title
  · exact absurd h1 ht
  rcases h2 : truthyText data.description with _ | description
  · exact absurd h2 hd
  rcases h3 : truthyText data.affiliateLink with _ | link
  · exact absurd h3 hl
  have hq0 : q ≠ 0 := by
    intro h
    rw [h] at hq
    norm_num at hq
  have hcond : (!truthy data.rewardCoins ||
      JSNum.lt (toNumber data.rewardCoins) (.val 1)) = false := by
    simp [hr, truthy, toNumber, JSNum.lt, hq0, hq]
  simp only [hcond, Bool.false_eq_true, if_false]
  exact ⟨_, rfl, rfl, rfl, rfl⟩

/-! ## The claims -/

/-- C1 (amended): when user `u` exists with numeric balance `b` and has exactly one pending
claim, with numeric snapshot reward `s`, an approved or completed postback leaves that claim
completed, leaves the balance of `u` at `b + r` and appends exactly one activity record, of
type `affiliate_completed` for `u` with `details.reward = r`, where `r` is the override when
one is supplied and is a number other than `0`, and `s` otherwise. -/
theorem approved_postback_single_claim (now : Nat) (st : Store) (pd : PostbackData)
    (id : String) (c : TaskClaim) (acct : UserAccount) (b s : ℚ)
    (hs : pd.status = "approved" ∨ pd.status = "completed")
    (hu : st.users.get pd.userId = some acct) (hb : acct.coins = some (.val b))
    (hp : pendingTasks st pd.userId = [(id, c)]) (hc : c.rewardCoins = some (.val s)) :
    (∃ c1, (processAffiliatePostback Faults.none now st pd).1.userTasks.get id = some c1 ∧
      c1.status = "completed") ∧
    (∃ acct1, (processAffiliatePostback Faults.none now st pd).1.users.get pd.userId = some acct1 ∧
      acct1.coins = some (.val (b + chosenReward pd.reward s))) ∧
    (∃ a, (processAffiliatePostback Faults.none now st pd).1.activities = st.activities ++ [a] ∧
      a.type = "affiliate_completed" ∧ a.userId = pd.userId ∧
      a.details.reward = some (.val (chosenReward pd.reward s))) := by
  obtain ⟨acct1, ht, ha, hg, _, hn⟩ := processAffiliatePostback_approved now st pd acct hs hu
  have hmem : (id, c) ∈ st.userTasks :=
    (pendingTasks_subset st pd.userId (id, c) (by rw [hp]; exact List.mem_singleton_self _)).1
  obtain ⟨c0, hc0⟩ := Coll.get_of_mem st.userTasks id c hmem
  have hj : jsOr pd.reward c.rewardCoins = some (.val (chosenReward pd.reward s)) := by
    rw [hc, jsOr_chosen]
  refine ⟨⟨markCompleted now pd c c0, ?_, rfl⟩, ⟨acct1, hg, ?_⟩, ⟨completedRecord now pd (id, c), ?_, rfl, rfl, ?_⟩⟩
  · rw [ht, hp]
    simp [Coll.get_update, hc0]
  · have := (hn b hb (by rw [hp]; intro d hd; simp only [List.mem_singleton] at hd; subst hd; exact ⟨_, hj⟩)).1
    rw [this, hp]
    simp [hj, ratOf]
  · rw [ha, hp]; rfl
  · simp [completedRecord, completedDetails, hj]

/-- C1 (witness): the sample store, an approved postback with override 200. -/
theorem approved_postback_single_claim_witness :
    (∃ c1, (processAffiliatePostback Faults.none 7 sampleStore
        { userId := "u1", status := "approved", reward := some (.val 200) }).1.userTasks.get
          "u1_c1" = some c1 ∧ c1.status = "completed") ∧
    (∃ acct1, (processAffiliatePostback Faults.none 7 sampleStore
        { userId := "u1", status := "approved", reward := some (.val 200) }).1.users.get "u1" =
          some acct1 ∧ acct1.coins = some (.val (100 + chosenReward (some (.val 200)) 150))) ∧
    (∃ a, (processAffiliatePostback Faults.none 7 sampleStore
        { userId := "u1", status := "approved", reward := some (.val 200) }).1.activities =
          sampleStore.activities ++ [a] ∧
      a.type = "affiliate_completed" ∧ a.userId = "u1" ∧
      a.details.reward = some (.val (chosenReward (some (.val 200)) 150))) :=
  approved_postback_single_claim 7 sampleStore
    { userId := "u1", status := "approved", reward := some (.val 200) } "u1_c1" sampleClaim
    { coins := some (.val 100) } 100 150 (Or.inl rfl) (by decide) rfl (by decide) rfl

/-- C1 (counterexample): in the sample store (balance 100, one pending claim with snapshot
reward 150) an approved postback whose override is the number `0` leaves the balance at
`250`, not at `100 + 0`, and logs the reward `150`, not `0`. -/
theorem approved_postback_zero_override :
    sampleStore.users.get "u1" = some { coins := some (.val 100) } ∧
    pendingTasks sampleStore "u1" = [("u1_c1", sampleClaim)] ∧
    sampleClaim.rewardCoins = some (.val 150) ∧
    ((processAffiliatePostback Faults.none 7 sampleStore
        { userId := "u1", status := "approved", reward := some (.val 0) }).1.users.get "u1").map
      (fun a => a.coins) = some (some (.val 250)) ∧
    ((processAffiliatePostback Faults.none 7 sampleStore
        { userId := "u1", status := "approved", reward := some (.val 0) }).1.users.get "u1").map
      (fun a => a.coins) ≠ some (some (.val (100 + 0))) ∧
    (processAffiliatePostback Faults.none 7 sampleStore
        { userId := "u1", status := "approved", reward := some (.val 0) }).1.activities.map
      (fun a => a.details.reward) = [some (.val 150)] := by
  refine ⟨by decide, by decide, rfl, ?_, ?_, ?_⟩
  · norm_num [processAffiliatePostback, Faults.none, sampleStore, sampleClaim, pendingTasks,
      processLoop, processTask, creditCoinsToUser, logUserActivity, Coll.get, Coll.update, jsOr,
      truthy, toNumber, JSNum.add, markCompleted, completedDetails]
  · norm_num [processAffiliatePostback, Faults.none, sampleStore, sampleClaim, pendingTasks,
      processLoop, processTask, creditCoinsToUser, logUserActivity, Coll.get, Coll.update, jsOr,
      truthy, toNumber, JSNum.add, markCompleted, completedDetails]
  · norm_num [processAffiliatePostback, Faults.none, sampleStore, sampleClaim, pendingTasks,
      processLoop, processTask, creditCoinsToUser, logUserActivity, Coll.get, Coll.update, jsOr,
      truthy, toNumber, JSNum.add, markCompleted, completedDetails]

/-- C2: a second run of `processAffiliatePostback` with the same postback, immediately
after a first run that succeeded on a recognised status, leaves the store as the first
run left it, whatever the clock and the store faults of the second run; in particular
no balance changes and no activity record is added. -/
theorem processAffiliatePostback_idempotent (F F2 : Faults) (now now2 : Nat) (st : Store)
    (pd : PostbackData) (hs : recognised pd.status)
    (h1 : (processAffiliatePostback F now st pd).2.success = true) :
    (processAffiliatePostback F2 now2 (processAffiliatePostback F now st pd).1 pd).1.users =
      (processAffiliatePostback F now st pd).1.users ∧
    (processAffiliatePostback F2 now2 (processAffiliatePostback F now st pd).1 pd).1.activities =
      (processAffiliatePostback F now st pd).1.activities ∧
    (processAffiliatePostback F2 now2 (processAffiliatePostback F now st pd).1 pd).1 =
      (processAffiliatePostback F now st pd).1 := by
  have hpend : pendingTasks (processAffiliatePostback F now st pd).1 pd.userId = [] := by
    unfold processAffiliatePostback at h1 ⊢
    rcases hq : F.queryError with _ | e
    · simp only [hq] at h1 ⊢
      by_cases hd : (pendingTasks st pd.userId).isEmpty = true
      · simp [hd, PostbackResult.success] at h1
      · simp only [hd] at h1 ⊢
        rcases hl : processLoop F now pd (pendingTasks st pd.userId) st ⟨.val 0, false⟩ with
          ⟨st1, e | vars1⟩
        · simp [hl, PostbackResult.success] at h1
        · simp only [hl, Bool.false_eq_true, if_false]
          rw [processLoop_pending F now pd pd.userId hs _ _ _ _ _ hl]
          simp only [List.filter_eq_nil_iff, List.mem_map, decide_not, Bool.not_eq_true',
            decide_eq_false_iff_not, not_not]
          intro x hx
          exact ⟨x, hx, rfl⟩
    · simp [hq, PostbackResult.success] at h1
  have key : (processAffiliatePostback F2 now2 (processAffiliatePostback F now st pd).1 pd).1 =
      (processAffiliatePostback F now st pd).1 := by
    generalize processAffiliatePostback F now st pd = r at hpend ⊢
    unfold processAffiliatePostback
    split
    · rfl
    · simp [hpend]
  exact ⟨by rw [key], by rw [key], key⟩

/-- C2 (witness): the sample store and an approved postback, run twice. -/
theorem processAffiliatePostback_idempotent_witness :
    (processAffiliatePostback Faults.none 7 sampleStore
      { userId := "u1", status := "approved" }).2.success = true ∧
    (processAffiliatePostback Faults.none 8 (processAffiliatePostback Faults.none 7 sampleStore
      { userId := "u1", status := "approved" }).1 { userId := "u1", status := "approved" }).1 =
      (processAffiliatePostback Faults.none 7 sampleStore
        { userId := "u1", status := "approved" }).1 :=
  ⟨by decide,
   (processAffiliatePostback_idempotent Faults.none Faults.none 7 8 sampleStore
      { userId := "u1", status := "approved" } (Or.inl rfl) (by decide)).2.2⟩

/-- C3 (code at the failing input): in the sample store (balance 100, one claim with
snapshot reward 150) `handlePostback` with status `approved` credits 150 and logs one
`affiliate_completed` record; the same call repeated credits 150 again and logs a
second record, because its query does not filter on the status of the claim. -/
theorem handlePostback_twice_credits_twice :
    ((AffiliateManager.handlePostback 7 sampleStore
        { sub_id := some "u1", status := some "approved" }).1.users.get "u1").map
      (fun a => a.coins) = some (some (.val 250)) ∧
    ((AffiliateManager.handlePostback 8 (AffiliateManager.handlePostback 7 sampleStore
        { sub_id := some "u1", status := some "approved" }).1
        { sub_id := some "u1", status := some "approved" }).1.users.get "u1").map
      (fun a => a.coins) = some (some (.val 400)) ∧
    (AffiliateManager.handlePostback 7 sampleStore
        { sub_id := some "u1", status := some "approved" }).1.activities.map
      (fun a => a.type) = ["affiliate_completed"] ∧
    (AffiliateManager.handlePostback 8 (AffiliateManager.handlePostback 7 sampleStore
        { sub_id := some "u1", status := some "approved" }).1
        { sub_id := some "u1", status := some "approved" }).1.activities.map
      (fun a => a.type) = ["affiliate_completed", "affiliate_completed"] := by
  refine ⟨?_, ?_, by decide, by decide⟩
  · norm_num [AffiliateManager.handlePostback, AffiliateManager.handleLoop,
      AffiliateManager.handleTask, AffiliateManager.userTasksOf,
      AffiliateManager.creditCoinsToUser, AffiliateManager.logActivity, sampleStore,
      sampleClaim, Coll.get, Coll.update, jsOr, truthy, toNumber, JSNum.add]
  · norm_num [AffiliateManager.handlePostback, AffiliateManager.handleLoop,
      AffiliateManager.handleTask, AffiliateManager.userTasksOf,
      AffiliateManager.creditCoinsToUser, AffiliateManager.logActivity, sampleStore,
      sampleClaim, Coll.get, Coll.update, jsOr, truthy, toNumber, JSNum.add]

/-- C4 (amended): for a valid approved or completed postback request addressed to an
existing user with numeric balance, in a store without faults whose document ids are
distinct and in which the pending claims of the user carry numeric snapshot rewards, the
`actualReward` written to each pending claim and the amount credited for it (the reward
of its activity record, and its share of the increase of the balance) are equal: they
are the parsed number `r` when the `reward` parameter is present and parses to a number
`r` other than `0`, and the snapshot reward `s` of the claim when the parameter is absent
or empty, does not parse to a number, or parses to `0`. -/
theorem postback_reward_selection (parseFloat : String → JSNum) (now : Nat) (st : Store)
    (req : Request) (u status : String) (acct : UserAccount) (b : ℚ)
    (hm : req.method ≠ "OPTIONS") (hsub : req.sub_id = some u) (hu0 : u ≠ "")
    (hst : req.status = some status) (hs : status = "approved" ∨ status = "completed")
    (hu : st.users.get u = some acct) (hb : acct.coins = some (.val b))
    (hn : (st.userTasks.map (fun d => d.1)).Nodup)
    (hnum : ∀ d ∈ pendingTasks st u, ∃ s, d.2.rewardCoins = some (.val s)) :
    (∀ d ∈ pendingTasks st u, ∀ s, d.2.rewardCoins = some (.val s) →
      ∃ c1, (handleAffiliatePostback parseFloat Faults.none now st req).1.userTasks.get d.1 =
          some c1 ∧
        c1.actualReward = some (.val (selectedReward parseFloat req.reward s))) ∧
    (∃ recs, (handleAffiliatePostback parseFloat Faults.none now st req).1.activities =
        st.activities ++ recs ∧
      recs.map (fun a => a.details.reward) = (pendingTasks st u).map
        (fun d => some (.val (selectedReward parseFloat req.reward (ratOf d.2.rewardCoins))))) ∧
    (∃ acct1, (handleAffiliatePostback parseFloat Faults.none now st req).1.users.get u =
        some acct1 ∧
      acct1.coins = some (.val (b + ((pendingTasks st u).map
        (fun d => selectedReward parseFloat req.reward (ratOf d.2.rewardCoins))).sum))) := by
  have hs0 : status ≠ "" := by rcases hs with hs | hs <;> rw [hs] <;> decide
  obtain ⟨st0, h0t, h0u, h0a, hfst⟩ :=
    handleAffiliatePostback_fst parseFloat now st req u status hm hsub hu0 hst hs0
  have hpend : pendingTasks st0 u = pendingTasks st u := by
    unfold pendingTasks; rw [h0t]
  have hsel : ∀ d ∈ pendingTasks st u, ∀ s, d.2.rewardCoins = some (.val s) →
      jsOr (parseParam parseFloat req.reward) d.2.rewardCoins =
        some (.val (selectedReward parseFloat req.reward s)) := by
    intro d _ s hd
    rw [hd, jsOr_chosen, chosenReward_parseParam]
  have hsel2 : ∀ d ∈ pendingTasks st u,
      jsOr (parseParam parseFloat req.reward) d.2.rewardCoins =
        some (.val (selectedReward parseFloat req.reward (ratOf d.2.rewardCoins))) := by
    intro d hd
    obtain ⟨s, hds⟩ := hnum d hd
    rw [hsel d hd s hds, hds]; rfl
  obtain ⟨acct1, ht, ha, hg, _, hnm⟩ := processAffiliatePostback_approved now st0
    (postbackOf parseFloat req u status) acct hs (by rw [h0u]; exact hu)
  simp only [postbackOf, hpend] at ht ha hg hnm
  simp only [postbackOf] at hfst
  refine ⟨?_, ?_, ?_⟩
  · intro d hd s hds
    refine ⟨markCompleted now (postbackOf parseFloat req u status) d.2 d.2, ?_, ?_⟩
    · rw [hfst, ht, h0t]
      have := foldl_update_get_mem
        (fun d => markCompleted now (postbackOf parseFloat req u status) d.2)
        (pendingTasks st u) st.userTasks d (pendingTasks_nodup st u hn) hd
      simp only [postbackOf] at this
      rw [this, Coll.get_of_mem_nodup st.userTasks d.1 d.2 hn (pendingTasks_subset st u d hd).1]
      rfl
    · simp only [markCompleted, postbackOf]
      exact hsel d hd s hds
  · refine ⟨(pendingTasks st u).map (completedRecord now (postbackOf parseFloat req u status)),
      by rw [hfst, ha, h0a]; rfl, ?_⟩
    rw [List.map_map]
    apply List.map_congr_left
    intro d hd
    simp only [Function.comp, completedRecord, completedDetails, postbackOf]
    exact hsel2 d hd
  · refine ⟨acct1, by rw [hfst, hg], ?_⟩
    have hmap : (pendingTasks st u).map
          (fun d => ratOf (jsOr (parseParam parseFloat req.reward) d.2.rewardCoins)) =
        (pendingTasks st u).map
          (fun d => selectedReward parseFloat req.reward (ratOf d.2.rewardCoins)) := by
      apply List.map_congr_left
      intro d hd
      rw [hsel2 d hd]; rfl
    rw [(hnm b hb (fun d hd => ⟨_, hsel2 d hd⟩)).1, hmap]

/-- C4 (witness): the sample store and an approved request with `reward=200`. -/
theorem postback_reward_selection_witness :
    ∃ acct1, (handleAffiliatePostback parseDigits Faults.none 7 sampleStore
        { method := "GET", sub_id := some "u1", status := some "approved",
          reward := some "200" }).1.users.get "u1" = some acct1 ∧
      acct1.coins = some (.val (100 + ((pendingTasks sampleStore "u1").map
        (fun d => selectedReward parseDigits (some "200") (ratOf d.2.rewardCoins))).sum)) :=
  (postback_reward_selection parseDigits 7 sampleStore
    { method := "GET", sub_id := some "u1", status := some "approved", reward := some "200" }
    "u1" "approved" { coins := some (.val 100) } 100 (by decide) rfl (by decide) rfl
    (Or.inl rfl) (by decide) rfl (by decide)
    (fun d hd => by
      have h : pendingTasks sampleStore "u1" = [("u1_c1", sampleClaim)] := by decide
      rw [h, List.mem_singleton] at hd
      exact ⟨150, by rw [hd]; rfl⟩)).2.2

/-- C4 (counterexample): in the sample store (balance 100, one pending claim with snapshot
reward 150) an approved request with `reward=0`, a text that parses to the number `0`,
writes `actualReward = 150` and credits `150`: neither is the parsed number `0`. -/
theorem postback_reward_zero_text :
    parseDigits "0" = .val 0 ∧
    ((handleAffiliatePostback parseDigits Faults.none 7 sampleStore
        { method := "GET", sub_id := some "u1", status := some "approved",
          reward := some "0" }).1.userTasks.get "u1_c1").map (fun c => c.actualReward) =
      some (some (.val 150)) ∧
    ((handleAffiliatePostback parseDigits Faults.none 7 sampleStore
        { method := "GET", sub_id := some "u1", status := some "approved",
          reward := some "0" }).1.userTasks.get "u1_c1").map (fun c => c.actualReward) ≠
      some (some (.val 0)) ∧
    ((handleAffiliatePostback parseDigits Faults.none 7 sampleStore
        { method := "GET", sub_id := some "u1", status := some "approved",
          reward := some "0" }).1.users.get "u1").map (fun a => a.coins) =
      some (some (.val 250)) := by
  have hp : parseParam parseDigits (some "0") = some (.val 0) := by decide
  refine ⟨by decide, ?_, ?_, ?_⟩
  · norm_num [handleAffiliatePostback, postbackOf, hp, processAffiliatePostback, Faults.none,
      sampleStore, sampleClaim, pendingTasks, processLoop, processTask, creditCoinsToUser,
      logUserActivity, Coll.get, Coll.update, jsOr, truthy, toNumber, JSNum.add, markCompleted,
      completedDetails]
  · norm_num [handleAffiliatePostback, postbackOf, hp, processAffiliatePostback, Faults.none,
      sampleStore, sampleClaim, pendingTasks, processLoop, processTask, creditCoinsToUser,
      logUserActivity, Coll.get, Coll.update, jsOr, truthy, toNumber, JSNum.add, markCompleted,
      completedDetails]
  · norm_num [handleAffiliatePostback, postbackOf, hp, processAffiliatePostback, Faults.none,
      sampleStore, sampleClaim, pendingTasks, processLoop, processTask, creditCoinsToUser,
      logUserActivity, Coll.get, Coll.update, jsOr, truthy, toNumber, JSNum.add, markCompleted,
      completedDetails]

/-- C5: a postback with status `rejected` or `declined` leaves the collection of user
records, and with it the coin balance of every user, as it was, whatever the pending
claims, the reward value and the store faults. -/
theorem rejected_postback_keeps_balances (F : Faults) (now : Nat) (st : Store)
    (pd : PostbackData) (h : pd.status = "rejected" ∨ pd.status = "declined") :
    (processAffiliatePostback F now st pd).1.users = st.users ∧
    ∀ v, ((processAffiliatePostback F now st pd).1.users.get v).map (fun a => a.coins) =
      (st.users.get v).map (fun a => a.coins) := by
  have key : (processAffiliatePostback F now st pd).1.users = st.users := by
    unfold processAffiliatePostback
    split
    · rfl
    · simp only []
      split
      · rfl
      · have h1 := processLoop_users_of_rejected F now pd h (pendingTasks st pd.userId) st
          ⟨.val 0, false⟩
        split <;> rename_i heq <;> rw [heq] at h1 <;> exact h1
  exact ⟨key, fun v => by rw [key]⟩

/-- C5 (witness): the sample store and a rejected postback that carries a reward. -/
theorem rejected_postback_keeps_balances_witness :
    (processAffiliatePostback Faults.none 7 sampleStore
      { userId := "u1", status := "rejected", reward := some (.val 500) }).1.users =
      sampleStore.users :=
  (rejected_postback_keeps_balances Faults.none 7 sampleStore
    { userId := "u1", status := "rejected", reward := some (.val 500) } (Or.inl rfl)).1

/-- C6: without store faults, a postback with status `rejected` or `declined` sets every
pending claim of the addressed user to status `rejected` with `rejectionReason` the
reason supplied in the postback data (a non-empty text), or the default
"Offer requirements not met" when none is supplied (the field is missing or empty), and
appends exactly one activity record of type `affiliate_rejected` per such claim, in the
order of the claims. -/
theorem rejected_postback_marks_pending (now : Nat) (st : Store) (pd : PostbackData)
    (h : pd.status = "rejected" ∨ pd.status = "declined") :
    (∀ d ∈ pendingTasks st pd.userId,
      ∃ c, (processAffiliatePostback Faults.none now st pd).1.userTasks.get d.1 = some c ∧
        c.status = "rejected" ∧
        (∀ r, pd.reason = some r → r ≠ "" → c.rejectionReason = some r) ∧
        (pd.reason = none ∨ pd.reason = some "" →
          c.rejectionReason = some "Offer requirements not met")) ∧
    (∃ recs, (processAffiliatePostback Faults.none now st pd).1.activities =
        st.activities ++ recs ∧
      List.Forall₂ (fun (a : ActivityRecord) (d : String × TaskClaim) =>
        a.type = "affiliate_rejected" ∧ a.userId = pd.userId ∧
        a.details.campaignId = d.2.campaignId) recs (pendingTasks st pd.userId)) := by
  have hfst := processAffiliatePostback_fst Faults.none now st pd rfl
  rw [processLoop_rejected now pd h] at hfst
  simp only [] at hfst
  constructor
  · intro d hd
    obtain ⟨c0, hc0⟩ := Coll.get_of_mem st.userTasks d.1 d.2 (pendingTasks_subset st _ d hd).1
    obtain ⟨c, hc, hp1, hp2⟩ := foldl_update_get_establish (fun _ => markRejected now pd)
      (fun c => c.status = "rejected" ∧
        c.rejectionReason = some (jsOrStr pd.reason "Offer requirements not met"))
      (fun _ _ => ⟨rfl, rfl⟩) d.1 (pendingTasks st pd.userId) st.userTasks
      (List.mem_map_of_mem (fun d => d.1) hd) ⟨c0, hc0⟩
    refine ⟨c, by rw [hfst]; exact hc, hp1, ?_, ?_⟩
    · intro r hr hne
      rw [hp2, hr]; simp [jsOrStr, hne]
    · intro hr
      rcases hr with hr | hr <;> rw [hp2, hr] <;> simp [jsOrStr]
  · refine ⟨(pendingTasks st pd.userId).map (rejectedRecord now pd), by rw [hfst], ?_⟩
    rw [List.forall₂_map_left_iff]
    exact List.forall₂_same.mpr (fun d _ => ⟨rfl, rfl, rfl⟩)

/-- C6 (witness): the sample store and a rejected postback without a reason. -/
theorem rejected_postback_marks_pending_witness :
    ∃ c, (processAffiliatePostback Faults.none 7 sampleStore
        { userId := "u1", status := "rejected" }).1.userTasks.get "u1_c1" = some c ∧
      c.status = "rejected" ∧ c.rejectionReason = some "Offer requirements not met" := by
  obtain ⟨c, hc, hs, _, hr⟩ :=
    (rejected_postback_marks_pending 7 sampleStore { userId := "u1", status := "rejected" }
      (Or.inl rfl)).1 ("u1_c1", sampleClaim) (by decide)
  exact ⟨c, hc, hs, hr (Or.inl rfl)⟩

/-- C7: a postback whose status is none of `approved`, `completed`, `rejected`,
`declined` leaves the whole store as it was, so every claim, every balance and the
activities collection are unchanged, and reports no coins: the result either carries no
`coinsAwarded` (the failure object of a user without pending claims, or of a failed query)
or carries `coinsAwarded = 0`, which is the case whenever the user has a pending claim
and the query succeeds. -/
theorem unrecognised_status_noop (F : Faults) (now : Nat) (st : Store) (pd : PostbackData)
    (h : ¬ recognised pd.status) :
    (processAffiliatePostback F now st pd).1 = st ∧
    (∀ c, (processAffiliatePostback F now st pd).2.coinsAwarded = some c → c = .val 0) ∧
    (F.queryError = none → pendingTasks st pd.userId ≠ [] →
      (processAffiliatePostback F now st pd).2 = .processed false pd.userId pd.status (.val 0)) := by
  unfold processAffiliatePostback
  rcases hq : F.queryError with _ | e
  · by_cases hd : pendingTasks st pd.userId = []
    · simp [hd, PostbackResult.coinsAwarded]
    · simp [hd, processLoop_of_unrecognised F now pd h, PostbackResult.coinsAwarded]
  · simp [PostbackResult.coinsAwarded]

/-- C7 (witness): the sample store and a postback with status `pending`. -/
theorem unrecognised_status_noop_witness :
    (processAffiliatePostback Faults.none 7 sampleStore
      { userId := "u1", status := "pending", reward := some (.val 500) }).1 = sampleStore ∧
    (processAffiliatePostback Faults.none 7 sampleStore
      { userId := "u1", status := "pending", reward := some (.val 500) }).2 =
      .processed false "u1" "pending" (.val 0) :=
  ⟨(unrecognised_status_noop Faults.none 7 sampleStore
      { userId := "u1", status := "pending", reward := some (.val 500) } (by decide)).1,
   (unrecognised_status_noop Faults.none 7 sampleStore
      { userId := "u1", status := "pending", reward := some (.val 500) } (by decide)).2.2 rfl
      (by decide)⟩

/-- C8 (code at the failing input): from the fresh store, `startAffiliateTask` creates
the claim as `pending`, `handlePostback` with status `approved` makes it `completed`, and
`handlePostback` with status `rejected` then changes the completed claim to `rejected`;
a further `approved` call changes the rejected claim to `completed`. -/
theorem handlePostback_changes_completed_claim :
    ((AffiliateManager.startAffiliateTask sampleCampaigns 1 freshStore "u1" "c1").1.userTasks.get
      "u1_c1").map (fun c => c.status) = some "pending" ∧
    ((AffiliateManager.handlePostback 2
        (AffiliateManager.startAffiliateTask sampleCampaigns 1 freshStore "u1" "c1").1
        { sub_id := some "u1", status := some "approved" }).1.userTasks.get
      "u1_c1").map (fun c => c.status) = some "completed" ∧
    ((AffiliateManager.handlePostback 3 (AffiliateManager.handlePostback 2
        (AffiliateManager.startAffiliateTask sampleCampaigns 1 freshStore "u1" "c1").1
        { sub_id := some "u1", status := some "approved" }).1
        { sub_id := some "u1", status := some "rejected" }).1.userTasks.get
      "u1_c1").map (fun c => c.status) = some "rejected" ∧
    ((AffiliateManager.handlePostback 4 (AffiliateManager.handlePostback 3
        (AffiliateManager.handlePostback 2
        (AffiliateManager.startAffiliateTask sampleCampaigns 1 freshStore "u1" "c1").1
        { sub_id := some "u1", status := some "approved" }).1
        { sub_id := some "u1", status := some "rejected" }).1
        { sub_id := some "u1", status := some "approved" }).1.userTasks.get
      "u1_c1").map (fun c => c.status) = some "completed" := by
  refine ⟨by decide, by decide, by decide, by decide⟩

/-- C9: for a campaign of the loaded catalog, `startAffiliateTask` throws
`Task already completed` when the stored claim of the user for the campaign has status
`completed`, and `Task already in progress` when it has status `pending`; in both cases
the store is left as it was. -/
theorem startAffiliateTask_refuses (campaigns : List Campaign) (now : Nat) (st : Store)
    (u : String) (camp : Campaign) (t : TaskClaim) (hc : camp ∈ campaigns)
    (ht : st.userTasks.get (taskKey u camp.id) = some t) :
    (t.status = "completed" →
      AffiliateManager.startAffiliateTask campaigns now st u camp.id =
        (st, .error "Task already completed")) ∧
    (t.status = "pending" →
      AffiliateManager.startAffiliateTask campaigns now st u camp.id =
        (st, .error "Task already in progress")) := by
  have hf : ∃ c0, campaigns.find? (fun c => decide (c.id = camp.id)) = some c0 := by
    rcases hfind : campaigns.find? (fun c => decide (c.id = camp.id)) with _ | c0
    · rw [List.find?_eq_none] at hfind
      exact absurd (by simp) (hfind camp hc)
    · exact ⟨c0, hfind⟩
  obtain ⟨c0, hc0⟩ := hf
  constructor
  · intro hs
    simp [AffiliateManager.startAffiliateTask, hc0, ht, AffiliateManager.startRefusal, hs]
  · intro hs
    simp [AffiliateManager.startAffiliateTask, hc0, ht, AffiliateManager.startRefusal, hs]

/-- C9 (witness): a second start while the claim of the first start is pending. -/
theorem startAffiliateTask_refuses_witness :
    AffiliateManager.startAffiliateTask sampleCampaigns 2
        (AffiliateManager.startAffiliateTask sampleCampaigns 1 freshStore "u1" "c1").1 "u1" "c1" =
      ((AffiliateManager.startAffiliateTask sampleCampaigns 1 freshStore "u1" "c1").1,
        .error "Task already in progress") :=
  (startAffiliateTask_refuses sampleCampaigns 2
    (AffiliateManager.startAffiliateTask sampleCampaigns 1 freshStore "u1" "c1").1 "u1"
    { id := "c1", title := "Sample offer", description := "Install and register",
      affiliateLink := "https://track.example/click?sub_id=\x7buserId\x7d",
      rewardCoins := some (.val 150) }
    { userId := "u1", campaignId := "c1", status := "pending", rewardCoins := some (.val 150),
      startedAt := 1, campaignType := "affiliate", affiliateNetwork := "unknown" }
    (by decide) (by decide)).2 rfl

/-- C10: when the catalog yields campaign `camp` for the campaign id, and the user has no
claim for it or a claim with status `rejected`, `startAffiliateTask` succeeds; afterwards
the store holds under the key built from user id and campaign id a claim with that user
id, that campaign id, status `pending` and `rewardCoins` equal to the reward of the
campaign, and the `reward` of the returned campaign object is that same value. -/
theorem startAffiliateTask_creates_pending (campaigns : List Campaign) (now : Nat)
    (st : Store) (u cid : String) (camp : Campaign)
    (hfind : campaigns.find? (fun c => decide (c.id = cid)) = some camp)
    (hfree : st.userTasks.get (taskKey u cid) = none ∨
      ∃ t, st.userTasks.get (taskKey u cid) = some t ∧ t.status = "rejected") :
    (∃ res, (AffiliateManager.startAffiliateTask campaigns now st u cid).2 = .ok res ∧
      res.success = true ∧ res.reward = camp.rewardCoins) ∧
    (∃ c, (AffiliateManager.startAffiliateTask campaigns now st u cid).1.userTasks.get
        (taskKey u cid) = some c ∧
      c.userId = u ∧ c.campaignId = cid ∧ c.status = "pending" ∧
      c.rewardCoins = camp.rewardCoins) := by
  have hr : AffiliateManager.startRefusal (st.userTasks.get (taskKey u cid)) = none := by
    rcases hfree with h | ⟨t, h, hs⟩
    · rw [h]; rfl
    · rw [h]; simp [AffiliateManager.startRefusal, hs]
  simp only [AffiliateManager.startAffiliateTask, hfind, hr]
  exact ⟨⟨_, rfl, rfl, rfl⟩, ⟨_, Coll.get_set_self _ _ _, rfl, rfl, rfl, rfl⟩⟩

/-- C10 (witness): the first start of campaign `c1` by user `u1` in the fresh store. -/
theorem startAffiliateTask_creates_pending_witness :
    ∃ c, (AffiliateManager.startAffiliateTask sampleCampaigns 1 freshStore "u1" "c1").1.userTasks.get
        (taskKey "u1" "c1") = some c ∧
      c.userId = "u1" ∧ c.campaignId = "c1" ∧ c.status = "pending" ∧
      c.rewardCoins = some (.val 150) :=
  (startAffiliateTask_creates_pending sampleCampaigns 1 freshStore "u1" "c1"
    { id := "c1", title := "Sample offer", description := "Install and register",
      affiliateLink := "https://track.example/click?sub_id=\x7buserId\x7d",
      rewardCoins := some (.val 150) }
    (by decide) (Or.inl (by decide))).2

/-- C11 (amended): for every campaign whose `affiliateLink` contains the placeholder
`{userId}` and every user id `u` that contains no `$` character, the tracking link
returned by a successful `startAffiliateTask` is the `affiliateLink` with the first
occurrence of the placeholder substituted by `u`: it is the text before that occurrence,
then `u`, then the text after that occurrence, and so contains `u` verbatim. -/
theorem tracking_link_replaces_first_placeholder (campaigns : List Campaign) (now : Nat)
    (st : Store) (u cid : String) (camp : Campaign) (res : StartResult)
    (before after : List Char)
    (hfind : campaigns.find? (fun c => decide (c.id = cid)) = some camp)
    (hlink : camp.affiliateLink.toList = before ++ placeholder.toList ++ after)
    (hfirst : ∀ p q, camp.affiliateLink.toList = p ++ placeholder.toList ++ q →
      before.length ≤ p.length)
    (hu : '$' ∉ u.toList)
    (hres : (AffiliateManager.startAffiliateTask campaigns now st u cid).2 = .ok res) :
    res.trackingLink.toList = before ++ u.toList ++ after ∧
    u.toList <:+: res.trackingLink.toList := by
  have hlinkeq : res.trackingLink = jsReplace camp.affiliateLink placeholder u := by
    unfold AffiliateManager.startAffiliateTask at hres
    simp only [hfind] at hres
    split at hres
    · cases hres
    · simp only [Except.ok.injEq] at hres
      rw [← hres]
      rfl
  have key := jsReplace_first camp.affiliateLink placeholder u before after hlink hfirst hu
  rw [hlinkeq, key]
  exact ⟨rfl, ⟨before, after, rfl⟩⟩

/-- C11 (witness): user `u1` starts the campaign of the sample catalog in the fresh store. -/
theorem tracking_link_replaces_first_placeholder_witness :
    ∃ res, (AffiliateManager.startAffiliateTask sampleCampaigns 1 freshStore "u1" "c1").2 =
        .ok res ∧
      res.trackingLink.toList = "https://track.example/click?sub_id=".toList ++ "u1".toList ++ [] :=
  ⟨⟨true, jsReplace "https://track.example/click?sub_id=\x7buserId\x7d" "\x7buserId\x7d" "u1",
      "Sample offer", some (.val 150), "Install and register"⟩, rfl,
    (tracking_link_replaces_first_placeholder sampleCampaigns 1 freshStore "u1" "c1"
      { id := "c1", title := "Sample offer", description := "Install and register",
        affiliateLink := "https://track.example/click?sub_id=\x7buserId\x7d",
        rewardCoins := some (.val 150) }
      ⟨true, jsReplace "https://track.example/click?sub_id=\x7buserId\x7d" "\x7buserId\x7d" "u1",
        "Sample offer", some (.val 150), "Install and register"⟩
      "https://track.example/click?sub_id=".toList [] (by decide) (by decide)
      (first_occurrence_of_check _ _ _ (by decide)) (by decide) rfl).1⟩

/-- C11 (counterexample): for the user id `$&` the returned link is the unchanged template,
which still contains the placeholder and does not contain the user id; and for a template
that carries the placeholder twice, the second occurrence stays in the returned link. -/
theorem tracking_link_keeps_placeholder :
    ((AffiliateManager.startAffiliateTask sampleCampaigns 1 freshStore "$&" "c1").2.toOption.map
      (fun r => r.trackingLink)) = some "https://track.example/click?sub_id=\x7buserId\x7d" ∧
    ((AffiliateManager.startAffiliateTask twoPlaceholderCampaigns 1 freshStore "u1"
      "c1").2.toOption.map (fun r => r.trackingLink)) =
      some "https://track.example/click?a=u1&b=\x7buserId\x7d" := by
  refine ⟨by decide, by decide⟩

/-- C12 (amended): for user ids that contain no underscore, the record key built by
`startAffiliateTask` determines the pair of user id and campaign id: the keys of two
different pairs differ, so starting a task for one pair leaves the claim stored for the
other pair as it was, and its outcome does not depend on the claim stored for the other
pair. -/
theorem claim_keys_distinct_without_underscore (u1 u2 c1 c2 : String)
    (h1 : '_' ∉ u1.toList) (h2 : '_' ∉ u2.toList) (hne : (u1, c1) ≠ (u2, c2)) :
    taskKey u1 c1 ≠ taskKey u2 c2 ∧
    (∀ (campaigns : List Campaign) (now : Nat) (st : Store),
      (AffiliateManager.startAffiliateTask campaigns now st u1 c1).1.userTasks.get
        (taskKey u2 c2) = st.userTasks.get (taskKey u2 c2)) ∧
    (∀ (campaigns : List Campaign) (now : Nat) (st : Store) (t : TaskClaim),
      (AffiliateManager.startAffiliateTask campaigns now
        { st with userTasks := st.userTasks.set (taskKey u2 c2) t } u1 c1).2 =
      (AffiliateManager.startAffiliateTask campaigns now st u1 c1).2) := by
  have hk : taskKey u1 c1 ≠ taskKey u2 c2 := by
    intro h
    obtain ⟨hu, hc⟩ := taskKey_injective u1 u2 c1 c2 h1 h2 h
    exact hne (by rw [hu, hc])
  refine ⟨hk, ?_, ?_⟩
  · intro campaigns now st
    exact startAffiliateTask_get_other campaigns now st u1 c1 _ (Ne.symm hk)
  · intro campaigns now st t
    apply startAffiliateTask_result_congr
    exact Coll.get_set_other _ _ _ _ hk

/-- C12 (witness): the pairs `(u1, c1)` and `(u2, c1)`. -/
theorem claim_keys_distinct_without_underscore_witness :
    taskKey "u1" "c1" ≠ taskKey "u2" "c1" :=
  (claim_keys_distinct_without_underscore "u1" "u2" "c1" "c1" (by decide) (by decide)
    (by decide)).1

/-- C12 (counterexample): the different pairs `(a_b, c)` and `(a, b_c)` get the same
record key `a_b_c`; after user `a` has started campaign `b_c`, the start of campaign `c`
by user `a_b` is refused with `Task already in progress` because of that claim. -/
theorem claim_keys_clash_with_underscore :
    (("a_b", "c") : String × String) ≠ ("a", "b_c") ∧
    taskKey "a_b" "c" = taskKey "a" "b_c" ∧
    (AffiliateManager.startAffiliateTask clashCampaigns 1 freshStore "a" "b_c").2.toBool = true ∧
    errorOf (AffiliateManager.startAffiliateTask clashCampaigns 2
      (AffiliateManager.startAffiliateTask clashCampaigns 1 freshStore "a" "b_c").1
      "a_b" "c").2 = some "Task already in progress" := by
  refine ⟨by decide, by decide, by decide, by decide⟩

/-- C13: when user `u` exists, with a numeric balance `b` or no `coins` field (`b = 0`),
and has `n >= 1` pending claims, each with a numeric snapshot reward, an approved or
completed postback, store operations succeeding, sets every one of those claims to
`completed`, returns `success = true` with `userId` and `status` echoed and with
`coinsAwarded` the sum over those claims of the amount credited for each (the override
when it is a number other than `0`, the snapshot reward otherwise), logs that amount for
each claim, and raises the balance of `u` by exactly that sum. -/
theorem approved_postback_completes_all (now : Nat) (st : Store) (pd : PostbackData)
    (acct : UserAccount) (b : ℚ) (hs : pd.status = "approved" ∨ pd.status = "completed")
    (hu : st.users.get pd.userId = some acct)
    (hb : acct.coins = some (.val b) ∨ (acct.coins = none ∧ b = 0))
    (hne : pendingTasks st pd.userId ≠ [])
    (hnum : ∀ d ∈ pendingTasks st pd.userId, ∃ s, d.2.rewardCoins = some (.val s)) :
    (∀ d ∈ pendingTasks st pd.userId,
      ∃ c, (processAffiliatePostback Faults.none now st pd).1.userTasks.get d.1 = some c ∧
        c.status = "completed") ∧
    (processAffiliatePostback Faults.none now st pd).2 =
      .processed true pd.userId pd.status (.val (((pendingTasks st pd.userId).map
        (fun d => chosenReward pd.reward (ratOf d.2.rewardCoins))).sum)) ∧
    (∃ recs, (processAffiliatePostback Faults.none now st pd).1.activities =
        st.activities ++ recs ∧
      recs.map (fun a => a.details.reward) = (pendingTasks st pd.userId).map
        (fun d => some (.val (chosenReward pd.reward (ratOf d.2.rewardCoins))))) ∧
    (∃ acct1, (processAffiliatePostback Faults.none now st pd).1.users.get pd.userId =
        some acct1 ∧
      acct1.coins = some (.val (b + ((pendingTasks st pd.userId).map
        (fun d => chosenReward pd.reward (ratOf d.2.rewardCoins))).sum))) := by
  have hsel : ∀ d ∈ pendingTasks st pd.userId,
      jsOr pd.reward d.2.rewardCoins =
        some (.val (chosenReward pd.reward (ratOf d.2.rewardCoins))) := by
    intro d hd
    obtain ⟨s, hds⟩ := hnum d hd
    rw [hds, jsOr_chosen]; rfl
  have hmap : (pendingTasks st pd.userId).map
        (fun d => ratOf (jsOr pd.reward d.2.rewardCoins)) =
      (pendingTasks st pd.userId).map
        (fun d => chosenReward pd.reward (ratOf d.2.rewardCoins)) := by
    apply List.map_congr_left
    intro d hd
    rw [hsel d hd]; rfl
  rcases hdocs : pendingTasks st pd.userId with _ | ⟨d0, ds⟩
  · exact absurd hdocs hne
  rw [hdocs] at hsel hmap
  obtain ⟨st1, vars1, acct1, hl, ht, hac, hg, _, hv, hc1, hc2⟩ :=
    processLoop_approved_first now pd hs d0 ds st ⟨.val 0, false⟩ acct b 0 hu hb rfl
      (fun e he => ⟨_, hsel e he⟩)
  have hproc : processAffiliatePostback Faults.none now st pd =
      (st1, .processed true pd.userId pd.status vars1.coinsAwarded) := by
    rw [processAffiliatePostback_loop Faults.none now st pd rfl hne, hdocs, hl]
    simp only [resultOf, hv]
  rw [hproc]
  refine ⟨?_, ?_, ?_, ?_⟩
  · intro d hd
    have hmem : d ∈ pendingTasks st pd.userId := by rw [hdocs]; exact hd
    obtain ⟨c0, hc0⟩ := Coll.get_of_mem st.userTasks d.1 d.2
      (pendingTasks_subset st _ d hmem).1
    obtain ⟨c, hc, hp⟩ := foldl_update_get_establish (fun d => markCompleted now pd d.2)
      (fun c => c.status = "completed") (fun _ _ => rfl) d.1 (d0 :: ds) st.userTasks
      (List.mem_map_of_mem (fun d => d.1) hd) ⟨c0, hc0⟩
    exact ⟨c, by rw [ht]; exact hc, hp⟩
  · rw [hc2, hmap, zero_add]
  · refine ⟨(d0 :: ds).map (completedRecord now pd), hac, ?_⟩
    rw [List.map_map]
    apply List.map_congr_left
    intro d hd
    simp only [Function.comp, completedRecord, completedDetails]
    exact hsel d hd
  · exact ⟨acct1, hg, by rw [hc1, hmap]⟩

/-- C13 (witness): an approved postback for user `u1` of the store with two pending claims. -/
theorem approved_postback_completes_all_witness :
    (processAffiliatePostback Faults.none 7 twoClaimStore
        { userId := "u1", status := "approved" }).2 =
      .processed true "u1" "approved" (.val (((pendingTasks twoClaimStore "u1").map
        (fun d => chosenReward none (ratOf d.2.rewardCoins))).sum)) ∧
    ((pendingTasks twoClaimStore "u1").map
        (fun d => chosenReward none (ratOf d.2.rewardCoins))) = [150, 40] :=
  ⟨(approved_postback_completes_all 7 twoClaimStore { userId := "u1", status := "approved" }
      { coins := some (.val 100) } 100 (Or.inl rfl) (by decide) (Or.inl rfl) (by decide)
      (fun d hd => by
        have h : pendingTasks twoClaimStore "u1" =
            [("u1_c1", sampleClaim),
             ("u1_c2", { sampleClaim with campaignId := "c2", rewardCoins := some (.val 40) })] := by
          decide
        rw [h] at hd
        simp only [List.mem_cons, List.mem_singleton, List.not_mem_nil, or_false] at hd
        rcases hd with hd | hd
        · exact ⟨150, by subst hd; rfl⟩
        · exact ⟨40, by subst hd; rfl⟩)).2.1,
   by decide⟩

/-- C14: `creditCoinsToUser(userId, amount)` of the postback handler, store operations
succeeding: when the user record exists with balance `b` (a missing `coins` field counting
as `0`), it stores `b + amount` as the new balance, touches no other user and no other
collection, and returns `b + amount`; when the user record does not exist, it throws
`User <id> not found` and leaves the store as it was. -/
theorem creditCoinsToUser_credits_or_fails (now : Nat) (st : Store) (u : String) (q : ℚ) :
    (∀ acct b, st.users.get u = some acct →
      (acct.coins = some (.val b) ∨ (acct.coins = none ∧ b = 0)) →
      (creditCoinsToUser Faults.none now st u (some (.val q))).2 = .ok (.val (b + q)) ∧
      (∃ acct1, (creditCoinsToUser Faults.none now st u (some (.val q))).1.users.get u =
          some acct1 ∧ acct1.coins = some (.val (b + q))) ∧
      (∀ v, v ≠ u → (creditCoinsToUser Faults.none now st u (some (.val q))).1.users.get v =
          st.users.get v) ∧
      (creditCoinsToUser Faults.none now st u (some (.val q))).1.userTasks = st.userTasks ∧
      (creditCoinsToUser Faults.none now st u (some (.val q))).1.activities = st.activities) ∧
    (st.users.get u = none →
      creditCoinsToUser Faults.none now st u (some (.val q)) =
        (st, .error ("User " ++ u ++ " not found"))) := by
  constructor
  · intro acct b hu hb
    have hbal : toNumber (jsOr acct.coins (some (.val 0))) = .val b := by
      rcases hb with hb | ⟨hb, h0⟩
      · rw [hb, toNumber_jsOr_zero]
      · rw [hb, h0]; rfl
    have hcred : creditCoinsToUser Faults.none now st u (some (.val q)) =
        ({ st with users := st.users.update u (fun d =>
            { d with coins := some (.val (b + q)), lastActive := some now,
                     updatedAt := some now }) },
         .ok (.val (b + q))) := by
      simp only [creditCoinsToUser, Faults.none, hu, hbal]
      rfl
    rw [hcred]
    refine ⟨rfl, ⟨⟨some (.val (b + q)), some now, some now⟩, ?_, rfl⟩, ?_, rfl, rfl⟩
    · simp only [Coll.get_update, if_true, hu, Option.map_some']
    · intro v hv
      simp only [Coll.get_update, if_neg hv]
  · intro hu
    simp only [creditCoinsToUser, Faults.none, hu]

/-- C14 (witness): crediting 25 coins to user `u1` of the sample store, and to a user
that the store does not hold. -/
theorem creditCoinsToUser_credits_or_fails_witness :
    (creditCoinsToUser Faults.none 7 sampleStore "u1" (some (.val 25))).2 = .ok (.val (100 + 25)) ∧
    creditCoinsToUser Faults.none 7 sampleStore "u2" (some (.val 25)) =
      (sampleStore, .error ("User " ++ "u2" ++ " not found")) :=
  ⟨((creditCoinsToUser_credits_or_fails 7 sampleStore "u1" 25).1 { coins := some (.val 100) } 100
      (by decide) (Or.inl rfl)).1,
   (creditCoinsToUser_credits_or_fails 7 sampleStore "u2" 25).2 (by decide)⟩

/-- C15 (amended): for every store in which a user's coins is a non-negative number and
the pending claims carry non-negative numeric snapshot rewards, and every request to
`handleAffiliatePostback` (any method, any status, any store faults) whose `reward` text,
when it parses to a number, parses to a non-negative one, the user's coins after processing
is a non-negative number and not smaller than before. -/
theorem balance_grows_for_nonnegative_rewards (parseFloat : String → JSNum) (F : Faults)
    (now : Nat) (st : Store) (req : Request) (v : String) (acct : UserAccount) (b : ℚ)
    (hv : st.users.get v = some acct) (hb : acct.coins = some (.val b)) (hb0 : 0 ≤ b)
    (hsnap : ∀ d ∈ st.userTasks, d.2.status = "pending" →
      ∃ s, d.2.rewardCoins = some (.val s) ∧ 0 ≤ s)
    (hrew : ∀ t r, req.reward = some t → parseFloat t = .val r → 0 ≤ r) :
    ∃ acct1 b1, (handleAffiliatePostback parseFloat F now st req).1.users.get v = some acct1 ∧
      acct1.coins = some (.val b1) ∧ b ≤ b1 ∧ 0 ≤ b1 := by
  have h0 : holdsAtLeast st v b := ⟨acct, b, hv, hb, le_refl b⟩
  have key : holdsAtLeast (handleAffiliatePostback parseFloat F now st req).1 v b := by
    rcases handleAffiliatePostback_store_cases parseFloat F now st req with h | ⟨u, status, _, _, h⟩
    · rw [h]; exact h0
    · rw [h]
      apply processAffiliatePostback_holdsAtLeast
      · intro d hd
        obtain ⟨hmem, _, hpend⟩ := pendingTasks_subset
          { st with postbackLogs := st.postbackLogs ++ [logEntry parseFloat now req u status] }
          _ d hd
        obtain ⟨s, hs, hs0⟩ := hsnap d hmem hpend
        refine ⟨selectedReward parseFloat req.reward s, ?_,
          selectedReward_nonneg parseFloat req.reward s hs0 hrew⟩
        simp only [postbackOf]
        rw [hs, jsOr_chosen, chosenReward_parseParam]
      · exact h0
  obtain ⟨acct1, x, h1, h2, h3⟩ := key
  exact ⟨acct1, x, h1, h2, h3, le_trans hb0 h3⟩

/-- C15 (witness): an approved request with `reward=200` on the sample store. -/
theorem balance_grows_for_nonnegative_rewards_witness :
    ∃ acct1 b1, (handleAffiliatePostback parseDigits Faults.none 7 sampleStore
        { method := "GET", sub_id := some "u1", status := some "approved",
          reward := some "200" }).1.users.get "u1" = some acct1 ∧
      acct1.coins = some (.val b1) ∧ (100 : ℚ) ≤ b1 ∧ 0 ≤ b1 :=
  balance_grows_for_nonnegative_rewards parseDigits Faults.none 7 sampleStore
    { method := "GET", sub_id := some "u1", status := some "approved", reward := some "200" }
    "u1" { coins := some (.val 100) } 100 (by decide) rfl (by norm_num)
    (fun d hd _ => by
      have h : sampleStore.userTasks = [("u1_c1", sampleClaim)] := rfl
      rw [h, List.mem_singleton] at hd
      exact ⟨150, by subst hd; rfl, by norm_num⟩)
    (fun t r ht hp => by
      have h200 : t = "200" := (Option.some.inj ht).symm
      subst h200
      have : parseDigits "200" = .val 200 := by decide
      rw [this] at hp
      have hr : r = 200 := (JSNum.val.inj hp).symm
      rw [hr]; norm_num)

/-- C15 (counterexample): in the sample store (balance 100, one pending claim) an approved
request with `reward=-500`, a text that parses to the number `-500`, is accepted with HTTP
200 and leaves the balance at `-400`: negative, and smaller than before. -/
theorem negative_reward_lowers_balance :
    parseSignedDigits "-500" = .val (-500) ∧
    (handleAffiliatePostback parseSignedDigits Faults.none 7 sampleStore
        { method := "GET", sub_id := some "u1", status := some "approved",
          reward := some "-500" }).2.code = 200 ∧
    (sampleStore.users.get "u1").map (fun a => a.coins) = some (some (.val 100)) ∧
    ((handleAffiliatePostback parseSignedDigits Faults.none 7 sampleStore
        { method := "GET", sub_id := some "u1", status := some "approved",
          reward := some "-500" }).1.users.get "u1").map (fun a => a.coins) =
      some (some (.val (-400))) ∧
    (-400 : ℚ) < 0 ∧ (-400 : ℚ) < 100 := by
  have hp : parseParam parseSignedDigits (some "-500") = some (.val (-500)) := by decide
  refine ⟨by decide, by decide, by decide, ?_, by norm_num, by norm_num⟩
  · norm_num [handleAffiliatePostback, postbackOf, hp, processAffiliatePostback, Faults.none,
      sampleStore, sampleClaim, pendingTasks, processLoop, processTask, creditCoinsToUser,
      logUserActivity, Coll.get, Coll.update, jsOr, truthy, toNumber, JSNum.add, markCompleted,
      completedDetails]

/-- C16: a request other than `OPTIONS` in which `sub_id` or `status` is missing or empty is
answered with HTTP 400 and the body
`{success: false, error: 'Missing required parameters: sub_id and status'}`, and the store
is left as it was: no claim, balance or activity record changes (and nothing is logged). -/
theorem handleAffiliatePostback_missing_parameters (parseFloat : String → JSNum) (F : Faults)
    (now : Nat) (st : Store) (req : Request) (hm : req.method ≠ "OPTIONS")
    (hv : req.sub_id = none ∨ req.sub_id = some "" ∨ req.status = none ∨ req.status = some "") :
    handleAffiliatePostback parseFloat F now st req =
      (st, ⟨400, .error (some "Missing required parameters: sub_id and status")⟩) := by
  unfold handleAffiliatePostback
  simp only [hm, if_false]
  rcases hsub : req.sub_id with _ | u <;> rcases hst : req.status with _ | s
  · rfl
  · rfl
  · rfl
  · have : u = "" ∨ s = "" := by
      rcases hv with h | h | h | h
      · rw [hsub] at h; cases h
      · rw [hsub] at h; exact Or.inl (Option.some.inj h)
      · rw [hst] at h; cases h
      · rw [hst] at h; exact Or.inr (Option.some.inj h)
    simp only [this, if_true]

/-- C16 (witness): a request on the sample store that carries a status and no `sub_id`. -/
theorem handleAffiliatePostback_missing_parameters_witness :
    handleAffiliatePostback parseDigits Faults.none 7 sampleStore
        { method := "GET", status := some "approved" } =
      (sampleStore, ⟨400, .error (some "Missing required parameters: sub_id and status")⟩) :=
  handleAffiliatePostback_missing_parameters parseDigits Faults.none 7 sampleStore
    { method := "GET", status := some "approved" } (by decide) (Or.inl rfl)

/-- C17 (amended): a request other than `OPTIONS` that passes validation (`sub_id` and
`status` present and not empty), and whose append to `postbackLogs` succeeds, leaves exactly
one new record of the event in `postbackLogs`, appended before processing and whatever the
outcome of processing; a request that fails validation is answered without a record being
appended. -/
theorem handleAffiliatePostback_logs_valid_requests (parseFloat : String → JSNum) (F : Faults)
    (now : Nat) (st : Store) (req : Request) (hm : req.method ≠ "OPTIONS") :
    (∀ u status, req.sub_id = some u → u ≠ "" → req.status = some status → status ≠ "" →
      F.logError = none →
      ∃ entry, (handleAffiliatePostback parseFloat F now st req).1.postbackLogs =
          st.postbackLogs ++ [entry] ∧
        entry.userId = u ∧ entry.status = status ∧ entry.processed = false ∧
        entry.timestamp = now) ∧
    (req.sub_id = none ∨ req.sub_id = some "" ∨ req.status = none ∨ req.status = some "" →
      (handleAffiliatePostback parseFloat F now st req).1.postbackLogs = st.postbackLogs) := by
  constructor
  · intro u status hsub hu hst hs hl
    refine ⟨logEntry parseFloat now req u status, ?_, rfl, rfl, rfl, rfl⟩
    rw [handleAffiliatePostback_valid parseFloat F now st req u status hm hsub hu hst hs hl]
    simp only [processAffiliatePostback_postbackLogs]
  · intro hv
    unfold handleAffiliatePostback
    simp only [hm, if_false]
    rcases hsub : req.sub_id with _ | u <;> rcases hst : req.status with _ | s
    · rfl
    · rfl
    · rfl
    · have : u = "" ∨ s = "" := by
        rcases hv with h | h | h | h
        · rw [hsub] at h; cases h
        · rw [hsub] at h; exact Or.inl (Option.some.inj h)
        · rw [hst] at h; cases h
        · rw [hst] at h; exact Or.inr (Option.some.inj h)
      simp only [this, if_true]

/-- C17 (witness): a valid approved request on the sample store leaves one log record. -/
theorem handleAffiliatePostback_logs_valid_requests_witness :
    ∃ entry, (handleAffiliatePostback parseDigits Faults.none 7 sampleStore
        { method := "GET", sub_id := some "u1", status := some "approved" }).1.postbackLogs =
        sampleStore.postbackLogs ++ [entry] ∧
      entry.userId = "u1" ∧ entry.status = "approved" ∧ entry.processed = false ∧
      entry.timestamp = 7 :=
  (handleAffiliatePostback_logs_valid_requests parseDigits Faults.none 7 sampleStore
    { method := "GET", sub_id := some "u1", status := some "approved" } (by decide)).1
    "u1" "approved" rfl (by decide) rfl (by decide) rfl

/-- C17 (counterexample): a `GET` request without `sub_id` on the sample store is answered
with HTTP 400 and `postbackLogs` stays empty: no record of the event is appended. -/
theorem missing_sub_id_is_not_logged :
    (handleAffiliatePostback parseDigits Faults.none 7 sampleStore
      { method := "GET", status := some "approved" }).2.code = 400 ∧
    sampleStore.postbackLogs = [] ∧
    (handleAffiliatePostback parseDigits Faults.none 7 sampleStore
      { method := "GET", status := some "approved" }).1.postbackLogs = [] := by
  refine ⟨by decide, by decide, by decide⟩

/-- C18: a valid postback (`sub_id` and `status` present and not empty, any status value)
addressed to a user without a pending claim, store operations succeeding:
`processAffiliatePostback` returns `{success: false, error: 'No pending tasks found for
user'}` and leaves the store as it was; `handleAffiliatePostback` answers HTTP 400 with that
error, and leaves every claim, every user record and the activities collection as they
were. -/
theorem postback_without_pending_claim (parseFloat : String → JSNum) (now : Nat) (st : Store)
    (req : Request) (u status : String) (hm : req.method ≠ "OPTIONS")
    (hsub : req.sub_id = some u) (hu : u ≠ "") (hst : req.status = some status)
    (hs : status ≠ "") (hp : pendingTasks st u = []) :
    processAffiliatePostback Faults.none now st (postbackOf parseFloat req u status) =
      (st, .failure "No pending tasks found for user") ∧
    (handleAffiliatePostback parseFloat Faults.none now st req).2 =
      ⟨400, .error (some "No pending tasks found for user")⟩ ∧
    (handleAffiliatePostback parseFloat Faults.none now st req).1.userTasks = st.userTasks ∧
    (handleAffiliatePostback parseFloat Faults.none now st req).1.users = st.users ∧
    (handleAffiliatePostback parseFloat Faults.none now st req).1.activities = st.activities := by
  have key : ∀ st0 : Store, st0.userTasks = st.userTasks →
      processAffiliatePostback Faults.none now st0 (postbackOf parseFloat req u status) =
        (st0, .failure "No pending tasks found for user") := by
    intro st0 h0
    have : pendingTasks st0 u = [] := by
      unfold pendingTasks at hp ⊢; rw [h0]; exact hp
    simp [processAffiliatePostback, Faults.none, postbackOf, this]
  rw [handleAffiliatePostback_valid parseFloat Faults.none now st req u status hm hsub hu hst hs
    rfl, key { st with postbackLogs := st.postbackLogs ++ [logEntry parseFloat now req u status] }
    rfl]
  exact ⟨key st rfl, rfl, rfl, rfl, rfl⟩

/-- C18 (witness): a rejected postback for user `u1` of the fresh store, who has no claim. -/
theorem postback_without_pending_claim_witness :
    (handleAffiliatePostback parseDigits Faults.none 7 freshStore
      { method := "GET", sub_id := some "u1", status := some "rejected" }).2 =
      ⟨400, .error (some "No pending tasks found for user")⟩ :=
  (postback_without_pending_claim parseDigits 7 freshStore
    { method := "GET", sub_id := some "u1", status := some "rejected" } "u1" "rejected"
    (by decide) rfl (by decide) rfl (by decide) (by decide)).2.1

/-- C19 (amended): for a valid postback request, a failure of the append to `postbackLogs`
is answered with HTTP 500, `success = false` and the generic error `Internal server error`,
without the message of the store, and the store is left as it was. A failure of a store
operation during processing (the pending-claims query, the update of the first pending
claim, or the read or write of the user record after that update) is caught inside
`processAffiliatePostback` and answered with HTTP 400, `success = false` and the message of
the store; when the append to `postbackLogs` succeeds the answer is never HTTP 500, and
every failure object of `processAffiliatePostback` is answered with HTTP 400 and its error
message. -/
theorem postback_storage_failures (parseFloat : String → JSNum) (F : Faults) (now : Nat)
    (st : Store) (req : Request) (u status : String) (hm : req.method ≠ "OPTIONS")
    (hsub : req.sub_id = some u) (hu : u ≠ "") (hst : req.status = some status)
    (hs : status ≠ "") :
    (∀ e, F.logError = some e →
      handleAffiliatePostback parseFloat F now st req =
        (st, ⟨500, .error (some "Internal server error")⟩)) ∧
    (F.logError = none →
      ((handleAffiliatePostback parseFloat F now st req).2.code = 200 ∨
        (handleAffiliatePostback parseFloat F now st req).2.code = 400) ∧
      (∀ e, (processAffiliatePostback F now
            { st with postbackLogs := st.postbackLogs ++ [logEntry parseFloat now req u status] }
            (postbackOf parseFloat req u status)).2 = .failure e →
        (handleAffiliatePostback parseFloat F now st req).2 = ⟨400, .error (some e)⟩) ∧
      (∀ e, F.queryError = some e →
        (handleAffiliatePostback parseFloat F now st req).2 = ⟨400, .error (some e)⟩) ∧
      (∀ e d ds, F.queryError = none → pendingTasks st u = d :: ds → recognised status →
        F.updateError d.1 = some e →
        (handleAffiliatePostback parseFloat F now st req).2 = ⟨400, .error (some e)⟩) ∧
      (∀ e d ds, F.queryError = none → pendingTasks st u = d :: ds →
        status = "approved" ∨ status = "completed" → F.updateError d.1 = none →
        F.userError u = some e →
        (handleAffiliatePostback parseFloat F now st req).2 = ⟨400, .error (some e)⟩)) := by
  refine ⟨fun e hl =>
    handleAffiliatePostback_log_failure parseFloat F now st req u status e hm hsub hu hst hs hl,
    fun hl => ?_⟩
  rw [handleAffiliatePostback_valid parseFloat F now st req u status hm hsub hu hst hs hl]
  refine ⟨?_, ?_, ?_, ?_, ?_⟩
  · rcases (processAffiliatePostback F now _ (postbackOf parseFloat req u status)).2 with
      e | ⟨b, x, y, c⟩
    · exact Or.inr rfl
    · cases b
      · exact Or.inr rfl
      · exact Or.inl rfl
  · intro e he
    simp only [he, responseOf, PostbackResult.error]
  · intro e he
    simp only [processAffiliatePostback, he, responseOf, PostbackResult.error]
  · intro e d ds hq hp hr he
    have := processAffiliatePostback_update_failure F now
      { st with postbackLogs := st.postbackLogs ++ [logEntry parseFloat now req u status] }
      (postbackOf parseFloat req u status) d ds e hq hp hr he
    simp only [this, responseOf, PostbackResult.error]
  · intro e d ds hq hp hr hup he
    have := processAffiliatePostback_user_failure F now
      { st with postbackLogs := st.postbackLogs ++ [logEntry parseFloat now req u status] }
      (postbackOf parseFloat req u status) d ds e hq hp hr hup he
    simp only [this, responseOf, PostbackResult.error]

/-- C19 (witness): a valid request on the sample store while the query on `userTasks`
rejects with `UNAVAILABLE`. -/
theorem postback_storage_failures_witness :
    (handleAffiliatePostback parseDigits queryFault 7 sampleStore
      { method := "GET", sub_id := some "u1", status := some "approved" }).2 =
      ⟨400, .error (some "UNAVAILABLE")⟩ :=
  ((postback_storage_failures parseDigits queryFault 7 sampleStore
    { method := "GET", sub_id := some "u1", status := some "approved" } "u1" "approved"
    (by decide) rfl (by decide) rfl (by decide)).2 rfl).2.2.1 "UNAVAILABLE" rfl

/-- C19 (counterexample): a valid approved request on the sample store while the
pending-claims query rejects with the message `UNAVAILABLE` is answered with HTTP 400,
not 500, and the body carries the message of the store, not `Internal server error`. -/
theorem query_failure_is_answered_400 :
    queryFault.queryError = some "UNAVAILABLE" ∧
    (handleAffiliatePostback parseDigits queryFault 7 sampleStore
      { method := "GET", sub_id := some "u1", status := some "approved" }).2.code = 400 ∧
    (handleAffiliatePostback parseDigits queryFault 7 sampleStore
      { method := "GET", sub_id := some "u1", status := some "approved" }).2.code ≠ 500 ∧
    (handleAffiliatePostback parseDigits queryFault 7 sampleStore
      { method := "GET", sub_id := some "u1", status := some "approved" }).2.body =
      .error (some "UNAVAILABLE") := by
  refine ⟨rfl, by decide, by decide, by decide⟩

/-- C20: the claims, the user records and the object returned by
`processAffiliatePostback` do not depend on whether appends to the activities collection
succeed: for every store, postback and clock value, and for every behaviour of the other
store operations, two runs that differ only in which appends to `activities` are rejected
end with the same `userTasks`, the same `users` and the same result; and
`logUserActivity` with a rejected append returns normally, leaving the store as it was. -/
theorem activity_log_failures_are_harmless (F : Faults) (a1 a2 : ActivityRecord → Bool)
    (now : Nat) (st : Store) (pd : PostbackData) :
    (processAffiliatePostback { F with activityError := a1 } now st pd).2 =
      (processAffiliatePostback { F with activityError := a2 } now st pd).2 ∧
    (processAffiliatePostback { F with activityError := a1 } now st pd).1.userTasks =
      (processAffiliatePostback { F with activityError := a2 } now st pd).1.userTasks ∧
    (processAffiliatePostback { F with activityError := a1 } now st pd).1.users =
      (processAffiliatePostback { F with activityError := a2 } now st pd).1.users ∧
    (∀ (userId type : String) (details : ActivityDetails),
      logUserActivity { F with activityError := fun _ => true } now st userId type details = st) := by
  refine ⟨?_, ?_, ?_, fun _ _ _ => rfl⟩
  all_goals
    obtain hq | ⟨e, hq⟩ := Option.eq_none_or_eq_some F.queryError
    · by_cases hd : pendingTasks st pd.userId = []
      · simp [processAffiliatePostback, hq, hd]
      · obtain ⟨h1, h2, h3⟩ := processLoop_activity_fault F a1 a2 now pd
          (pendingTasks st pd.userId) st st ⟨.val 0, false⟩ rfl rfl
        rw [processAffiliatePostback_loop { F with activityError := a1 } now st pd hq hd,
          processAffiliatePostback_loop { F with activityError := a2 } now st pd hq hd]
        first
          | exact h2
          | exact h3
          | (simp only []; rw [h1])
    · simp [processAffiliatePostback, hq]

/-- C21: for every collection of stored campaigns, every country code and every reading
of the clock, the list returned by `loadActiveCampaigns` is a rearrangement of the stored
campaigns that have status `active` and pass the country filter and the date and time
filter (each as often as it is stored), and it is ordered by non-increasing `rewardCoins`,
a missing `rewardCoins` counting as `0`: every adjacent pair, and every pair in list
order, has the earlier reward at least the later one. -/
theorem loadActiveCampaigns_filtered_and_sorted (newDate : String → Option Int)
    (number : String → JSNum) (now : DateNow) (stored : List Campaign) (k : String) :
    (AffiliateManager.loadActiveCampaigns newDate number now stored k).Perm
      (stored.filter (fun c => decide (c.status = "active") &&
        AffiliateManager.countryFilter k c &&
        AffiliateManager.dateTimeFilter newDate number now c)) ∧
    (AffiliateManager.loadActiveCampaigns newDate number now stored k).Chain'
      (fun a b => ratOf b.rewardCoins ≤ ratOf a.rewardCoins) ∧
    (AffiliateManager.loadActiveCampaigns newDate number now stored k).Pairwise
      (fun a b => ratOf b.rewardCoins ≤ ratOf a.rewardCoins) := by
  refine ⟨?_, List.Pairwise.chain' (AffiliateManager.sortByReward_sorted _),
    AffiliateManager.sortByReward_sorted _⟩
  unfold AffiliateManager.loadActiveCampaigns
  refine (AffiliateManager.sortByReward_perm _).trans ?_
  rw [List.filter_filter, List.filter_filter]
  apply List.Perm.of_eq
  apply List.filter_congr
  intro c _
  cases decide (c.status = "active") <;> cases AffiliateManager.countryFilter k c <;>
    cases AffiliateManager.dateTimeFilter newDate number now c <;> rfl

/-- C22: for every stored campaign with status `active` that passes the date and time
filter and every user country `k`, the campaign is returned by `loadActiveCampaigns` if
and only if its `countryRestrictions` is missing or empty, or contains `k`; a campaign
with missing or empty `countryRestrictions` is returned for one country exactly when it
is for any other, and when no stored campaign has a restriction the whole list returned
is the same for every two countries. -/
theorem country_rule (newDate : String → Option Int) (number : String → JSNum)
    (now : DateNow) (stored : List Campaign) (k : String) (c : Campaign) (hc : c ∈ stored)
    (ha : c.status = "active")
    (hd : AffiliateManager.dateTimeFilter newDate number now c = true) :
    (c ∈ AffiliateManager.loadActiveCampaigns newDate number now stored k ↔
      (c.countryRestrictions = none ∨ c.countryRestrictions = some [] ∨
        ∃ cs, c.countryRestrictions = some cs ∧ k ∈ cs)) ∧
    ((c.countryRestrictions = none ∨ c.countryRestrictions = some []) →
      ∀ k1 k2, (c ∈ AffiliateManager.loadActiveCampaigns newDate number now stored k1 ↔
        c ∈ AffiliateManager.loadActiveCampaigns newDate number now stored k2)) ∧
    ((∀ d ∈ stored, d.countryRestrictions = none ∨ d.countryRestrictions = some []) →
      ∀ k1 k2, AffiliateManager.loadActiveCampaigns newDate number now stored k1 =
        AffiliateManager.loadActiveCampaigns newDate number now stored k2) := by
  have hfree : ∀ (d : Campaign) (j : String),
      (d.countryRestrictions = none ∨ d.countryRestrictions = some []) →
      AffiliateManager.countryFilter j d = true := by
    intro d j h
    rcases h with h | h <;> simp [AffiliateManager.countryFilter, h]
  refine ⟨?_, ?_, ?_⟩
  · rw [AffiliateManager.mem_loadActiveCampaigns]
    simp only [hc, ha, hd, true_and, and_true]
    rcases hr : c.countryRestrictions with _ | cs
    · simp [AffiliateManager.countryFilter, hr]
    · rcases cs with _ | ⟨x, xs⟩
      · simp [AffiliateManager.countryFilter, hr]
      · simp [AffiliateManager.countryFilter, hr]
  · intro h k1 k2
    simp only [AffiliateManager.mem_loadActiveCampaigns, hfree c _ h]
  · intro h k1 k2
    unfold AffiliateManager.loadActiveCampaigns
    congr 2
    apply List.filter_congr
    intro d hd1
    have hmem : d ∈ stored := (List.mem_filter.mp hd1).1
    rw [hfree d k1 (h d hmem), hfree d k2 (h d hmem)]

/-- C22 (witness): the campaign with reward 150 restricted to `IN` and without date or
time window is returned for the user country `IN`, with its reward. -/
theorem country_rule_witness :
    (restrictedCampaign ∈ AffiliateManager.loadActiveCampaigns utcMidnight digitsNumber
        ⟨1768046400000, 12, 0⟩ [restrictedCampaign] "IN" ↔
      (restrictedCampaign.countryRestrictions = none ∨
        restrictedCampaign.countryRestrictions = some [] ∨
        ∃ cs, restrictedCampaign.countryRestrictions = some cs ∧ "IN" ∈ cs)) ∧
    restrictedCampaign.countryRestrictions = some ["IN"] ∧
    restrictedCampaign.rewardCoins = some (.val 150) :=
  ⟨(country_rule utcMidnight digitsNumber ⟨1768046400000, 12, 0⟩ [restrictedCampaign] "IN"
      restrictedCampaign (List.mem_singleton.mpr rfl) rfl (by decide)).1, rfl, rfl⟩


/-- C23: for every stored campaign with status `active` that passes the country filter
and the date checks, with `m` the local minutes since midnight of the clock reading: when
`startTime` or `endTime` is missing or empty the campaign is returned; when the window is
from minute 0 to minute 1439 the campaign is returned; for any other window from minute
`sm` to minute `em` the campaign is returned if and only if `sm <= m` and `m <= em`. -/
theorem time_of_day_rule (newDate : String → Option Int) (number : String → JSNum)
    (now : DateNow) (stored : List Campaign) (k : String) (c : Campaign) (hc : c ∈ stored)
    (ha : c.status = "active") (hk : AffiliateManager.countryFilter k c = true)
    (hs : AffiliateManager.notStarted newDate now c = false)
    (he : AffiliateManager.expired newDate now c = false) :
    ((truthyText c.startTime = none ∨ truthyText c.endTime = none) →
      c ∈ AffiliateManager.loadActiveCampaigns newDate number now stored k) ∧
    (∀ s e, truthyText c.startTime = some s → truthyText c.endTime = some e →
      AffiliateManager.minutesOf number s = .val 0 →
      AffiliateManager.minutesOf number e = .val 1439 →
      c ∈ AffiliateManager.loadActiveCampaigns newDate number now stored k) ∧
    (∀ s e sm em, truthyText c.startTime = some s → truthyText c.endTime = some e →
      AffiliateManager.minutesOf number s = .val sm →
      AffiliateManager.minutesOf number e = .val em → ¬(sm = 0 ∧ em = 1439) →
      (c ∈ AffiliateManager.loadActiveCampaigns newDate number now stored k ↔
        sm ≤ ((now.hours * 60 + now.minutes : Nat) : ℚ) ∧
          ((now.hours * 60 + now.minutes : Nat) : ℚ) ≤ em)) := by
  have hmem : c ∈ AffiliateManager.loadActiveCampaigns newDate number now stored k ↔
      AffiliateManager.outsideHours number now c = false := by
    rw [AffiliateManager.mem_loadActiveCampaigns,
      AffiliateManager.dateTimeFilter_of_dates newDate number now c hs he]
    simp [hc, ha, hk]
  refine ⟨?_, ?_, ?_⟩
  · intro h
    rw [hmem]
    rcases h with h | h
    · simp [AffiliateManager.outsideHours, h]
    · rcases hst : truthyText c.startTime with _ | s <;>
        simp [AffiliateManager.outsideHours, h, hst]
  · intro s e h1 h2 h3 h4
    rw [hmem]
    simp [AffiliateManager.outsideHours, h1, h2, h3, h4, JSNum.strictEq]
  · intro s e sm em h1 h2 h3 h4 hw
    rw [hmem, ← AffiliateManager.outsideHours_of_window number now c s e sm em h1 h2 h3 h4 hw |>.not_left]
    simp

/-- C23 (witness): the campaign with the window 09:00 to 17:00 at the local time 12:30. -/
theorem time_of_day_rule_witness :
    (officeHoursCampaign ∈ AffiliateManager.loadActiveCampaigns utcMidnight digitsNumber
        ⟨1768046400000, 12, 30⟩ [officeHoursCampaign] "IN" ↔
      (9 * 60 + 0 : ℚ) ≤ ((12 * 60 + 30 : Nat) : ℚ) ∧
        ((12 * 60 + 30 : Nat) : ℚ) ≤ (17 * 60 + 0 : ℚ)) ∧
    AffiliateManager.minutesOf digitsNumber "09:00" = .val (9 * 60 + 0) ∧
    AffiliateManager.minutesOf digitsNumber "17:00" = .val (17 * 60 + 0) :=
  ⟨(time_of_day_rule utcMidnight digitsNumber ⟨1768046400000, 12, 30⟩ [officeHoursCampaign]
      "IN" officeHoursCampaign (List.mem_singleton.mpr rfl) rfl (by decide) (by decide)
      (by decide)).2.2 "09:00" "17:00" (9 * 60 + 0) (17 * 60 + 0) (by decide) (by decide)
      (AffiliateManager.minutesOf_of_parts digitsNumber "09:00" "09".toList "00".toList 9 0
        (by decide) (by decide) (by decide))
      (AffiliateManager.minutesOf_of_parts digitsNumber "17:00" "17".toList "00".toList 17 0
        (by decide) (by decide) (by decide))
      (by norm_num),
   AffiliateManager.minutesOf_of_parts digitsNumber "09:00" "09".toList "00".toList 9 0
     (by decide) (by decide) (by decide),
   AffiliateManager.minutesOf_of_parts digitsNumber "17:00" "17".toList "00".toList 17 0
     (by decide) (by decide) (by decide)⟩


/-- C24 (code at the failing input): the campaign that runs from 2026-01-05 to 2026-01-10
is returned at the first instant of 2026-01-05 (UTC) and at the first instant of
2026-01-10, but at noon of its end day 2026-01-10 and at every reading later than the
first instant of that day `loadActiveCampaigns` reports it as expired and returns the
empty list; one millisecond before 2026-01-05 it is not returned either. -/
theorem end_day_is_excluded :
    AffiliateManager.loadActiveCampaigns utcMidnight digitsNumber ⟨1767571200000, 0, 0⟩
      [datedCampaign] "IN" = [datedCampaign] ∧
    AffiliateManager.loadActiveCampaigns utcMidnight digitsNumber ⟨1768003200000, 0, 0⟩
      [datedCampaign] "IN" = [datedCampaign] ∧
    AffiliateManager.loadActiveCampaigns utcMidnight digitsNumber ⟨1768046400000, 12, 0⟩
      [datedCampaign] "IN" = [] ∧
    AffiliateManager.expired utcMidnight ⟨1768046400000, 12, 0⟩ datedCampaign = true ∧
    (∀ t h m, 1768003200000 < t →
      AffiliateManager.loadActiveCampaigns utcMidnight digitsNumber ⟨t, h, m⟩
        [datedCampaign] "IN" = []) ∧
    AffiliateManager.loadActiveCampaigns utcMidnight digitsNumber ⟨1767571199999, 23, 59⟩
      [datedCampaign] "IN" = [] := by
  refine ⟨by decide, by decide, by decide, by decide, ?_, by decide⟩
  intro t h m ht
  have he : AffiliateManager.expired utcMidnight ⟨t, h, m⟩ datedCampaign = true := by
    have hd : (truthyText datedCampaign.endDate).map utcMidnight =
        some (some 1768003200000) := by decide
    simp only [AffiliateManager.expired, hd, gt_iff_lt, decide_eq_true_eq]
    exact ht
  have hn : AffiliateManager.notStarted utcMidnight ⟨t, h, m⟩ datedCampaign = false := by
    have hd : (truthyText datedCampaign.startDate).map utcMidnight =
        some (some 1767571200000) := by decide
    simp only [AffiliateManager.notStarted, hd, decide_eq_false_iff_not, not_lt]
    omega
  have hf : AffiliateManager.dateTimeFilter utcMidnight digitsNumber ⟨t, h, m⟩
      datedCampaign = false := by
    simp [AffiliateManager.dateTimeFilter, he, hn]
  have hc : AffiliateManager.countryFilter "IN" datedCampaign = true := by decide
  have hs : decide (datedCampaign.status = "active") = true := by decide
  simp [AffiliateManager.loadActiveCampaigns, List.filter, hf, hc, hs,
    AffiliateManager.sortByReward]

/-- C25: when `handleAddCampaign` runs with campaign type `Multi-Task`, the collection
afterwards is unchanged or holds one new campaign whose `tasks` are the tasks accepted
from the form and whose `rewardCoins` is the sum of their rewards; the campaign is stored
whenever title, description and affiliate link are non-empty and that sum is at least 1.
The sample campaign of `createSampleMultiTaskCampaign`, with subtasks of reward 40 and 70,
is stored by `createAffiliateCampaign` with `rewardCoins` 110. -/
theorem multi_task_reward_is_sum (parseInt : String → JSNum) (newId : String)
    (stored : List Campaign) (form : AffiliateAdminManager.CampaignForm)
    (hm : form.campaignType = some "Multi-Task") :
    ((AffiliateAdminManager.handleAddCampaign parseInt newId stored form).1 = stored ∨
      ∃ c, (AffiliateAdminManager.handleAddCampaign parseInt newId stored form).1 =
          stored ++ [c] ∧
        c.id = newId ∧
        c.tasks = some (form.taskFields.filterMap
          (AffiliateAdminManager.taskOfField parseInt)) ∧
        c.rewardCoins = some (.val (((form.taskFields.filterMap
          (AffiliateAdminManager.taskOfField parseInt)).map
            (fun t => ratOf (some t.reward))).sum))) ∧
    (truthyText form.title ≠ none → truthyText form.description ≠ none →
      truthyText form.affiliateLink ≠ none →
      1 ≤ ((form.taskFields.filterMap (AffiliateAdminManager.taskOfField parseInt)).map
        (fun t => ratOf (some t.reward))).sum →
      ∃ c, AffiliateAdminManager.handleAddCampaign parseInt newId stored form =
          (stored ++ [c], .ok "Campaign created successfully!") ∧
        c.tasks = some (form.taskFields.filterMap
          (AffiliateAdminManager.taskOfField parseInt)) ∧
        c.rewardCoins = some (.val (((form.taskFields.filterMap
          (AffiliateAdminManager.taskOfField parseInt)).map
            (fun t => ratOf (some t.reward))).sum))) ∧
    (∀ today nextMonth, ∃ c,
      AffiliateManager.createAffiliateCampaign newId stored
          (AffiliateAdminManager.createSampleMultiTaskCampaign today nextMonth) =
        (stored ++ [c], .ok newId) ∧
      (c.tasks.getD []).map (fun t => t.reward) = [.val 40, .val 70] ∧
      c.rewardCoins = some (.val 110)) := by
  have hsum := AffiliateAdminManager.rewardTotal_eq_sum
    (form.taskFields.filterMap (AffiliateAdminManager.taskOfField parseInt))
    (AffiliateAdminManager.accepted_numeric parseInt form.taskFields)
  refine ⟨?_, ?_, ?_⟩
  · unfold AffiliateAdminManager.handleAddCampaign
    simp only [hm, if_true]
    split
    · left; rfl
    · unfold AffiliateAdminManager.submitCampaign
      rcases AffiliateManager.createAffiliateCampaign_fst newId stored
        { title := form.title, description := form.description,
          affiliateLink := form.affiliateLink, campaignType := some "Multi-Task",
          affiliateNetwork := form.affiliateNetwork,
          countryRestrictions := some (form.countryRestrictions.getD []),
          startDate := form.startDate, endDate := form.endDate,
          startTime := form.startTime, endTime := form.endTime, status := some "active",
          tasks := some (form.taskFields.filterMap
            (AffiliateAdminManager.taskOfField parseInt)),
          rewardCoins := some (AffiliateAdminManager.rewardTotal (form.taskFields.filterMap
            (AffiliateAdminManager.taskOfField parseInt))) } with h | ⟨c, h1, h2, h3, h4, h5⟩
      · left
        split <;> rename_i heq <;> rw [heq] at h <;> exact h
      · right
        refine ⟨c, ?_, h3, h4, by rw [h5, hsum]⟩
        split <;> rename_i heq <;> rw [heq] at h1 <;> exact h1
  · intro ht hd hl hq
    have hne : ¬ (form.taskFields.filterMap
        (AffiliateAdminManager.taskOfField parseInt)).length = 0 := by
      intro h0
      rw [List.length_eq_zero] at h0
      rw [h0] at hq
      norm_num at hq
    obtain ⟨c, hc, _, h4, h5⟩ := AffiliateManager.createAffiliateCampaign_ok newId stored
      { title := form.title, description := form.description,
        affiliateLink := form.affiliateLink, campaignType := some "Multi-Task",
        affiliateNetwork := form.affiliateNetwork,
        countryRestrictions := some (form.countryRestrictions.getD []),
        startDate := form.startDate, endDate := form.endDate,
        startTime := form.startTime, endTime := form.endTime, status := some "active",
        tasks := some (form.taskFields.filterMap
          (AffiliateAdminManager.taskOfField parseInt)),
        rewardCoins := some (AffiliateAdminManager.rewardTotal (form.taskFields.filterMap
          (AffiliateAdminManager.taskOfField parseInt))) } _ ht hd hl
      (by rw [hsum]) hq
    refine ⟨c, ?_, h4, by rw [h5, hsum]⟩
    unfold AffiliateAdminManager.handleAddCampaign
    simp only [hm, if_true, hne, if_false]
    unfold AffiliateAdminManager.submitCampaign
    rw [hc]
  · intro today nextMonth
    have hr : (AffiliateAdminManager.createSampleMultiTaskCampaign today nextMonth).rewardCoins
        = some (.val 110) := by
      norm_num [AffiliateAdminManager.createSampleMultiTaskCampaign,
        AffiliateAdminManager.rewardTotal, JSNum.add]
    obtain ⟨c, hc, _, h4, h5⟩ := AffiliateManager.createAffiliateCampaign_ok newId stored
      (AffiliateAdminManager.createSampleMultiTaskCampaign today nextMonth) 110
      (by simp [AffiliateAdminManager.createSampleMultiTaskCampaign, truthyText])
      (by simp [AffiliateAdminManager.createSampleMultiTaskCampaign, truthyText])
      (by simp [AffiliateAdminManager.createSampleMultiTaskCampaign, truthyText])
      hr (by norm_num)
    refine ⟨c, hc, ?_, by rw [h5, hr]⟩
    rw [h4]
    rfl

/-- C25 (witness): the multi-task form with two task fields of reward 40 and 70 stores a
campaign with `rewardCoins` 110. -/
theorem multi_task_reward_is_sum_witness :
    (∃ c, AffiliateAdminManager.handleAddCampaign digitsNumber "m1" [] multiTaskForm =
        ([] ++ [c], .ok "Campaign created successfully!") ∧
      c.tasks = some (multiTaskForm.taskFields.filterMap
        (AffiliateAdminManager.taskOfField digitsNumber)) ∧
      c.rewardCoins = some (.val (((multiTaskForm.taskFields.filterMap
        (AffiliateAdminManager.taskOfField digitsNumber)).map
          (fun t => ratOf (some t.reward))).sum))) ∧
    (multiTaskForm.taskFields.filterMap (AffiliateAdminManager.taskOfField digitsNumber)).map
      (fun t => ratOf (some t.reward)) = [40, 70] :=
  ⟨(multi_task_reward_is_sum digitsNumber "m1" [] multiTaskForm rfl).2.1 (by decide)
      (by decide) (by decide)
      (by
        have h : (multiTaskForm.taskFields.filterMap
            (AffiliateAdminManager.taskOfField digitsNumber)).map
              (fun t => ratOf (some t.reward)) = [40, 70] := by decide
        rw [h]
        norm_num),
   by decide⟩

/-- C26 (counterexample): the stored multi-task campaign with subtasks of reward 40 and 70
and `rewardCoins` 110 satisfies the reward invariant; after `updateAffiliateCampaign`
replaces its subtasks by a single subtask of reward 10 the campaign still has
`rewardCoins` 110 while its subtask rewards sum to 10, and after an update that sets
`rewardCoins` to 5 its subtask rewards still sum to 110. -/
theorem update_breaks_reward_invariant :
    rewardInvariant multiTaskCampaign ∧
    (AffiliateManager.updateAffiliateCampaign [multiTaskCampaign] "m1"
        { tasks := some [{ name := "Trade", reward := .val 10,
                           completionTime := "24-48 Hours", type := "trade" }] }).map
      (fun cs => cs.map (fun c =>
        (c.rewardCoins, AffiliateAdminManager.rewardTotal (c.tasks.getD [])))) =
      some [(some (.val 110), .val 10)] ∧
    (AffiliateManager.updateAffiliateCampaign [multiTaskCampaign] "m1"
        { rewardCoins := some (.val 5) }).map
      (fun cs => cs.map (fun c =>
        (c.rewardCoins, AffiliateAdminManager.rewardTotal (c.tasks.getD [])))) =
      some [(some (.val 5), .val 110)] := by
  refine ⟨?_, ?_, ?_⟩
  · norm_num [rewardInvariant, multiTaskCampaign, AffiliateAdminManager.rewardTotal, JSNum.add]
  · norm_num [AffiliateManager.updateAffiliateCampaign, AffiliateManager.mergeUpdate,
      multiTaskCampaign, AffiliateAdminManager.rewardTotal, JSNum.add]
  · norm_num [AffiliateManager.updateAffiliateCampaign, AffiliateManager.mergeUpdate,
      multiTaskCampaign, AffiliateAdminManager.rewardTotal, JSNum.add]

/-- C26 (amended): `updateAffiliateCampaign` on the id of a stored campaign stores the
fields of the update data and recomputes nothing: every campaign keeps its id, takes
`rewardCoins` and `tasks` from the update data where they are carried and keeps them
otherwise; so an update that carries neither `tasks` nor `rewardCoins` leaves both fields
of every campaign as they were and preserves the reward invariant. -/
theorem update_without_reward_fields (stored : List Campaign) (campaignId : String)
    (updateData : AffiliateManager.CampaignUpdate)
    (hid : ∃ c ∈ stored, c.id = campaignId) :
    ∃ stored1, AffiliateManager.updateAffiliateCampaign stored campaignId updateData =
        some stored1 ∧
      stored1.map (fun c => (c.id, c.rewardCoins, c.tasks)) =
        stored.map (fun c => (c.id,
          if c.id = campaignId then (updateData.rewardCoins.map some).getD c.rewardCoins
          else c.rewardCoins,
          if c.id = campaignId then (updateData.tasks.map some).getD c.tasks else c.tasks)) ∧
      (updateData.tasks = none → updateData.rewardCoins = none →
        stored1.map (fun c => (c.id, c.rewardCoins, c.tasks)) =
          stored.map (fun c => (c.id, c.rewardCoins, c.tasks)) ∧
        ((∀ c ∈ stored, rewardInvariant c) → ∀ c ∈ stored1, rewardInvariant c)) := by
  have hany : stored.any (fun c => decide (c.id = campaignId)) = true := by
    obtain ⟨c, hc, hcid⟩ := hid
    exact List.any_eq_true.mpr ⟨c, hc, by simp [hcid]⟩
  refine ⟨stored.map (fun c => if c.id = campaignId then
    AffiliateManager.mergeUpdate updateData c else c), ?_, ?_, ?_⟩
  · simp only [AffiliateManager.updateAffiliateCampaign, hany, if_true]
  · rw [List.map_map]
    apply List.map_congr_left
    intro c _
    by_cases h : c.id = campaignId
    · simp only [Function.comp, h, if_true, AffiliateManager.mergeUpdate]
    · simp only [Function.comp, h, if_false]
  · intro ht hr
    have hfields : ∀ c : Campaign,
        (if c.id = campaignId then AffiliateManager.mergeUpdate updateData c else c).rewardCoins
          = c.rewardCoins ∧
        (if c.id = campaignId then AffiliateManager.mergeUpdate updateData c else c).tasks
          = c.tasks ∧
        (if c.id = campaignId then AffiliateManager.mergeUpdate updateData c else c).id
          = c.id := by
      intro c
      by_cases h : c.id = campaignId
      · simp [h, AffiliateManager.mergeUpdate, ht, hr]
      · simp only [h, if_false, and_self]
    refine ⟨?_, ?_⟩
    · rw [List.map_map]
      apply List.map_congr_left
      intro c _
      simp only [Function.comp, (hfields c).1, (hfields c).2.1, (hfields c).2.2]
    · intro hinv c1 hc1
      obtain ⟨c, hc, hceq⟩ := List.mem_map.mp hc1
      have := hinv c hc
      unfold rewardInvariant at this ⊢
      rw [← hceq, (hfields c).1, (hfields c).2.1]
      exact this

/-- C26 (witness): the status toggle of the admin page, an update that carries only
`status`, on the stored multi-task campaign. -/
theorem update_without_reward_fields_witness :
    ∃ stored1, AffiliateManager.updateAffiliateCampaign [multiTaskCampaign] "m1"
        { status := some "inactive" } = some stored1 ∧
      stored1.map (fun c => (c.id, c.rewardCoins, c.tasks)) =
        [multiTaskCampaign].map (fun c => (c.id, c.rewardCoins, c.tasks)) ∧
      stored1.map (fun c => c.status) = ["inactive"] := by
  obtain ⟨stored1, h1, _, h3⟩ := update_without_reward_fields [multiTaskCampaign] "m1"
    { status := some "inactive" } ⟨multiTaskCampaign, List.mem_singleton.mpr rfl, rfl⟩
  refine ⟨stored1, h1, (h3 rfl rfl).1, ?_⟩
  have h2 : AffiliateManager.updateAffiliateCampaign [multiTaskCampaign] "m1"
      { status := some "inactive" } =
      some [AffiliateManager.mergeUpdate { status := some "inactive" } multiTaskCampaign] := by
    decide
  rw [h2] at h1
  rw [← Option.some.inj h1]
  rfl

/-- C27 (counterexample): on a store with a pending claim of `u1` and no user record, an
approved postback handled by `processAffiliatePostback` fails with `User u1 not found`
and credits nothing, yet leaves the claim in status `completed`; `handlePostback` of the
manager reports success and leaves the claim `completed` without any credit either. -/
theorem completed_without_credit :
    (processAffiliatePostback Faults.none 7 orphanStore
        { userId := "u1", status := "approved" }).2 = .failure "User u1 not found" ∧
    (processAffiliatePostback Faults.none 7 orphanStore
        { userId := "u1", status := "approved" }).1.users = [] ∧
    ((processAffiliatePostback Faults.none 7 orphanStore
        { userId := "u1", status := "approved" }).1.userTasks.get "u1_c1").map
      (fun c => c.status) = some "completed" ∧
    (AffiliateManager.handlePostback 7 orphanStore
        { sub_id := some "u1", status := some "approved" }).1.users = [] ∧
    ((AffiliateManager.handlePostback 7 orphanStore
        { sub_id := some "u1", status := some "approved" }).1.userTasks.get "u1_c1").map
      (fun c => c.status) = some "completed" := by
  refine ⟨by decide, by decide, by decide, by decide, by decide⟩

/-- C27 (amended): for an approved or completed postback on a store whose claim documents
have distinct ids, store operations succeeding. When the addressed account exists with a
numeric balance `b` and every amount to credit is a number, `processAffiliatePostback`
sets exactly the pending claims of the user to `completed`, writes to each as
`actualReward` the amount credited for it, and raises the balance by the sum of these
amounts; `handlePostback` of the manager does the same for all claims of the user. When
the account does not exist, `processAffiliatePostback` marks the first pending claim
`completed`, changes nothing else, and fails with `User <id> not found`. -/
theorem completion_and_credit (now : Nat) (st : Store) (pd : PostbackData)
    (hs : pd.status = "approved" ∨ pd.status = "completed")
    (hn : (st.userTasks.map (fun d => d.1)).Nodup) :
    (∀ acct b, st.users.get pd.userId = some acct → acct.coins = some (.val b) →
      (∀ d ∈ pendingTasks st pd.userId, ∃ q, jsOr pd.reward d.2.rewardCoins = some (.val q)) →
      (∀ d ∈ pendingTasks st pd.userId,
        ∃ c, (processAffiliatePostback Faults.none now st pd).1.userTasks.get d.1 = some c ∧
          c.status = "completed" ∧ c.actualReward = jsOr pd.reward d.2.rewardCoins) ∧
      (∀ k, k ∉ (pendingTasks st pd.userId).map (fun d => d.1) →
        (processAffiliatePostback Faults.none now st pd).1.userTasks.get k =
          st.userTasks.get k) ∧
      ∃ acct1, (processAffiliatePostback Faults.none now st pd).1.users.get pd.userId =
          some acct1 ∧
        acct1.coins = some (.val (b + ((pendingTasks st pd.userId).map
          (fun d => ratOf (jsOr pd.reward d.2.rewardCoins))).sum))) ∧
    (∀ acct b offer reason, pd.userId ≠ "" →
      st.users.get pd.userId = some acct → acct.coins = some (.val b) →
      (∀ d ∈ AffiliateManager.userTasksOf st pd.userId,
        ∃ q, jsOr pd.reward d.2.rewardCoins = some (.val q)) →
      (∀ d ∈ AffiliateManager.userTasksOf st pd.userId,
        ∃ c, (AffiliateManager.handlePostback now st
            ⟨some pd.userId, some pd.status, pd.reward, offer, reason⟩).1.userTasks.get d.1 =
            some c ∧
          c.status = "completed" ∧ c.actualReward = jsOr pd.reward d.2.rewardCoins) ∧
      (∀ k, k ∉ (AffiliateManager.userTasksOf st pd.userId).map (fun d => d.1) →
        (AffiliateManager.handlePostback now st
            ⟨some pd.userId, some pd.status, pd.reward, offer, reason⟩).1.userTasks.get k =
          st.userTasks.get k) ∧
      ∃ acct1, (AffiliateManager.handlePostback now st
            ⟨some pd.userId, some pd.status, pd.reward, offer, reason⟩).1.users.get pd.userId =
          some acct1 ∧
        acct1.coins = some (.val (b + ((AffiliateManager.userTasksOf st pd.userId).map
          (fun d => ratOf (jsOr pd.reward d.2.rewardCoins))).sum))) ∧
    (st.users.get pd.userId = none → ∀ d ds, pendingTasks st pd.userId = d :: ds →
      processAffiliatePostback Faults.none now st pd =
        ({ st with userTasks := st.userTasks.update d.1 (markCompleted now pd d.2) },
         .failure ("User " ++ pd.userId ++ " not found"))) := by
  refine ⟨?_, ?_, ?_⟩
  · intro acct b hu hb hnum
    obtain ⟨acct1, ht, _, hg, _, hc⟩ := processAffiliatePostback_approved now st pd acct hs hu
    refine ⟨?_, ?_, acct1, hg, (hc b hb hnum).1⟩
    · intro d hd
      have hmem := (pendingTasks_subset st pd.userId d hd).1
      refine ⟨markCompleted now pd d.2 d.2, ?_, rfl, rfl⟩
      rw [ht, foldl_update_get_mem (fun d => markCompleted now pd d.2) _ _ d
        (pendingTasks_nodup st pd.userId hn) hd, Coll.get_of_mem_ids _ d hn hmem]
      rfl
    · intro k hk
      rw [ht]
      exact foldl_update_get_other (fun d => markCompleted now pd d.2) k _ _ hk
  · intro acct b offer reason hne hu hb hnum
    have hse : pd.status ≠ "" := by
      rcases hs with h | h <;> rw [h] <;> decide
    obtain ⟨acct1, ht, hg, hc⟩ := AffiliateManager.handleLoop_approved now pd.userId pd.status
      pd.reward offer reason hs (AffiliateManager.userTasksOf st pd.userId) st false acct hu
    have hfst : (AffiliateManager.handlePostback now st
        ⟨some pd.userId, some pd.status, pd.reward, offer, reason⟩).1 =
        (AffiliateManager.handleLoop now pd.userId pd.status pd.reward offer reason
          (AffiliateManager.userTasksOf st pd.userId) st false).1 := by
      simp [AffiliateManager.handlePostback, hne, hse]
    rw [hfst]
    refine ⟨?_, ?_, acct1, hg, hc b hb hnum⟩
    · intro d hd
      have hmem : d ∈ st.userTasks := (List.mem_filter.mp hd).1
      refine ⟨completedByManager now pd.reward d.2 d.2, ?_, rfl, rfl⟩
      rw [ht, foldl_update_get_mem (fun d => completedByManager now pd.reward d.2) _ _ d
        (userTasksOf_nodup st pd.userId hn) hd, Coll.get_of_mem_ids _ d hn hmem]
      rfl
    · intro k hk
      rw [ht]
      exact foldl_update_get_other (fun d => completedByManager now pd.reward d.2) k _ _ hk
  · intro hu d ds hp
    exact processAffiliatePostback_missing_user now st pd d ds hs hu hp

/-- C27 (witness): on the store with two pending claims of `u1`, who holds 100 coins, an
approved postback raises the balance to 100 plus the rewards of the two claims; on the
store without a user record the first pending claim is completed and the call fails. -/
theorem completion_and_credit_witness :
    (∃ acct1, (processAffiliatePostback Faults.none 7 twoClaimStore
          { userId := "u1", status := "approved" }).1.users.get "u1" = some acct1 ∧
        acct1.coins = some (.val (100 + ((pendingTasks twoClaimStore "u1").map
          (fun d => ratOf (jsOr none d.2.rewardCoins))).sum))) ∧
    (pendingTasks twoClaimStore "u1").map (fun d => ratOf (jsOr none d.2.rewardCoins)) =
      [150, 40] :=
  ⟨((completion_and_credit 7 twoClaimStore { userId := "u1", status := "approved" }
      (Or.inl rfl) (by decide)).1 { coins := some (.val 100) } 100 rfl rfl
      (fun d hd => by
        have h : pendingTasks twoClaimStore "u1" =
            [("u1_c1", sampleClaim),
             ("u1_c2", { sampleClaim with campaignId := "c2", rewardCoins := some (.val 40) })] := by
          decide
        rw [h] at hd
        simp only [List.mem_cons, List.mem_singleton, List.not_mem_nil, or_false] at hd
        rcases hd with hd | hd
        · exact ⟨150, by subst hd; rfl⟩
        · exact ⟨40, by subst hd; rfl⟩)).2.2,
   by decide⟩

/-- C28: for distinct users `u` and `v` and a store whose claim documents have distinct
ids, a postback addressed to `u` (any status, any reward, whatever store operations fail)
leaves the claims of `v` and the user record of `v` unchanged, and every activity record
it appends belongs to `u`, none to `v`. -/
theorem postback_leaves_other_users (F : Faults) (now : Nat) (st : Store) (pd : PostbackData)
    (v : String) (hv : v ≠ pd.userId) (hn : (st.userTasks.map (fun d => d.1)).Nodup) :
    (processAffiliatePostback F now st pd).1.userTasks.filter
        (fun d => decide (d.2.userId = v)) =
      st.userTasks.filter (fun d => decide (d.2.userId = v)) ∧
    (processAffiliatePostback F now st pd).1.users.get v = st.users.get v ∧
    ∃ recs, (processAffiliatePostback F now st pd).1.activities = st.activities ++ recs ∧
      ∀ a ∈ recs, a.userId = pd.userId ∧ a.userId ≠ v := by
  have hI : ∀ e ∈ st.userTasks, e.1 ∈ (pendingTasks st pd.userId).map (fun d => d.1) →
      e.2.userId ≠ v := by
    intro e he hm
    obtain ⟨d, hd, hid⟩ := List.mem_map.mp hm
    obtain ⟨hd1, hd2, _⟩ := pendingTasks_subset st pd.userId d hd
    have h1 := Coll.get_of_mem_nodup st.userTasks e.1 e.2 hn he
    have h2 := Coll.get_of_mem_nodup st.userTasks d.1 d.2 hn hd1
    simp only [hid] at h2
    rw [h1] at h2
    rw [Option.some.inj h2, hd2]
    exact fun h => hv h.symm
  unfold processAffiliatePostback
  rcases F.queryError with _ | e
  · simp only []
    split
    · exact ⟨rfl, rfl, [], by simp, by simp⟩
    · have h1 := processLoop_claims_of_other F now pd v (pendingTasks st pd.userId) st
        ⟨.val 0, false⟩ hI
      have h2 := processLoop_users_get_other F now pd v hv (pendingTasks st pd.userId) st
        ⟨.val 0, false⟩
      obtain ⟨recs, h3, h4⟩ := processLoop_activities F now pd (pendingTasks st pd.userId) st
        ⟨.val 0, false⟩
      have h5 : ∀ a ∈ recs, a.userId = pd.userId ∧ a.userId ≠ v :=
        fun a ha => ⟨h4 a ha, by rw [h4 a ha]; exact fun h => hv h.symm⟩
      rcases hp : processLoop F now pd (pendingTasks st pd.userId) st ⟨.val 0, false⟩ with
        ⟨s1, e1 | v1⟩
      · rw [hp] at h1 h2 h3; exact ⟨h1, h2, recs, h3, h5⟩
      · rw [hp] at h1 h2 h3; exact ⟨h1, h2, recs, h3, h5⟩
  · exact ⟨rfl, rfl, [], by simp, by simp⟩

/-- C28 (witness): on the store with claims of `u1` and `u2`, an approved postback for
`u1` leaves the claim and the record of `u2` as they were. -/
theorem postback_leaves_other_users_witness :
    ((processAffiliatePostback Faults.none 7 otherUserStore
        { userId := "u1", status := "approved" }).1.userTasks.filter
        (fun d => decide (d.2.userId = "u2")) =
      otherUserStore.userTasks.filter (fun d => decide (d.2.userId = "u2")) ∧
    (processAffiliatePostback Faults.none 7 otherUserStore
        { userId := "u1", status := "approved" }).1.users.get "u2" =
      otherUserStore.users.get "u2" ∧
    ∃ recs, (processAffiliatePostback Faults.none 7 otherUserStore
        { userId := "u1", status := "approved" }).1.activities =
        otherUserStore.activities ++ recs ∧
      ∀ a ∈ recs, a.userId = "u1" ∧ a.userId ≠ "u2") ∧
    (otherUserStore.userTasks.filter (fun d => decide (d.2.userId = "u2"))).length = 1 :=
  ⟨postback_leaves_other_users Faults.none 7 otherUserStore
    { userId := "u1", status := "approved" } "u2" (by decide) (by decide), by decide⟩

/-- C29: a campaign whose `startTime` is later in the day than its `endTime` (window from
minute `sm` to minute `em` with `em < sm`) is reported as outside its active hours and is
not returned by `loadActiveCampaigns`, whatever the clock reading, the stored campaigns
and the user country. -/
theorem overnight_window_never_eligible (newDate : String → Option Int)
    (number : String → JSNum) (now : DateNow) (stored : List Campaign) (k : String)
    (c : Campaign) (s e : String) (sm em : ℚ)
    (hs : truthyText c.startTime = some s) (he : truthyText c.endTime = some e)
    (hsm : AffiliateManager.minutesOf number s = .val sm)
    (hem : AffiliateManager.minutesOf number e = .val em) (h : em < sm) :
    AffiliateManager.outsideHours number now c = true ∧
    c ∉ AffiliateManager.loadActiveCampaigns newDate number now stored k := by
  have hw : ¬(sm = 0 ∧ em = 1439) := by
    rintro ⟨h1, h2⟩
    rw [h1, h2] at h
    norm_num at h
  have ho : AffiliateManager.outsideHours number now c = true := by
    rw [AffiliateManager.outsideHours_of_window number now c s e sm em hs he hsm hem hw]
    rintro ⟨h1, h2⟩
    exact absurd (le_trans h1 h2) (not_le.mpr h)
  refine ⟨ho, ?_⟩
  rw [AffiliateManager.mem_loadActiveCampaigns]
  rintro ⟨_, _, _, hd⟩
  simp [AffiliateManager.dateTimeFilter, ho] at hd

/-- C29 (witness): the campaign with the window 22:00 to 06:00 at the local time 23:00. -/
theorem overnight_window_never_eligible_witness :
    (AffiliateManager.outsideHours digitsNumber ⟨1768046400000, 23, 0⟩ overnightCampaign =
        true ∧
      overnightCampaign ∉ AffiliateManager.loadActiveCampaigns utcMidnight digitsNumber
        ⟨1768046400000, 23, 0⟩ [overnightCampaign] "IN") ∧
    AffiliateManager.minutesOf digitsNumber "22:00" = .val (22 * 60 + 0) ∧
    AffiliateManager.minutesOf digitsNumber "06:00" = .val (6 * 60 + 0) :=
  ⟨overnight_window_never_eligible utcMidnight digitsNumber ⟨1768046400000, 23, 0⟩
      [overnightCampaign] "IN" overnightCampaign "22:00" "06:00" (22 * 60 + 0) (6 * 60 + 0)
      (by decide) (by decide)
      (AffiliateManager.minutesOf_of_parts digitsNumber "22:00" "22".toList "00".toList 22 0
        (by decide) (by decide) (by decide))
      (AffiliateManager.minutesOf_of_parts digitsNumber "06:00" "06".toList "00".toList 6 0
        (by decide) (by decide) (by decide))
      (by norm_num),
   AffiliateManager.minutesOf_of_parts digitsNumber "22:00" "22".toList "00".toList 22 0
     (by decide) (by decide) (by decide),
   AffiliateManager.minutesOf_of_parts digitsNumber "06:00" "06".toList "00".toList 6 0
     (by decide) (by decide) (by decide)⟩

/-- C30 (code at the failing input): a rejected postback without a reason on the sample
store writes the default `Offer requirements not met` to the claim and records the
different default `Requirements not met` in the details of the `affiliate_rejected`
activity; with the reason `Duplicate lead` supplied, both carry that reason. -/
theorem rejection_reason_defaults_differ :
    ((processAffiliatePostback Faults.none 7 sampleStore
        { userId := "u1", status := "rejected" }).1.userTasks.get "u1_c1").map
      (fun c => c.rejectionReason) = some (some "Offer requirements not met") ∧
    (processAffiliatePostback Faults.none 7 sampleStore
        { userId := "u1", status := "rejected" }).1.activities.map
      (fun a => (a.type, a.details.reason)) =
      [("affiliate_rejected", some "Requirements not met")] ∧
    ((processAffiliatePostback Faults.none 7 sampleStore
        { userId := "u1", status := "rejected", reason := some "Duplicate lead" }).1.userTasks.get
      "u1_c1").map (fun c => c.rejectionReason) = some (some "Duplicate lead") ∧
    (processAffiliatePostback Faults.none 7 sampleStore
        { userId := "u1", status := "rejected", reason := some "Duplicate lead" }).1.activities.map
      (fun a => (a.type, a.details.reason)) =
      [("affiliate_rejected", some "Duplicate lead")] := by
  refine ⟨by decide, by decide, by decide, by decide⟩

end TaskWin
